import Mathlib

/-!
# epanet-rtx: `FirstDerivative` and `InfluxDbPointRecord`

A shallow embedding of `src/FirstDerivative.cpp` and of `src/InfluxDbPointRecord.cpp`
(identifier codec, write path, bulk operations, response decoding, connecting, the
catalog, deletion), with the properties of the specification stated and proved over it.

Conventions of the embedding

* `time_t` is `Int`; `std::string` is `List Char` (one `Char` per `char`), ordered
  lexicographically as `std::string::operator<` does.
* `double` is an abstract type `V`; the arithmetic the code performs on it is
  collected in `Env` (no law of arithmetic is assumed), so every statement that is
  generic in `V` holds for IEEE doubles as it does for exact rationals.
* `std::map<std::string, T>` is an association list kept strictly ascending by key
  (`smInsert`, `smErase`, `smFind`), which is the order in which `BOOST_FOREACH`
  walks the map.
* A rapidjson document is a `Json` value; an accessor that rapidjson guards with an
  assertion answers `Option`, and a function answers `none` where the C++ has no
  defined outcome (failed assertion, null document dereferenced).
* The HTTP server is a `Transport`: the answer to a request path, given the earlier
  requests, and the bodies of the write requests issued so far.
* Classes whose source is not part of `src/` (`Point`, `Units`, `TimeSeries`,
  `PointCollection`, `Query`) are taken as parameters or modelled from the
  specification; each such definition says so.
-/

namespace RTX

/-! ## Points, collections, units -/

/-- The sample type `Point` (`Point.h` is not part of `src/`): the fields the code
reads and writes. -/
structure Point (V : Type) where
  time : Int
  value : V
  quality : Int
  confidence : V
  isValid : Bool
deriving DecidableEq

/-- The collection `TimeSeries::PointCollection`: a vector of points tagged with a unit. -/
structure PointCollection (V U : Type) where
  points : List (Point V)
  units : U
deriving DecidableEq

/-- Embeds `PointCollection::count()`. -/
def PointCollection.count {V U : Type} (c : PointCollection V U) : Nat :=
  c.points.length

/-- What the code uses from `double`, from `Point`'s constructors and from `Units`,
none of which is defined under `src/`.  The fields are parameters: no property of
them is assumed. -/
structure Env (V U : Type) where
  /-- Embeds `a - b` on `double` -/
  sub : V → V → V
  /-- Embeds `a / b` on `double` -/
  div : V → V → V
  /-- Embeds `double(dt)` for a `time_t` -/
  ofTime : Int → V
  /-- value held by a default-constructed `Point()` -/
  zeroValue : V
  /-- default `quality` argument of `Point(time, value)` -/
  defaultQuality : Int
  /-- default `confidence` argument of `Point(time, value)` -/
  defaultConfidence : V
  /-- Embeds `Units::operator/` -/
  unitsDiv : U → U → U
  /-- Embeds `RTX_SECOND` -/
  RTX_SECOND : U
  /-- Embeds `RTX_DIMENSIONLESS` -/
  RTX_DIMENSIONLESS : U
  /-- Embeds `Units::isSameDimensionAs` -/
  isSameDimensionAs : U → U → Bool
  /-- Embeds `Units::isDimensionless` -/
  isDimensionless : U → Bool
  /-- Embeds `Units::convertValue(value, fromUnits, toUnits)` -/
  convertValue : V → U → U → V
  /-- Embeds `PointCollection::resample(set<time_t>)` -/
  resample : PointCollection V U → List Int → PointCollection V U

/-- Modelled from the spec: the default constructor `Point()` (missing: `Point.h`),
the sentinel invalid point, whose time is 0. -/
def Point.invalid {V U : Type} (E : Env V U) : Point V :=
  { time := 0, value := E.zeroValue, quality := E.defaultQuality,
    confidence := E.defaultConfidence, isValid := false }

/-- Modelled from the spec: the constructor `Point(time, value)` (missing: `Point.h`),
a valid sample with the default quality and confidence. -/
def Point.ofTimeValue {V U : Type} (E : Env V U) (t : Int) (v : V) : Point V :=
  { time := t, value := v, quality := E.defaultQuality,
    confidence := E.defaultConfidence, isValid := true }

/-- The `TimeSeries` capability a `FirstDerivative` reads its source through
(`TimeSeries.h` is not part of `src/`): `units()`, `pointAtOrBefore`, `pointBefore`,
`pointAfter` and `points(range)`. -/
structure TimeSeries (V U : Type) where
  units : U
  pointAtOrBefore : Int → Point V
  pointBefore : Int → Point V
  pointAfter : Int → Point V
  points : Int × Int → PointCollection V U

/-- Modelled from the spec: a `TimeSeries` (missing: `TimeSeries.cpp`) that holds the
given samples, listed in ascending time.  A lookup that finds nothing answers the
sentinel invalid point; `points (a, b)` answers the samples with `a ≤ time ≤ b`. -/
def TimeSeries.ofPoints {V U : Type} (E : Env V U) (u : U) (pts : List (Point V)) :
    TimeSeries V U :=
  { units := u
    pointAtOrBefore := fun t =>
      ((pts.filter (fun p => decide (p.time ≤ t))).getLast?).getD (Point.invalid E)
    pointBefore := fun t =>
      ((pts.filter (fun p => decide (p.time < t))).getLast?).getD (Point.invalid E)
    pointAfter := fun t =>
      (pts.find? (fun p => decide (t < p.time))).getD (Point.invalid E)
    points := fun r =>
      { points := pts.filter (fun p => decide (r.1 ≤ p.time) && decide (p.time ≤ r.2))
        units := u } }

/-! ## `FirstDerivative` -/

/-- The state of a `FirstDerivative` that the code in `FirstDerivative.cpp` touches:
its unit, its source (`source()` is null when unbound), whether it resamples
(`willResample()`), and its clock grid (`timeValuesInRange`). -/
structure FirstDerivative (V U : Type) where
  units : U
  source : Option (TimeSeries V U)
  willResample : Bool
  timeValuesInRange : Int × Int → List Int

/-- Lines 41-43: `while (seekRight.time > 0 && !seekRight.isValid) seekRight =
source->pointAfter(seekRight.time);`.  The loop need not terminate for an arbitrary
source, so it runs on fuel: `none` means the fuel ran out before the loop ended. -/
def seekRightLoop {V U : Type} (src : TimeSeries V U) : Nat → Point V → Option (Point V)
  | fuel, seekRight =>
    if 0 < seekRight.time ∧ seekRight.isValid = false then
      match fuel with
      | 0 => none
      | f + 1 => seekRightLoop src f (src.pointAfter seekRight.time)
    else some seekRight

/-- Lines 30-48 of `filterPointsInRange`: find `prior`, widen `range.second` to the
right, and read the source over `[prior.time, range.second]`.  Answers the widened
range together with `sourceData`. -/
def fetchWindow {V U : Type} (E : Env V U) (src : TimeSeries V U) (range : Int × Int)
    (fuel : Nat) : Option ((Int × Int) × PointCollection V U) :=
  -- left difference, so get one more to the left.
  let leftMostPoint := src.pointAtOrBefore range.1
  let prior := src.pointBefore leftMostPoint.time
  -- may not have a point here. if not, get the next one.
  let prior := if prior.time = 0 then src.pointAfter (range.1 - 1) else prior
  -- get next point in case it's out of the specified range
  let seekRight : Point V := { Point.invalid E with time := range.2 - 1 }
  match seekRightLoop src fuel seekRight with
  | none => none
  | some seekRight =>
    let range := if 0 < seekRight.time then (range.1, seekRight.time) else range
    some (range, src.points (prior.time, range.2))

/-- Lines 60-67: the cursor/prev loop; `prev` trails `cursor` by one element and one
output point is pushed per position of `cursor`. -/
def leftDifferences {V U : Type} (E : Env V U) (fromUnits toUnits : U) :
    Point V → List (Point V) → List (Point V)
  | _, [] => []
  | prev, cursor :: rest =>
    let dt := cursor.time - prev.time
    let dv := E.sub cursor.value prev.value
    let dvdt := E.convertValue (E.div dv (E.ofTime dt)) (E.unitsDiv fromUnits E.RTX_SECOND) toUnits
    Point.ofTimeValue E cursor.time dvdt :: leftDifferences E fromUnits toUnits cursor rest

/-- Embeds `FirstDerivative::filterPointsInRange`.  `none` stands for the two ways the C++
yields no value: the source pointer is null, or the seek-right loop is still running
when the fuel is spent. -/
def FirstDerivative.filterPointsInRange {V U : Type} (E : Env V U)
    (self : FirstDerivative V U) (range : Int × Int) (fuel : Nat) :
    Option (PointCollection V U) :=
  match self.source with
  | none => none
  | some src =>
    let data : PointCollection V U := { points := [], units := self.units }
    let fromUnits := src.units
    match fetchWindow E src range fuel with
    | none => none
    | some (range, sourceData) =>
      if sourceData.count < 2 then some data
      else
        let outPoints :=
          match sourceData.points with
          | [] => []
          | prev :: rest => leftDifferences E fromUnits self.units prev rest
        let data := { data with points := outPoints }
        if self.willResample then
          some (E.resample data (self.timeValuesInRange range))
        else some data

/-- Embeds `FirstDerivative::canSetSource`. -/
def FirstDerivative.canSetSource {V U : Type} (E : Env V U) (self : FirstDerivative V U)
    (ts : TimeSeries V U) : Bool :=
  self.source.isNone || E.isSameDimensionAs self.units (E.unitsDiv ts.units E.RTX_SECOND)

/-- Modelled from the spec: `TimeSeries::setUnits` (missing: `TimeSeries.cpp`) stores
the new unit. -/
def FirstDerivative.setUnits {V U : Type} (self : FirstDerivative V U) (newUnits : U) :
    FirstDerivative V U :=
  { self with units := newUnits }

/-- Embeds `FirstDerivative::didSetSource`. -/
def FirstDerivative.didSetSource {V U : Type} (E : Env V U) (self : FirstDerivative V U)
    (ts : TimeSeries V U) : FirstDerivative V U :=
  if E.isDimensionless self.units ||
      !E.isSameDimensionAs self.units (E.unitsDiv ts.units E.RTX_SECOND) then
    let newUnits := E.unitsDiv ts.units E.RTX_SECOND
    let newUnits := if E.isDimensionless newUnits then E.RTX_DIMENSIONLESS else newUnits
    self.setUnits newUnits
  else self

/-- Embeds `FirstDerivative::canChangeToUnits`. -/
def FirstDerivative.canChangeToUnits {V U : Type} (E : Env V U) (self : FirstDerivative V U)
    (units : U) : Bool :=
  match self.source with
  | none => true
  | some src =>
    if E.isSameDimensionAs units (E.unitsDiv src.units E.RTX_SECOND) then true else false

/-! ### A concrete environment

Exact rational arithmetic for `double`, and a small dimensional model of `Units`. -/

/-- Modelled from the spec: `Units` (missing: `Units.h`) as a conversion factor and the
exponents of the length and time dimensions; two units have the same dimension when
their exponents agree, and a unit is dimensionless when both exponents are zero. -/
structure DimUnits where
  conversion : ℚ
  length : Int
  time : Int
deriving DecidableEq

/-- The exact-arithmetic environment: `double` read as `ℚ`, `Units` as `DimUnits`,
`convertValue` rescaling by the ratio of the conversion factors, and a `resample`
that keeps the points lying on the requested times. -/
def ratEnv : Env ℚ DimUnits :=
  { sub := fun a b => a - b
    div := fun a b => a / b
    ofTime := fun t => (t : ℚ)
    zeroValue := 0
    defaultQuality := 0
    defaultConfidence := 0
    unitsDiv := fun a b =>
      { conversion := a.conversion / b.conversion, length := a.length - b.length,
        time := a.time - b.time }
    RTX_SECOND := { conversion := 1, length := 0, time := 1 }
    RTX_DIMENSIONLESS := { conversion := 1, length := 0, time := 0 }
    isSameDimensionAs := fun a b => decide (a.length = b.length) && decide (a.time = b.time)
    isDimensionless := fun a => decide (a.length = 0) && decide (a.time = 0)
    convertValue := fun v a b => v * a.conversion / b.conversion
    resample := fun c ts => { c with points := c.points.filter (fun p => decide (p.time ∈ ts)) } }

/-- The unit `metre`. -/
def metre : DimUnits := { conversion := 1, length := 1, time := 0 }

/-- The unit `metre per second`, which is `metre / RTX_SECOND`. -/
def metrePerSecond : DimUnits := { conversion := 1, length := 1, time := -1 }

/-- The unit `metre per minute`: same dimension as `metrePerSecond`, other factor. -/
def metrePerMinute : DimUnits := { conversion := 1 / 60, length := 1, time := -1 }

/-- The source series of the boundary example: samples (0,0), (10,5), (20,5) in metres. -/
def boundarySource : TimeSeries ℚ DimUnits :=
  TimeSeries.ofPoints ratEnv metre
    [Point.ofTimeValue ratEnv 0 0, Point.ofTimeValue ratEnv 10 5, Point.ofTimeValue ratEnv 20 5]

/-- A derivative of `boundarySource` in metres per second (so the unit conversion is
the identity), not resampling. -/
def boundaryDerivative : FirstDerivative ℚ DimUnits :=
  { units := metrePerSecond, source := some boundarySource, willResample := false,
    timeValuesInRange := fun _ => [] }

/-! ## Strings and maps -/

/-- A `std::string`, one `Char` per `char`. -/
abbrev Str := List Char

/-- Embeds `std::string::find(c)`: the index of the first `c`, `none` for `npos`. -/
def strFind (c : Char) : Str → Option Nat
  | [] => none
  | x :: xs => if x = c then some 0 else (strFind c xs).map (· + 1)

/-- Embeds `std::string::substr(pos, len)`, `len = none` standing for `npos` (to the end). -/
def substr (s : Str) (pos : Nat) (len : Option Nat) : Str :=
  match len with
  | none => s.drop pos
  | some n => (s.drop pos).take n

/-- A `std::map<K, T>`: the key/value pairs in strictly ascending key order. -/
abbrev SMap (κ β : Type) := List (κ × β)

/-- Embeds `m[k] = v` on a `std::map`: insert, or overwrite the value held under `k`. -/
def smInsert {κ β : Type} [LinearOrder κ] (k : κ) (v : β) : SMap κ β → SMap κ β
  | [] => [(k, v)]
  | (k', v') :: rest =>
    if k < k' then (k, v) :: (k', v') :: rest
    else if k' < k then (k', v') :: smInsert k v rest
    else (k, v) :: rest

/-- Embeds `m.erase(k)` on a `std::map`. -/
def smErase {κ β : Type} [LinearOrder κ] (k : κ) : SMap κ β → SMap κ β
  | [] => []
  | (k', v') :: rest =>
    if k < k' then (k', v') :: rest
    else if k' < k then (k', v') :: smErase k rest
    else rest

/-- Embeds `m.find(k)` on a `std::map`: the value under `k`, `none` for `end()`. -/
def smFind {κ β : Type} [LinearOrder κ] (k : κ) : SMap κ β → Option β
  | [] => none
  | (k', v') :: rest =>
    if k < k' then none
    else if k' < k then smFind k rest
    else some v'

/-- Embeds `m.count(k)` on a `std::map`: 1 when the key is present, else 0. -/
def smCount {κ β : Type} [LinearOrder κ] (k : κ) (m : SMap κ β) : Nat :=
  if (smFind k m).isSome then 1 else 0

/-- The representation invariant of a `std::map`: keys strictly ascending. -/
def SMap.WF {κ β : Type} [LinearOrder κ] (m : SMap κ β) : Prop :=
  m.Pairwise (fun a b => a.1 < b.1)

/-! ## The key/value regular expression

`metricInfoFromName` walks its argument with `boost::sregex_iterator` and the
expression `([^=]+)=([^,]+),?`.  Both groups are greedy runs over a negated
one-character class; the first must stop right before an `=` and the second is
followed by an optional separator, so at a given start position the expression has at
most one way to match and backtracking never finds another: the first group is the
whole run of non-`=` characters, the second the whole run of non-separator characters. -/

/-- An attempt to match `([^=]+)=([^sep]+)sep?` at the very start of `s`: the two
captured groups and the text left after the match. -/
def kvMatchAt (sep : Char) (s : Str) : Option (Str × Str × Str) :=
  let g1 := s.span (fun c => c ≠ '=')
  if g1.1 = [] then none
  else
    match g1.2 with
    | [] => none
    | _ :: afterEq =>
      let g2 := afterEq.span (fun c => c ≠ sep)
      if g2.1 = [] then none
      else
        match g2.2 with
        | [] => some (g1.1, g2.1, [])
        | _ :: afterSep => some (g1.1, g2.1, afterSep)

/-- Embeds `regex_search`: the match at the leftmost start position that has one. -/
def kvSearch (sep : Char) : Str → Option (Str × Str × Str)
  | [] => none
  | c :: cs =>
    match kvMatchAt sep (c :: cs) with
    | some r => some r
    | none => kvSearch sep cs

/-- The run of `sregex_iterator`: successive matches, each search starting where the
previous match ended.  A match consumes at least three characters, so the length of
the text bounds the number of rounds; `fuel` is that bound. -/
def kvIterate (sep : Char) : Nat → Str → List (Str × Str)
  | 0, _ => []
  | fuel + 1, s =>
    match kvSearch sep s with
    | none => []
    | some (k, v, rest) => (k, v) :: kvIterate sep fuel rest

/-- All `(group 1, group 2)` pairs the iterator yields over `s`, in order. -/
def kvMatches (sep : Char) (s : Str) : List (Str × Str) :=
  kvIterate sep s.length s

/-! ## `InfluxDbPointRecord`: identifier codec -/

/-- Embeds `InfluxDbPointRecord::MetricInfo`: a measurement and its `std::map` of tags. -/
structure MetricInfo where
  measurement : Str
  tags : SMap Str Str
deriving DecidableEq

/-- Embeds `InfluxDbPointRecord::metricInfoFromName`. -/
def metricInfoFromName (name : Str) : MetricInfo :=
  let firstComma := strFind ',' name
  -- measure name is everything up to the first comma, even if that's everything
  let measurement := substr name 0 firstComma
  match firstComma with
  | none => { measurement := measurement, tags := [] }
  | some firstComma =>
    -- a comma was found. therefore treat the name as tokenized
    let keysValuesStr := substr name (firstComma + 1) none
    { measurement := measurement
      tags := (kvMatches ',' keysValuesStr).foldl (fun tags kv => smInsert kv.1 kv.2 tags) [] }

/-- Embeds `InfluxDbPointRecord::nameFromMetricInfo`. -/
def nameFromMetricInfo (info : MetricInfo) : Str :=
  info.tags.foldl (fun ss p => ss ++ [','] ++ p.1 ++ ['='] ++ p.2) info.measurement

/-- Embeds `InfluxDbPointRecord::properId`. -/
def properId (id : Str) : Str :=
  nameFromMetricInfo (metricInfoFromName id)

/-- The text `,k=v` for each pair in list order: what follows the measurement in an
identifier `measurement[,k=v]*`. -/
def tagString : List (Str × Str) → Str
  | [] => []
  | kv :: rest => ',' :: (kv.1 ++ '=' :: (kv.2 ++ tagString rest))

/-- The text `k=v,k=v,...` (no leading comma) for the pairs in list order. -/
def kvBody : List (Str × Str) → Str
  | [] => []
  | kv :: rest => kv.1 ++ '=' :: (kv.2 ++ tagString rest)

/-- A tag pair that the key/value expression reads back as written: the key is
non-empty and free of `=`, the value is non-empty and free of `,`. -/
def TagReadable (kv : Str × Str) : Prop :=
  kv.1 ≠ [] ∧ '=' ∉ kv.1 ∧ kv.2 ≠ [] ∧ ',' ∉ kv.2

/-- A tag pair of a well-formed identifier `measurement[,k=v]*`: key and value are
non-empty and contain neither `,` nor `=`. -/
def TagWellFormed (kv : Str × Str) : Prop :=
  kv.1 ≠ [] ∧ ',' ∉ kv.1 ∧ '=' ∉ kv.1 ∧ kv.2 ≠ [] ∧ ',' ∉ kv.2 ∧ '=' ∉ kv.2

/-! ## `InfluxDbPointRecord`: state and storage identifiers -/

/-- The renderings the write path relies on, none of which is defined under `src/`:
`Units::unitString()`, `std::to_string(double)` and `operator<<(ostream&, double)`.
They are parameters: no property of them is assumed. -/
structure InfluxEnv (V U : Type) where
  /-- Embeds `Units::unitString()` -/
  unitString : U → Str
  /-- Embeds `std::to_string(double)` -/
  to_string : V → Str
  /-- Embeds `stringstream << double` -/
  streamDouble : V → Str

/-- Embeds `stringstream << n` for an integer (`int`, `time_t`): its decimal digits. -/
def streamInt (n : Int) : Str :=
  (toString n).toList

/-- The data members of `InfluxDbPointRecord` (constructor at lines 45-57). -/
structure InfluxDbPointRecord (U : Type) where
  _connected : Bool
  _lastIdRequest : Int
  host : Str
  user : Str
  pass : Str
  port : Int
  db : Str
  useTransactions : Bool
  _inBulkOperation : Bool
  _transactionLines : List Str
  _identifiersAndUnitsCache : SMap Str U
  errorMessage : Str

/-- The tag key `units`. -/
def unitsKey : Str := "units".toList

/-- Embeds `InfluxDbPointRecord::_influxIdForTsId`. -/
def InfluxDbPointRecord._influxIdForTsId {V U : Type} (F : InfluxEnv V U)
    (self : InfluxDbPointRecord U) (id : Str) : Str :=
  -- put named keys in proper order...
  let m := metricInfoFromName id
  let m := if smCount unitsKey m.tags ≠ 0 then { m with tags := smErase unitsKey m.tags } else m
  let tsId := nameFromMetricInfo m
  match smFind tsId self._identifiersAndUnitsCache with
  | none => []
  | some u =>
    let m := { m with tags := smInsert unitsKey (F.unitString u) m.tags }
    nameFromMetricInfo m

/-- Embeds `boost::replace_all(input, search, format)` for a non-empty `search`: every
occurrence found scanning left to right is replaced, the scan resuming after the
replaced text.  `fuel` bounds the number of steps by the length of the input. -/
def replaceAllAux (search format : Str) : Nat → Str → Str
  | 0, s => s
  | _ + 1, [] => []
  | fuel + 1, c :: cs =>
    if search.isPrefixOf (c :: cs) then
      format ++ replaceAllAux search format fuel ((c :: cs).drop search.length)
    else c :: replaceAllAux search format fuel cs

/-- Embeds `boost::replace_all`. -/
def replace_all (input search format : Str) : Str :=
  replaceAllAux search format input.length input

/-- Embeds `InfluxDbPointRecord::insertionLineFromPoints`: the `BOOST_FOREACH` over the
points threads the stream `ss` and the counter `i`. -/
def insertionLineFromPoints {V U : Type} (F : InfluxEnv V U) (tsName : Str)
    (points : List (Point V)) : Str :=
  -- escape any spaces in the tsName
  let tsNameEscaped := replace_all tsName " ".toList "\\ ".toList
  let loop := points.foldl
    (fun (st : Str × Nat) p =>
      let ss := if st.2 > 0 then st.1 ++ ['\n'] else st.1
      let valueStr := F.to_string p.value
      let ss := ss ++ tsNameEscaped ++ " value=".toList ++ valueStr ++ ",".toList
        ++ "quality=".toList ++ streamInt p.quality ++ "i,".toList ++ "confidence=".toList
        ++ F.streamDouble p.confidence ++ " ".toList ++ streamInt p.time
      (ss, st.2 + 1))
    (([] : Str), 0)
  loop.1

/-- The identifier as callers see it: parsed, the `units` tag removed, serialised
again.  It is the key under which `_influxIdForTsId` looks a series up in the catalog. -/
def tsIdOf (id : Str) : Str :=
  nameFromMetricInfo
    { measurement := (metricInfoFromName id).measurement
      tags := smErase unitsKey (metricInfoFromName id).tags }

/-- The text of `s` with every space replaced by backslash-space. -/
def escapeSpaces : Str → Str
  | [] => []
  | c :: cs => if c = ' ' then '\\' :: ' ' :: escapeSpaces cs else c :: escapeSpaces cs

/-- One line-protocol record: the escaped name, a space,
`value=<v>,quality=<q>i,confidence=<c>`, a space, and the time in epoch seconds. -/
def lineRecord {V U : Type} (F : InfluxEnv V U) (escapedName : Str) (p : Point V) : Str :=
  escapedName ++ " ".toList ++ "value=".toList ++ F.to_string p.value ++ ",quality=".toList
    ++ streamInt p.quality ++ "i,confidence=".toList ++ F.streamDouble p.confidence
    ++ " ".toList ++ streamInt p.time

/-- The records joined by single newline characters: none before the first record,
none after the last. -/
def joinLines : List Str → Str
  | [] => []
  | [l] => l
  | l :: l' :: rest => l ++ '\n' :: joinLines (l' :: rest)

/-- A source series without any sample, in metres. -/
def emptySource : TimeSeries ℚ DimUnits :=
  TimeSeries.ofPoints ratEnv metre []

/-- A derivative bound to `emptySource`. -/
def emptyDerivative : FirstDerivative ℚ DimUnits :=
  { units := metrePerSecond, source := some emptySource, willResample := false,
    timeValuesInRange := fun _ => [] }

/-- A derivative in metres per second with no source bound. -/
def unboundDerivative : FirstDerivative ℚ DimUnits :=
  { units := metrePerSecond, source := none, willResample := false,
    timeValuesInRange := fun _ => [] }

/-- A derivative in metres per minute with no source bound. -/
def perMinuteDerivative : FirstDerivative ℚ DimUnits :=
  { units := metrePerMinute, source := none, willResample := false,
    timeValuesInRange := fun _ => [] }

/-- A series measured in seconds, with no sample: its unit per second is
dimensionless, which is not the dimension of metres per second. -/
def secondsSource : TimeSeries ℚ DimUnits :=
  TimeSeries.ofPoints ratEnv ratEnv.RTX_SECOND []

/-! ### A concrete record -/

/-- Renderings for the exact-arithmetic environment: a unit is named by its
exponents, a number by its numerator and denominator. -/
def ratFmt : InfluxEnv ℚ DimUnits :=
  { unitString := fun u => "L".toList ++ streamInt u.length ++ "T".toList ++ streamInt u.time
    to_string := fun v => streamInt v.num ++ "/".toList ++ streamInt v.den
    streamDouble := fun v => streamInt v.num ++ "/".toList ++ streamInt v.den }

/-- A freshly constructed record (lines 45-57) in which the series `flow,site=a` has
been registered with unit `metre`. -/
def sampleRecord : InfluxDbPointRecord DimUnits :=
  { _connected := false, _lastIdRequest := 0, host := "*HOST*".toList, user := "*USER*".toList,
    pass := "*PASS*".toList, port := 8086, db := "*DB*".toList, useTransactions := true,
    _inBulkOperation := false, _transactionLines := [],
    _identifiersAndUnitsCache := [("flow,site=a".toList, metre)],
    errorMessage := [] }

/-- A rapidjson `Value`.  Integers and doubles are kept apart as rapidjson does; `V`
is the type of `double`. -/
inductive Json (V : Type) where
  | null : Json V
  | bool (b : Bool) : Json V
  | int (n : Int) : Json V
  | double (v : V) : Json V
  | str (s : Str) : Json V
  | arr (items : List (Json V)) : Json V
  | obj (members : List (Str × Json V)) : Json V

/-- Embeds `Value::IsNull()`. -/
def Json.IsNull {V : Type} : Json V → Bool
  | .null => true
  | _ => false

/-- Embeds `Value::IsObject()`. -/
def Json.IsObject {V : Type} : Json V → Bool
  | .obj _ => true
  | _ => false

/-- Embeds `Value::IsArray()`. -/
def Json.IsArray {V : Type} : Json V → Bool
  | .arr _ => true
  | _ => false

/-- The first member called `name` in a member list, as `FindMember` scans it. -/
def findMember {V : Type} (name : Str) : List (Str × Json V) → Option (Json V)
  | [] => none
  | (k, v) :: rest => if k = name then some v else findMember name rest

/-- Embeds `Value::HasMember(name)`.  rapidjson asserts that the value is an object:
`none` stands for the failed assertion. -/
def Json.HasMember {V : Type} (name : Str) : Json V → Option Bool
  | .obj members => some (findMember name members).isSome
  | _ => none

/-- Embeds `Value::operator[](const char*)`.  rapidjson asserts that the value is an
object and holds the member: `none` stands for the failed assertion. -/
def Json.member {V : Type} (name : Str) : Json V → Option (Json V)
  | .obj members => findMember name members
  | _ => none

/-- Embeds `Value::Size()`, asserted to be called on an array. -/
def Json.Size {V : Type} : Json V → Option Nat
  | .arr items => some items.length
  | _ => none

/-- The elements of an array value, `none` for any other value: what a loop
`for (i = 0; i < v.Size(); ++i) ... v[i]` walks. -/
def Json.elements {V : Type} : Json V → Option (List (Json V))
  | .arr items => some items
  | _ => none

/-- Embeds `Value::operator[](SizeType)`, asserted to be called on an array with the
index in range. -/
def Json.index {V : Type} (i : Nat) : Json V → Option (Json V)
  | .arr items => items[i]?
  | _ => none

/-- Embeds `Value::GetString()`, asserted to be called on a string. -/
def Json.GetString {V : Type} : Json V → Option Str
  | .str s => some s
  | _ => none

/-- Embeds `Value::GetInt()`, asserted to be called on a number that fits a 32-bit
`int` (`IsInt()`). -/
def Json.GetInt {V : Type} : Json V → Option Int
  | .int n => if -2147483648 ≤ n ∧ n ≤ 2147483647 then some n else none
  | _ => none

/-- Embeds `Value::GetDouble()`, asserted to be called on a number; an integer is
converted to `double` by `intToDouble`. -/
def Json.GetDouble {V : Type} (intToDouble : Int → V) : Json V → Option V
  | .int n => some (intToDouble n)
  | .double v => some v
  | _ => none

/-! ## Queries and the wire environment -/

/-- The query parts `DbPointRecord::Query` (its declaration is not part of `src/`):
the source, the predicate clauses in order, and the order/limit clause. -/
structure Query where
  «from» : Str
  «where» : List Str
  order : Str
deriving DecidableEq

/-- What the catalog, query and decoding code uses and `src/` does not define.  The
fields are parameters: no property of them is assumed. -/
structure WireEnv (V U : Type) where
  /-- conversion `(double)n` done by `GetDouble()` on an integer -/
  intToDouble : Int → V
  /-- value of `Point::opc_rtx_override` as an `int` -/
  opc_rtx_override : Int
  /-- text produced by `urlEncode`, which calls `curl_easy_escape` -/
  urlEncode : Str → Str
  /-- unit named by a string, `Units::unitOfType` -/
  unitOfType : Str → U
  /-- constant `RTX_NO_UNITS` -/
  RTX_NO_UNITS : U
  /-- text produced by `Query::nameAndWhereClause()` -/
  nameAndWhereClause : Query → Str
  /-- text produced by `Query::selectStr()` -/
  selectStr : Query → Str
  /-- default value of the parameter `appendTimePrecision` of `urlForQuery`, declared
  in `InfluxDbPointRecord.h` -/
  appendTimePrecision : Bool

/-- Modelled from the spec: the constructor `Point(time, value, quality, confidence)`
(missing: `Point.h`), a valid sample holding the four values. -/
def Point.ofAll {V : Type} (t : Int) (v : V) (q : Int) (c : V) : Point V :=
  { time := t, value := v, quality := q, confidence := c, isValid := true }

/-! ## `InfluxDbPointRecord::pointsFromJson` -/

/-- Lines 691-694: the loop that fills `columnMap`, `i` being the index reached. -/
def columnMapLoop {V : Type} : List (Json V) → Nat → SMap Str Int → Option (SMap Str Int)
  | [], _, columnMap => some columnMap
  | col :: rest, i, columnMap =>
    match col.GetString with
    | none => none
    | some colName => columnMapLoop rest (i + 1) (smInsert colName (i : Int) columnMap)

/-- Embeds `columnMap[name]` on the `std::map<string,int>`: the index stored under
`name`, and 0 (the value `operator[]` inserts) when the name is absent. -/
def columnIndex (columnMap : SMap Str Int) (name : Str) : Nat :=
  ((smFind name columnMap).getD 0).toNat

/-- Lines 710-716: one row decoded into a point. -/
def rowPoint {V U : Type} (W : WireEnv V U) (timeIndex valueIndex qualityIndex
    confidenceIndex : Nat) (row : Json V) : Option (Point V) :=
  match row.index timeIndex with
  | none => none
  | some timeEntry =>
    match timeEntry.GetInt with
    | none => none
    | some pointTime =>
      match row.index valueIndex with
      | none => none
      | some valueEntry =>
        match valueEntry.GetDouble W.intToDouble with
        | none => none
        | some pointValue =>
          match row.index qualityIndex with
          | none => none
          | some qualityEntry =>
            match (if qualityEntry.IsNull then some W.opc_rtx_override
                else qualityEntry.GetInt) with
            | none => none
            | some pointQuality =>
              match row.index confidenceIndex with
              | none => none
              | some confidenceEntry =>
                match confidenceEntry.GetDouble W.intToDouble with
                | none => none
                | some pointConf =>
                  some (Point.ofAll pointTime pointValue pointQuality pointConf)

/-- Lines 709-717: the loop over the rows, pushing one point per row. -/
def rowsLoop {V U : Type} (W : WireEnv V U) (timeIndex valueIndex qualityIndex
    confidenceIndex : Nat) : List (Json V) → Option (List (Point V))
  | [] => some []
  | row :: rest =>
    match rowPoint W timeIndex valueIndex qualityIndex confidenceIndex row with
    | none => none
    | some p =>
      match rowsLoop W timeIndex valueIndex qualityIndex confidenceIndex rest with
      | none => none
      | some ps => some (p :: ps)

/-- Lines 685-721 of `pointsFromJson`: decoding of `series[0]`. -/
def pointsFromSeries {V U : Type} (W : WireEnv V U) (tsData : Json V) :
    Option (List (Point V)) :=
  match tsData.member "name".toList with
  | none => none
  | some nameValue =>
    match nameValue.GetString with
    | none => none
    | some _measureName =>
      -- create a little map so we know what order the columns are in
      match tsData.member "columns".toList with
      | none => none
      | some columns =>
        match columns.elements with
        | none => none
        | some columnList =>
          match columnMapLoop columnList 0 [] with
          | none => none
          | some columnMap =>
            let timeIndex := columnIndex columnMap "time".toList
            let valueIndex := columnIndex columnMap "value".toList
            let qualityIndex := columnIndex columnMap "quality".toList
            let confidenceIndex := columnIndex columnMap "confidence".toList
            -- now go through each returned row and create a point.
            match tsData.member "values".toList with
            | none => none
            | some pointRows =>
              if pointRows.IsArray = false ∨ pointRows.Size = some 0 then some []
              else
                match pointRows.elements with
                | none => none
                | some rows => rowsLoop W timeIndex valueIndex qualityIndex confidenceIndex rows

/-- Embeds `InfluxDbPointRecord::pointsFromJson`.  The argument is `none` for a null
`JsonDocPtr`; the result is `none` when a rapidjson assertion fails. -/
def pointsFromJson {V U : Type} (W : WireEnv V U) (doc : Option (Json V)) :
    Option (List (Point V)) :=
  match doc with
  | none => some []
  | some doc =>
    if doc.IsObject = false then some []
    else
      match doc.HasMember "results".toList with
      | none => none
      | some false => some []
      | some true =>
        match doc.member "results".toList with
        | none => none
        | some results =>
          if results.IsArray = false ∨ results.Size = some 0 then some []
          else
            match results.index 0 with
            | none => none
            | some rzero =>
              if rzero.IsObject = false then some []
              else
                match rzero.HasMember "series".toList with
                | none => none
                | some false => some []
                | some true =>
                  match rzero.member "series".toList with
                  | none => none
                  | some series =>
                    if series.IsArray = false ∨ series.Size = some 0 then some []
                    else
                      match series.index 0 with
                      | none => none
                      | some tsData => pointsFromSeries W tsData

/-- A value that is an array with at least one element. -/
def Json.IsNonEmptyArray {V : Type} : Json V → Prop
  | .arr (_ :: _) => True
  | _ => False

/-- A response document without a usable `results[0].series[0]`: it is absent, or not
an object, or lacks `results`, or `results` is not a non-empty array, or the first
result is not an object or lacks `series`, or `series` is not a non-empty array. -/
def MalformedResponse {V : Type} : Option (Json V) → Prop
  | none => True
  | some doc =>
    doc.IsObject = false ∨
    doc.member "results".toList = none ∨
    ∃ results, doc.member "results".toList = some results ∧
      (¬ results.IsNonEmptyArray ∨
        ∃ rzero, results.index 0 = some rzero ∧
          (rzero.IsObject = false ∨
            rzero.member "series".toList = none ∨
            ∃ series, rzero.member "series".toList = some series ∧
              ¬ series.IsNonEmptyArray))

/-- The series `results[0].series[0]` of a response document, when the document has
that shape. -/
def firstSeries {V : Type} (doc : Json V) : Option (Json V) :=
  match doc.member "results".toList with
  | some (.arr (rzero :: _)) =>
    match rzero.member "series".toList with
    | some (.arr (tsData :: _)) => some tsData
    | _ => none
  | _ => none

/-- The number of columns called `name`. -/
def occurrences (name : Str) : List Str → Nat
  | [] => 0
  | c :: cs => if c = name then occurrences name cs + 1 else occurrences name cs

/-- The position of the first column called `name` (the number of columns when there
is none). -/
def columnPosition (name : Str) : List Str → Nat
  | [] => 0
  | c :: cs => if c = name then 0 else columnPosition name cs + 1

/-- A number that fits a 32-bit `int`. -/
def IsInt32 (n : Int) : Prop :=
  -2147483648 ≤ n ∧ n ≤ 2147483647

/-- A series object with a string `name`, the column names `cols`, each of `time`,
`value`, `quality` and `confidence` among them exactly once, and the rows `rows`. -/
structure SeriesShape {V : Type} (tsData : Json V) (cols : List Str)
    (rows : List (List (Json V))) : Prop where
  name : ∃ nm : Str, tsData.member "name".toList = some (.str nm)
  columns : tsData.member "columns".toList = some (.arr (cols.map Json.str))
  values : tsData.member "values".toList = some (.arr (rows.map Json.arr))
  time_once : occurrences "time".toList cols = 1
  value_once : occurrences "value".toList cols = 1
  quality_once : occurrences "quality".toList cols = 1
  confidence_once : occurrences "confidence".toList cols = 1

/-! ### A concrete wire environment and sample responses -/

/-- The text of the clauses joined by ` AND `. -/
def joinAnd : List Str → Str
  | [] => []
  | [c] => c
  | c :: c' :: rest => c ++ " AND ".toList ++ joinAnd (c' :: rest)

/-- A wire environment for the exact-arithmetic model: integers convert exactly, no
character is escaped in a URL, units are named as `ratFmt` renders them, and a query
renders as `source WHERE clause AND clause ...`. -/
def ratWire : WireEnv ℚ DimUnits :=
  { intToDouble := fun n => (n : ℚ)
    opc_rtx_override := 16
    urlEncode := fun s => s
    unitOfType := fun s =>
      if s = "L1T0".toList then metre
      else if s = "L1T-1".toList then metrePerSecond
      else { conversion := 1, length := 0, time := 0 }
    RTX_NO_UNITS := { conversion := 0, length := 0, time := 0 }
    nameAndWhereClause := fun q =>
      if q.«where» = [] then q.«from» else q.«from» ++ " WHERE ".toList ++ joinAnd q.«where»
    selectStr := fun q =>
      "SELECT time, value, quality, confidence FROM ".toList ++ q.«from» ++
        (if q.«where» = [] then [] else " WHERE ".toList ++ joinAnd q.«where») ++
        (if q.order = [] then [] else " ORDER BY ".toList ++ q.order)
    appendTimePrecision := true }

/-- Column names in the order `time, value, quality, confidence`. -/
def sampleCols : List Str :=
  ["time".toList, "value".toList, "quality".toList, "confidence".toList]

/-- Two rows for `sampleCols`: a null quality, then quality 192. -/
def sampleRows : List (List (Json ℚ)) :=
  [[.int 5, .double (3 / 2), .null, .int 1], [.int 10, .int 2, .int 192, .double (1 / 2)]]

/-- The same column names in the order `value, time, confidence, quality`. -/
def permutedCols : List Str :=
  ["value".toList, "time".toList, "confidence".toList, "quality".toList]

/-- The rows of `sampleRows` with their entries reordered as `permutedCols` is. -/
def permutedRows : List (List (Json ℚ)) :=
  [[.double (3 / 2), .int 5, .int 1, .null], [.int 2, .int 10, .double (1 / 2), .int 192]]

/-- A series object named `flow` with the given columns and rows. -/
def seriesObject (cols : List Str) (rows : List (List (Json ℚ))) : Json ℚ :=
  .obj [("name".toList, .str "flow".toList), ("columns".toList, .arr (cols.map Json.str)),
    ("values".toList, .arr (rows.map Json.arr))]

/-- A response document whose `results[0].series[0]` is the given series. -/
def responseWith (tsData : Json ℚ) : Json ℚ :=
  .obj [("results".toList, .arr [.obj [("series".toList, .arr [tsData])]])]

/-- An error response: an object with an `error` member and no `results`. -/
def errorResponse : Json ℚ :=
  .obj [("error".toList, .str "database not found".toList)]

/-! ## `InfluxDbPointRecord`: bulk operations -/

/-- Modelled from the spec: the HTTP server as seen through `jsonFromPath` (the network
is not part of `src/`).  `respond earlier path` is the document the server answers to
a `GET path` made after the requests `earlier`: `none` when the connection cannot be
opened (the null `JsonDocPtr`), `Json.null` for a body that does not parse.
`requests` lists the paths requested so far, oldest first; `writes` lists the bodies of
the write requests (`POST /write`) issued so far, oldest first. -/
structure Transport (V : Type) where
  respond : List Str → Str → Option (Json V)
  requests : List Str
  writes : List Str

/-- Embeds `InfluxDbPointRecord::jsonFromPath`: one request, whose answer is the
server's. -/
def jsonFromPath {V : Type} (net : Transport V) (url : Str) :
    Option (Json V) × Transport V :=
  (net.respond net.requests url, { net with requests := net.requests ++ [url] })

/-- Embeds `InfluxDbPointRecord::urlForQuery`. -/
def InfluxDbPointRecord.urlForQuery {V U : Type} (W : WireEnv V U)
    (self : InfluxDbPointRecord U) (query : Str) (appendTimePrecision : Bool) : Str :=
  "/query?db=".toList ++ self.db ++ "&u=".toList ++ self.user ++ "&p=".toList ++ self.pass
    ++ "&q=".toList ++ W.urlEncode query
    ++ (if appendTimePrecision then "&epoch=s".toList else [])

/-- The path of the liveness probe (line 67). -/
def InfluxDbPointRecord.pingPath {U : Type} (self : InfluxDbPointRecord U) : Str :=
  "/ping?u=".toList ++ self.user ++ "&p=".toList ++ self.pass

/-- The path of the catalog probe (line 80). -/
def InfluxDbPointRecord.probePath {V U : Type} (W : WireEnv V U)
    (self : InfluxDbPointRecord U) : Str :=
  "/query?db=".toList ++ self.db ++ "&u=".toList ++ self.user ++ "&p=".toList ++ self.pass
    ++ "&q=".toList ++ W.urlEncode "SHOW MEASUREMENTS LIMIT 1".toList

/-- The path of the create-database statement (line 115). -/
def InfluxDbPointRecord.createPath {V U : Type} (W : WireEnv V U)
    (self : InfluxDbPointRecord U) : Str :=
  "/query?u=".toList ++ self.user ++ "&p=".toList ++ self.pass
    ++ "&q=".toList ++ W.urlEncode ("CREATE DATABASE ".toList ++ self.db)

/-- The test `doc->IsNull() || !doc->HasMember("results")`; `HasMember` is reached
only for a non-null document. -/
def nullOrLacksResults {V : Type} (doc : Json V) : Option Bool :=
  if doc.IsNull then some true
  else
    match doc.HasMember "results".toList with
    | none => none
    | some has => some (!has)

/-- Lines 112-126 of `dbConnect`: create the database when it does not exist, then
mark the record connected. -/
def InfluxDbPointRecord.createIfMissing {V U : Type} (W : WireEnv V U)
    (self : InfluxDbPointRecord U) (net : Transport V) (dbExists : Bool) :
    Option (InfluxDbPointRecord U × Transport V) :=
  if dbExists = false then
    -- create the database?
    match jsonFromPath net (self.createPath W) with
    | (none, _) => none
    | (some doc, net) =>
      match nullOrLacksResults doc with
      | none => none
      | some true => some ({ self with errorMessage := "Can't create database".toList }, net)
      | some false =>
        -- made it this far? at least we are connected.
        some ({ self with _connected := true, errorMessage := "OK".toList }, net)
  else
    some ({ self with _connected := true, errorMessage := "OK".toList }, net)

/-- Embeds `InfluxDbPointRecord::dbConnect`.  The result is `none` when the C++ has no
defined outcome: a null document is dereferenced (lines 83, 117) or a rapidjson
assertion fails. -/
def InfluxDbPointRecord.dbConnect {V U : Type} (W : WireEnv V U)
    (self : InfluxDbPointRecord U) (net : Transport V) :
    Option (InfluxDbPointRecord U × Transport V) :=
  let self := { self with _connected := false, errorMessage := "Connecting...".toList }
  match jsonFromPath net self.pingPath with
  | (none, net) => some ({ self with errorMessage := "Could Not Connect".toList }, net)
  | (some pingDoc, net) =>
    if pingDoc.IsNull then
      some ({ self with errorMessage := "Could Not Connect".toList }, net)
    else
      -- see if the database needs to be created
      match jsonFromPath net (self.probePath W) with
      | (none, _) => none
      | (some doc, net) =>
        match nullOrLacksResults doc with
        | none => none
        | some true =>
          match doc.HasMember "error".toList with
          | none => none
          | some true =>
            match (doc.member "error".toList).bind Json.GetString with
            | none => none
            | some msg => some ({ self with errorMessage := msg }, net)
          | some false =>
            some ({ self with errorMessage := "Connect failed: No Database?".toList }, net)
        | some false =>
          -- get the results, see if there are errors.
          match doc.member "results".toList with
          | none => none
          | some results =>
            if results.IsArray = false ∨ results.Size = some 0 then
              some ({ self with errorMessage := "JSON Format Not Recognized".toList }, net)
            else
              match results.index 0 with
              | none => none
              | some firstResult =>
                match firstResult.HasMember "error".toList with
                | none => none
                | some true =>
                  match (firstResult.member "error".toList).bind Json.GetString with
                  | none => none
                  | some msg =>
                    ({ self with errorMessage := msg }).createIfMissing W net false
                | some false => self.createIfMissing W net true

/-- Lines 286-298 of `identifiersAndUnits`: the loop over the entries of one row,
`j` being the index reached; the tag `columns[j] = row[j]` is recorded unless the
column is `_key` or the entry is empty. -/
def tagsLoop {V : Type} (columns : Json V) : List (Json V) → Nat → SMap Str Str →
    Option (SMap Str Str)
  | [], _, tags => some tags
  | entry :: rest, j, tags =>
    match (columns.index j).bind Json.GetString with
    | none => none
    | some tsKeyStr =>
      match entry.GetString with
      | none => none
      | some tsValStr =>
        -- exclude internal influx _key:
        if tsKeyStr = "_key".toList then tagsLoop columns rest (j + 1) tags
        -- exclude empty valued keys
        else if tsValStr = [] then tagsLoop columns rest (j + 1) tags
        else tagsLoop columns rest (j + 1) (smInsert tsKeyStr tsValStr tags)

/-- Lines 300-313: the units are taken out of the tags and the series is entered in
the catalog under its name without them. -/
def registerSeries {V U : Type} (W : WireEnv V U) (m : MetricInfo)
    (cache : SMap Str U) : SMap Str U :=
  -- do we have units info? strip it off before showing the user.
  let units := match smFind unitsKey m.tags with
    | some u => W.unitOfType u
    | none => W.RTX_NO_UNITS
  let m := match smFind unitsKey m.tags with
    | some _ => { m with tags := smErase unitsKey m.tags }
    | none => m
  -- now assemble the complete name:
  let properId := nameFromMetricInfo m
  smInsert properId units cache

/-- Lines 280-315: the loop over the rows of one series (one time series per row). -/
def valuesLoop {V U : Type} (W : WireEnv V U) (thisMeasureName : Str) (columns : Json V) :
    List (Json V) → SMap Str U → Option (SMap Str U)
  | [], cache => some cache
  | thisTsValues :: rest, cache =>
    match thisTsValues.elements with
    | none => none
    | some entries =>
      match tagsLoop columns entries 0 [] with
      | none => none
      | some tags =>
        valuesLoop W thisMeasureName columns rest
          (registerSeries W { measurement := thisMeasureName, tags := tags } cache)

/-- Lines 273-316: the loop over the series of the response. -/
def seriesLoop {V U : Type} (W : WireEnv V U) : List (Json V) → SMap Str U →
    Option (SMap Str U)
  | [], cache => some cache
  | thisSeries :: rest, cache =>
    match (thisSeries.member "name".toList).bind Json.GetString with
    | none => none
    | some thisMeasureName =>
      match thisSeries.member "columns".toList with
      | none => none
      | some columns =>
        match (thisSeries.member "values".toList).bind Json.elements with
        | none => none
        | some valuesArr =>
          match valuesLoop W thisMeasureName columns valuesArr cache with
          | none => none
          | some cache => seriesLoop W rest cache

/-- Lines 256-319: the catalog rebuilt from the answer to `show series`, starting from
the catalog `cache` (which the caller has just cleared). -/
def catalogFromJson {V U : Type} (W : WireEnv V U) (js : Json V) (cache : SMap Str U) :
    Option (SMap Str U) :=
  match nullOrLacksResults js with
  | none => none
  | some true => some cache
  | some false =>
    match js.member "results".toList with
    | none => none
    | some results =>
      if results.IsArray = false ∨ results.Size = some 0 then some cache
      else
        match results.index 0 with
        | none => none
        | some rzero =>
          if rzero.IsObject = false then some cache
          else
            match rzero.HasMember "series".toList with
            | none => none
            | some false => some cache
            | some true =>
              match rzero.member "series".toList with
              | none => none
              | some series =>
                if series.IsArray = false ∨ series.Size = some 0 then some cache
                else
                  match series.elements with
                  | none => none
                  | some seriesList => seriesLoop W seriesList cache

/-- Embeds `InfluxDbPointRecord::identifiersAndUnits`, called when the clock reads
`now`: the mapping returned, the record and the transport after the call.  The result
is `none` when the C++ has no defined outcome (see `dbConnect`).  Modelled from the
spec: `DbPointRecord::identifiersAndUnits()` (missing: `PointRecord.cpp`) returns the
catalog; `isConnected()` reads `_connected`. -/
def InfluxDbPointRecord.identifiersAndUnits {V U : Type} (W : WireEnv V U) (now : Int)
    (self : InfluxDbPointRecord U) (net : Transport V) :
    Option (SMap Str U × InfluxDbPointRecord U × Transport V) :=
  -- quick cache hit. 5-second validity window.
  if now - self._lastIdRequest < 5 ∧ self._identifiersAndUnitsCache.isEmpty = false then
    some (self._identifiersAndUnitsCache, self, net)
  else
    let self := { self with _lastIdRequest := now, _identifiersAndUnitsCache := [] }
    match (if self._connected = false then self.dbConnect W net else some (self, net)) with
    | none => none
    | some (self, net) =>
      if self._connected = false then some (self._identifiersAndUnitsCache, self, net)
      else
        match jsonFromPath net (self.urlForQuery W "show series".toList false) with
        | (none, net) => some (self._identifiersAndUnitsCache, self, net)
        | (some js, net) =>
          match catalogFromJson W js self._identifiersAndUnitsCache with
          | none => none
          | some cache =>
            some (cache, { self with _identifiersAndUnitsCache := cache }, net)

/-! ### Sample servers -/

/-- A server that cannot be reached: no request is answered. -/
def deadNet : Transport ℚ :=
  { respond := fun _ _ => none, requests := [], writes := [] }

/-- The answer to the catalog probe when the database does not exist: the first result
carries an `error` member. -/
def noDatabaseResponse : Json ℚ :=
  .obj [("results".toList, .arr [.obj [("error".toList, .str "database not found".toList)]])]

/-- A successful answer without data: one empty result. -/
def emptyResultResponse : Json ℚ :=
  .obj [("results".toList, .arr [.obj []])]

/-- A server on which the database of `sampleRecord` does not exist yet: the ping is
answered with an empty document, the catalog probe with `noDatabaseResponse`, and the
create-database statement with `emptyResultResponse`. -/
def freshServerNet : Transport ℚ :=
  { respond := fun _ path =>
      if path = sampleRecord.pingPath then some (.obj [])
      else if path = sampleRecord.probePath ratWire then some noDatabaseResponse
      else if path = sampleRecord.createPath ratWire then some emptyResultResponse
      else none
    requests := []
    writes := [] }

/-- The record `sampleRecord` marked connected, its catalog last refreshed at time 0. -/
def connectedRecord : InfluxDbPointRecord DimUnits :=
  { sampleRecord with _connected := true }

/-- The record `connectedRecord` with an empty catalog. -/
def connectedEmptyRecord : InfluxDbPointRecord DimUnits :=
  { sampleRecord with _connected := true, _identifiersAndUnitsCache := [] }

/-- The answer to `show series` of a server that holds the series `flow,site=a` in
metres. -/
def showSeriesResponse : Json ℚ :=
  responseWith (.obj [("name".toList, .str "flow".toList),
    ("columns".toList, .arr [.str "_key".toList, .str "site".toList, .str "units".toList]),
    ("values".toList, .arr [.arr [.str "flow,site=a,units=L1T0".toList, .str "a".toList,
      .str "L1T0".toList]])])

/-- A server that answers `show series` with `showSeriesResponse` and nothing else. -/
def catalogNet : Transport ℚ :=
  { respond := fun _ path =>
      if path = connectedRecord.urlForQuery ratWire "show series".toList false then
        some showSeriesResponse
      else none
    requests := []
    writes := [] }

/-- A server that holds no series: `show series` is answered with one empty result. -/
def emptyCatalogNet : Transport ℚ :=
  { respond := fun _ path =>
      if path = connectedRecord.urlForQuery ratWire "show series".toList false then
        some emptyResultResponse
      else none
    requests := []
    writes := [] }

/-! ## Resampling grid, query parts, deletion -/

/-- Modelled from the spec: `TimeSeries::timeValuesInRange` (missing: `TimeSeries.cpp`)
for a regular clock: the multiples of `period` that lie in `[range.first, range.second]`,
ascending. -/
def clockTimes (period : Nat) (range : Int × Int) : List Int :=
  ((List.range (range.2 - range.1 + 1).toNat).map (fun k => range.1 + (k : Int))).filter
    (fun t => decide (t % (period : Int) = 0))

/-- The derivative of the boundary example, configured to resample on a clock of
period 5. -/
def gridDerivative : FirstDerivative ℚ DimUnits :=
  { units := metrePerSecond, source := some boundarySource, willResample := true,
    timeValuesInRange := clockTimes 5 }

/-- Modelled from the spec: a default-constructed `DbPointRecord::Query` (its
declaration is not part of `src/`): no source, no predicate, no order/limit clause. -/
def Query.empty : Query :=
  { «from» := [], «where» := [], order := [] }

/-- Embeds `InfluxDbPointRecord::queryPartsFromMetricId`. -/
def queryPartsFromMetricId (name : Str) : Query :=
  let m := metricInfoFromName name
  let q := Query.empty
  let q := { q with «from» := "\"".toList ++ m.measurement ++ "\"".toList }
  if m.tags.length > 0 then
    m.tags.foldl
      (fun (q : Query) p =>
        { q with «where» := q.«where» ++ [p.1 ++ "='".toList ++ p.2 ++ "'".toList] })
      q
  else q

/-- Lines 388-391 of `selectRange`: the query built for the storage identifier, with
the two time bounds appended. -/
def InfluxDbPointRecord.selectRangeQuery {V U : Type} (F : InfluxEnv V U)
    (self : InfluxDbPointRecord U) (id : Str) (startTime endTime : Int) : Query :=
  let dbId := self._influxIdForTsId F id
  let q := queryPartsFromMetricId dbId
  let q := { q with «where» := q.«where» ++ ["time >= ".toList ++ streamInt startTime ++ "s".toList] }
  { q with «where» := q.«where» ++ ["time <= ".toList ++ streamInt endTime ++ "s".toList] }

/-- Lines 523-524 of `removeRecord`: the storage identifier `dbId` is computed, and the
query is built from `id`. -/
def InfluxDbPointRecord.removeRecordQuery {V U : Type} (F : InfluxEnv V U)
    (self : InfluxDbPointRecord U) (id : Str) : Query :=
  let _dbId := self._influxIdForTsId F id
  queryPartsFromMetricId id

/-- Embeds `InfluxDbPointRecord::removeRecord`: the drop-series statement is sent as one
request. -/
def InfluxDbPointRecord.removeRecord {V U : Type} (F : InfluxEnv V U) (W : WireEnv V U)
    (self : InfluxDbPointRecord U) (net : Transport V) (id : Str) : Transport V :=
  let q := self.removeRecordQuery F id
  let sql := "DROP SERIES FROM ".toList ++ W.nameAndWhereClause q
  let url := self.urlForQuery W sql false
  (jsonFromPath net url).2

/-- Embeds `m[k]` read on a `std::map`: the value under `k`; when the key is absent a
default-constructed value is inserted and returned. -/
def smIndex {κ β : Type} [LinearOrder κ] (k : κ) (dflt : β) (m : SMap κ β) : β × SMap κ β :=
  match smFind k m with
  | some v => (v, m)
  | none => (dflt, smInsert k dflt m)

/-- Embeds `InfluxDbPointRecord::_influxIdForTsId` with its effect on the record: the
lookup `_identifiersAndUnitsCache[tsId]` of line 373 is `operator[]`, which may insert;
`defaultUnits` is the default-constructed `Units`.  Answers the identifier and the
record after the call. -/
def InfluxDbPointRecord._influxIdForTsId_state {V U : Type} (F : InfluxEnv V U)
    (defaultUnits : U) (self : InfluxDbPointRecord U) (id : Str) :
    Str × InfluxDbPointRecord U :=
  -- put named keys in proper order...
  let m := metricInfoFromName id
  let m := if smCount unitsKey m.tags ≠ 0 then { m with tags := smErase unitsKey m.tags } else m
  let tsId := nameFromMetricInfo m
  if smCount tsId self._identifiersAndUnitsCache = 0 then ([], self)
  else
    let looked := smIndex tsId defaultUnits self._identifiersAndUnitsCache
    let m := { m with tags := smInsert unitsKey (F.unitString looked.1) m.tags }
    (nameFromMetricInfo m, { self with _identifiersAndUnitsCache := looked.2 })

/-! ## `InfluxDbPointRecord`: select and insert -/

/-- Embeds `InfluxDbPointRecord::selectRange`: the points decoded from the answer to
the select, and the transport after the request.  `urlForQuery` is called without its
second argument, whose default is `W.appendTimePrecision`.  The result is `none` where
`pointsFromJson` has no defined outcome. -/
def InfluxDbPointRecord.selectRange {V U : Type} (F : InfluxEnv V U) (W : WireEnv V U)
    (self : InfluxDbPointRecord U) (net : Transport V) (id : Str) (startTime endTime : Int) :
    Option (List (Point V) × Transport V) :=
  let q := self.selectRangeQuery F id startTime endTime
  let url := self.urlForQuery W (W.selectStr q) W.appendTimePrecision
  match jsonFromPath net url with
  | (doc, net) =>
    match pointsFromJson W doc with
    | none => none
    | some points => some (points, net)

/-- Embeds `InfluxDbPointRecord::sendPointsWithString`: one write request
(`POST /write`) with the body `content` is issued.  Modelled from the spec: the socket
exchange itself (Boost.Asio, not part of `src/`) is not represented; the request is
recorded in `writes`. -/
def sendPointsWithString {V : Type} (net : Transport V) (content : Str) : Transport V :=
  { net with writes := net.writes ++ [content] }

/-- Embeds `InfluxDbPointRecord::insertRange`: the record and the transport after the
call, `none` where the decoding of the probe's answer has no defined outcome.  The
answer to the `select count(value)` request of lines 459-461 is not used. -/
def InfluxDbPointRecord.insertRange {V U : Type} (F : InfluxEnv V U) (W : WireEnv V U)
    (self : InfluxDbPointRecord U) (net : Transport V) (id : Str) (points : List (Point V)) :
    Option (InfluxDbPointRecord U × Transport V) :=
  let dbId := self._influxIdForTsId F id
  match points with
  | [] => some (self, net)
  | front :: rest =>
    let back := (front :: rest).getLast (List.cons_ne_nil front rest)
    -- is there anything here?
    let q := "select count(value) from ".toList ++ dbId
    let url := self.urlForQuery W q false
    let net := (jsonFromPath net url).2
    match self.selectRange F W net dbId (front.time - 1) (back.time + 1) with
    | none => none
    | some (existing, net) =>
      let existingMap : SMap Int Bool :=
        existing.foldl (fun m p => smInsert p.time true m) []
      let insertionPoints :=
        (front :: rest).filter (fun p => smCount p.time existingMap == 0)
      if insertionPoints.length = 0 then some (self, net)
      else
        let content := insertionLineFromPoints F dbId insertionPoints
        if self._inBulkOperation then
          some ({ self with _transactionLines := self._transactionLines ++ [content] }, net)
        else some (self, sendPointsWithString net content)

/-- Embeds `InfluxDbPointRecord::insertSingle`. -/
def InfluxDbPointRecord.insertSingle {V U : Type} (F : InfluxEnv V U) (W : WireEnv V U)
    (self : InfluxDbPointRecord U) (net : Transport V) (id : Str) (point : Point V) :
    Option (InfluxDbPointRecord U × Transport V) :=
  let points := [point]
  self.insertRange F W net id points

/-- Embeds `InfluxDbPointRecord::connectionString`. -/
def InfluxDbPointRecord.connectionString {U : Type} (self : InfluxDbPointRecord U) : Str :=
  "host=".toList ++ self.host ++ "&port=".toList ++ streamInt self.port ++
    "&db=".toList ++ self.db ++ "&u=".toList ++ self.user ++ "&p=".toList ++ self.pass

/-- The value of a decimal digit character; `none` for any other character. -/
def digitValue (c : Char) : Option Nat :=
  if 48 ≤ c.toNat ∧ c.toNat ≤ 57 then some (c.toNat - 48) else none

/-- Reads a run of decimal digits, most significant first, onto the value read so far;
`none` when a character is not a digit. -/
def readDigits : Nat → Str → Option Nat
  | acc, [] => some acc
  | acc, c :: cs =>
    match digitValue c with
    | none => none
    | some d => readDigits (acc * 10 + d) cs

/-- The digits of a signed decimal number whose sign has been read: at least one digit,
nothing but digits, and a value that a 32-bit `int` holds. -/
def readSigned (negative : Bool) (digits : Str) : Option Int :=
  if digits = [] then none
  else
    match readDigits 0 digits with
    | none => none
    | some n =>
      let v : Int := if negative then -(n : Int) else (n : Int)
      if -2147483648 ≤ v ∧ v ≤ 2147483647 then some v else none

/-- Embeds `boost::lexical_cast<int>(s)` (Boost is not part of `src/`): an optional sign
followed by decimal digits and nothing else, with a value in the range of `int`.
`none` stands for `bad_lexical_cast` being thrown. -/
def lexical_cast_int (s : Str) : Option Int :=
  match s with
  | '-' :: digits => readSigned true digits
  | '+' :: digits => readSigned false digits
  | digits => readSigned false digits

/-- Embeds `InfluxDbPointRecord::setConnectionString`.  After a successful
`kvPairs.find(k)` the read `kvPairs[k]` is the value found.  `none` stands for the
exception of `lexical_cast` leaving the function. -/
def InfluxDbPointRecord.setConnectionString {U : Type} (self : InfluxDbPointRecord U)
    (str : Str) : Option (InfluxDbPointRecord U) :=
  -- split the tokenized string. we're expecting something like "host=127.0.0.1&port=4242"
  let kvPairs : SMap Str Str :=
    (kvMatches '&' str).foldl (fun kvPairs kv => smInsert kv.1 kv.2 kvPairs) []
  let self :=
    match smFind "host".toList kvPairs with
    | some v => { self with host := v }
    | none => self
  let ported :=
    match smFind "port".toList kvPairs with
    | some v => (lexical_cast_int v).map (fun intPort => { self with port := intPort })
    | none => some self
  match ported with
  | none => none
  | some self =>
    let self :=
      match smFind "db".toList kvPairs with
      | some v => { self with db := v }
      | none => self
    let self :=
      match smFind "u".toList kvPairs with
      | some v => { self with user := v }
      | none => self
    let self :=
      match smFind "p".toList kvPairs with
      | some v => { self with pass := v }
      | none => self
    some self

/-- The text `k=v&k=v&...` for the pairs in list order, `sep` between two pairs. -/
def joinPairs (sep : Char) : List (Str × Str) → Str
  | [] => []
  | [kv] => kv.1 ++ '=' :: kv.2
  | kv :: kv2 :: rest => kv.1 ++ '=' :: (kv.2 ++ sep :: joinPairs sep (kv2 :: rest))

/-- The value of the last pair of the list whose key is `key`. -/
def lastValue {β : Type} (key : Str) : List (Str × β) → Option β
  | [] => none
  | kv :: rest =>
    match lastValue key rest with
    | some v => some v
    | none => if kv.1 = key then some kv.2 else none

/-- What the key/value iterator reads from `joinPairs sep pairs` when values may be
empty: a pair with an empty value gives no match, and the pair after it is read with
the separator in front of its key.  `carry` tells that the pair before was unmatched. -/
def readBack (sep : Char) : Bool → List (Str × Str) → List (Str × Str)
  | _, [] => []
  | carry, kv :: rest =>
    if kv.2 = [] then readBack sep true rest
    else ((if carry then sep :: kv.1 else kv.1), kv.2) :: readBack sep false rest

/-! ## `InfluxDbPointRecord`: registering a series; the series listing as data -/

/-- Embeds the constructor `InfluxDbPointRecord::InfluxDbPointRecord()` (lines 45-57),
run when the clock reads `now`.  The containers start empty. -/
def InfluxDbPointRecord.constructed {U : Type} (now : Int) : InfluxDbPointRecord U :=
  { _connected := false, _lastIdRequest := now, host := "*HOST*".toList,
    user := "*USER*".toList, pass := "*PASS*".toList, port := 8086, db := "*DB*".toList,
    useTransactions := true, _inBulkOperation := false, _transactionLines := [],
    _identifiersAndUnitsCache := [], errorMessage := [] }

/-- Embeds `InfluxDbPointRecord::insertIdentifierAndUnits`: the flag returned and the
record after the call.  Three things it calls are not part of `src/` and are
parameters: `readonly()` (its answer at this call), `operator==` on `Units`, and
`PointRecord::addPoint`.  In the read-only branch `&&` evaluates
`_identifiersAndUnitsCache[properId]` only when the key is present, so nothing is
inserted there. -/
def InfluxDbPointRecord.insertIdentifierAndUnits {V U : Type} (E : Env V U)
    (readonly : Bool) (unitsEq : U → U → Bool)
    (addPoint : InfluxDbPointRecord U → Str → Point V → InfluxDbPointRecord U)
    (self : InfluxDbPointRecord U) (id : Str) (units : U) : Bool × InfluxDbPointRecord U :=
  let m := metricInfoFromName id
  let m := { m with tags := smErase unitsKey m.tags } -- get rid of units if they are included.
  let properId := nameFromMetricInfo m
  if readonly then
    -- already here. ok if units match. otherwise no-no
    match smFind properId self._identifiersAndUnitsCache with
    | some held => (unitsEq held units, self)
    | none => (false, self)
  else
    -- otherwise, fine. add the series.
    let self := { self with
      _identifiersAndUnitsCache := smInsert properId units self._identifiersAndUnitsCache }
    let self := addPoint self id (Point.ofTimeValue E 1 E.zeroValue)
    -- no futher validation.
    (true, self)

/-- One series object of an answer to `show series`, as data: the measurement name, the
column names, and the rows, each row the list of its string entries. -/
structure ListedSeries where
  name : Str
  columns : List Str
  rows : List (List Str)

/-- The JSON value `thisSeries` is an object that shows the listed series: the string
`name`, the string array `columns`, the array `values` of string arrays, no row being
longer than the list of columns. -/
def ShowsSeries {V : Type} (thisSeries : Json V) (s : ListedSeries) : Prop :=
  thisSeries.member "name".toList = some (.str s.name) ∧
  thisSeries.member "columns".toList = some (.arr (s.columns.map Json.str)) ∧
  thisSeries.member "values".toList =
    some (.arr (s.rows.map (fun row => Json.arr (row.map Json.str)))) ∧
  ∀ row ∈ s.rows, row.length ≤ s.columns.length

/-- A well-shaped answer to `show series`: `results` is a non-empty array whose first
element has an array `series`, the elements of which show the listed series, in order. -/
def WellShapedListing {V : Type} (doc : Json V) (listed : List ListedSeries) : Prop :=
  ∃ rzero more seriesArr,
    doc.member "results".toList = some (.arr (rzero :: more)) ∧
    rzero.member "series".toList = some (.arr seriesArr) ∧
    List.Forall₂ ShowsSeries seriesArr listed

/-- The tag pairs a row shows: its entries paired with their column names, without
the `_key` column and without empty values. -/
def shownTags (columns row : List Str) : List (Str × Str) :=
  (columns.zip row).filter (fun kv => decide (kv.1 ≠ "_key".toList) && decide (kv.2 ≠ []))

/-- The catalog key of a row: the measurement serialised with the shown tags other
than `units` (as a `std::map`: ascending keys, the last of two equal columns wins). -/
def catalogKey (name : Str) (columns row : List Str) : Str :=
  nameFromMetricInfo
    { measurement := name
      tags := ((shownTags columns row).filter (fun kv => decide (kv.1 ≠ unitsKey))).foldl
        (fun tags kv => smInsert kv.1 kv.2 tags) [] }

/-- The unit of a row: the unit named by its (last) non-empty `units` entry, the
no-units value without one. -/
def catalogUnit {V U : Type} (W : WireEnv V U) (columns row : List Str) : U :=
  match lastValue unitsKey (shownTags columns row) with
  | some u => W.unitOfType u
  | none => W.RTX_NO_UNITS

/-- The catalog entries of the rows of one listed series, in row order. -/
def seriesEntries {V U : Type} (W : WireEnv V U) (s : ListedSeries) : List (Str × U) :=
  s.rows.map (fun row => (catalogKey s.name s.columns row, catalogUnit W s.columns row))

/-- The catalog entries of all rows of a listing, in the order the rows are listed. -/
def catalogEntries {V U : Type} (W : WireEnv V U) : List ListedSeries → List (Str × U)
  | [] => []
  | s :: rest => seriesEntries W s ++ catalogEntries W rest

/-- A catalog none of whose keys shows a `units` tag when parsed. -/
def HidesUnits {U : Type} (cache : SMap Str U) : Prop :=
  ∀ kv ∈ cache, smFind unitsKey (metricInfoFromName kv.1).tags = none

/-- A series object whose texts the identifier codec reads back: the measurement name
has no `,`, every column name is non-empty and free of `=`, and no entry of a row
contains `,`, the entries under the column `_key` apart (they are skipped). -/
def CleanSeries {V : Type} (thisSeries : Json V) : Prop :=
  (∀ name, (thisSeries.member "name".toList).bind Json.GetString = some name →
    ',' ∉ name) ∧
  (∀ columns j c, thisSeries.member "columns".toList = some columns →
    (columns.index j).bind Json.GetString = some c → c ≠ [] ∧ '=' ∉ c) ∧
  (∀ columns valuesArr row entries j c v,
    thisSeries.member "columns".toList = some columns →
    (thisSeries.member "values".toList).bind Json.elements = some valuesArr →
    row ∈ valuesArr → row.elements = some entries → entries[j]? = some (Json.str v) →
    (columns.index j).bind Json.GetString = some c → c ≠ "_key".toList → ',' ∉ v)

/-- A response document every series object of which (under `results[0].series`) is
clean.  A document without a series listing is clean. -/
def CleanListing {V : Type} (doc : Json V) : Prop :=
  ∀ results rzero series seriesList thisSeries,
    doc.member "results".toList = some results → results.index 0 = some rzero →
    rzero.member "series".toList = some series → series.elements = some seriesList →
    thisSeries ∈ seriesList → CleanSeries thisSeries

/-- The states of a record reached from one with an empty catalog (such as a freshly
constructed one) by calls of `insertIdentifierAndUnits` and of `identifiersAndUnits`,
the latter against servers all of whose answers are clean listings. -/
inductive CleanlyReachable {V U : Type} (E : Env V U) (W : WireEnv V U)
    (unitsEq : U → U → Bool)
    (addPoint : InfluxDbPointRecord U → Str → Point V → InfluxDbPointRecord U) :
    InfluxDbPointRecord U → Prop where
  | start (r : InfluxDbPointRecord U) (h : r._identifiersAndUnitsCache = []) :
      CleanlyReachable E W unitsEq addPoint r
  | insert (r : InfluxDbPointRecord U) (readonly : Bool) (id : Str) (units : U)
      (h : CleanlyReachable E W unitsEq addPoint r) :
      CleanlyReachable E W unitsEq addPoint
        (r.insertIdentifierAndUnits E readonly unitsEq addPoint id units).2
  | refresh (r r' : InfluxDbPointRecord U) (now : Int) (net net' : Transport V)
      (catalog : SMap Str U) (h : CleanlyReachable E W unitsEq addPoint r)
      (hclean : ∀ earlier path doc, net.respond earlier path = some doc → CleanListing doc)
      (hcall : r.identifiersAndUnits W now net = some (catalog, r', net')) :
      CleanlyReachable E W unitsEq addPoint r'

/-- An answer to `show series` with two rows of the measurement `flow` that differ in
their `units` entry only. -/
def twoUnitsResponse : Json ℚ :=
  responseWith (.obj [("name".toList, .str "flow".toList),
    ("columns".toList, .arr [.str "_key".toList, .str "site".toList, .str "units".toList]),
    ("values".toList, .arr [
      .arr [.str "flow,site=a,units=L1T0".toList, .str "a".toList, .str "L1T0".toList],
      .arr [.str "flow,site=a,units=L1T-1".toList, .str "a".toList, .str "L1T-1".toList]])])

/-- A server that answers `show series` with `twoUnitsResponse` and nothing else. -/
def twoUnitsNet : Transport ℚ :=
  { respond := fun _ path =>
      if path = connectedRecord.urlForQuery ratWire "show series".toList false then
        some twoUnitsResponse
      else none
    requests := []
    writes := [] }

/-- An answer to `show series` with one row of the measurement `flow` whose `site` entry
contains a comma. -/
def commaValueResponse : Json ℚ :=
  responseWith (.obj [("name".toList, .str "flow".toList),
    ("columns".toList, .arr [.str "site".toList]),
    ("values".toList, .arr [.arr [.str "a,units=x".toList]])])

/-- A server that answers `show series` with `commaValueResponse` and nothing else. -/
def commaValueNet : Transport ℚ :=
  { respond := fun _ path =>
      if path = connectedRecord.urlForQuery ratWire "show series".toList false then
        some commaValueResponse
      else none
    requests := []
    writes := [] }

/-- A stand-in for `PointRecord::addPoint` that hands the point to `insertSingle`
against a server that cannot be reached, and keeps the record. -/
def sampleAddPoint (r : InfluxDbPointRecord DimUnits) (id : Str) (p : Point ℚ) :
    InfluxDbPointRecord DimUnits :=
  match r.insertSingle ratFmt ratWire deadNet id p with
  | some (r, _) => r
  | none => r

/-- The record `connectedEmptyRecord` after it has refreshed its catalog from
`catalogNet` at time 100. -/
def refreshedRecord : InfluxDbPointRecord DimUnits :=
  { connectedEmptyRecord with
    _lastIdRequest := 100
    _identifiersAndUnitsCache := [("flow,site=a".toList, metre)] }

/-- The answer to a create-database statement that failed: the first result carries an
`error` member. -/
def failedCreateResponse : Json ℚ :=
  .obj [("results".toList, .arr [.obj [("error".toList, .str "permission denied".toList)]])]

/-- A server on which the database of `sampleRecord` does not exist and cannot be
created: the ping is answered with an empty document, the catalog probe with
`noDatabaseResponse`, and the create-database statement with `failedCreateResponse`. -/
def failedCreateNet : Transport ℚ :=
  { respond := fun _ path =>
      if path = sampleRecord.pingPath then some (.obj [])
      else if path = sampleRecord.probePath ratWire then some noDatabaseResponse
      else if path = sampleRecord.createPath ratWire then some failedCreateResponse
      else none
    requests := []
    writes := [] }

theorem leftDifferences_length {V U : Type} (E : Env V U) (fromUnits toUnits : U)
    (rest : List (Point V)) : ∀ prev : Point V,
    (leftDifferences E fromUnits toUnits prev rest).length = rest.length := by
  induction rest with
  | nil => intro prev; rfl
  | cons c cs ih => intro prev; simp [leftDifferences, ih]

theorem leftDifferences_getElem? {V U : Type} (E : Env V U) (fromUnits toUnits : U)
    (rest : List (Point V)) : ∀ (prev : Point V) (i : Nat) (p q : Point V),
    (prev :: rest)[i]? = some p → rest[i]? = some q →
    (leftDifferences E fromUnits toUnits prev rest)[i]? =
      some (Point.ofTimeValue E q.time
        (E.convertValue (E.div (E.sub q.value p.value) (E.ofTime (q.time - p.time)))
          (E.unitsDiv fromUnits E.RTX_SECOND) toUnits)) := by
  induction rest with
  | nil => intro prev i p q _ hq; simp at hq
  | cons c cs ih =>
    intro prev i p q hp hq
    cases i with
    | zero =>
      simp at hp hq
      subst hp; subst hq
      simp [leftDifferences]
    | succ j =>
      simp only [List.getElem?_cons_succ] at hp hq
      simp only [leftDifferences, List.getElem?_cons_succ]
      exact ih c j p q hp hq

theorem leftDifferences_times {V U : Type} (E : Env V U) (fromUnits toUnits : U)
    (rest : List (Point V)) : ∀ prev : Point V,
    (leftDifferences E fromUnits toUnits prev rest).map (fun p => p.time) =
      rest.map (fun p => p.time) := by
  induction rest with
  | nil => intro prev; rfl
  | cons c cs ih => intro prev; simp [leftDifferences, ih, Point.ofTimeValue]

theorem seekRightLoop_done {V U : Type} (src : TimeSeries V U) (fuel : Nat) (p : Point V)
    (h : ¬ (0 < p.time ∧ p.isValid = false)) : seekRightLoop src fuel p = some p := by
  cases fuel <;> simp [seekRightLoop, h]

/-- C1 (evaluation of the code): on the source (0,0), (10,5), (20,5) and the range
[5,15], with identity unit conversion and no resampling, `filterPointsInRange` answers
the single point (20, 0): `pointBefore` finds nothing before the point at time 0, so
`prior` falls back to `pointAfter(4)`, the point at time 10, and the window is
[10, 20]; the derivative at time 10 is not produced. -/
theorem C1_boundary_example_yields_only_t20 (fuel : Nat) :
    boundaryDerivative.filterPointsInRange ratEnv (5, 15) (fuel + 1) =
      some { points := [Point.ofTimeValue ratEnv 20 0], units := metrePerSecond } := by
  have hseek : seekRightLoop boundarySource (fuel + 1)
      { Point.invalid ratEnv with time := (5, 15).2 - 1 } = some (Point.ofTimeValue ratEnv 20 5) := by
    rw [seekRightLoop]
    simp only [Point.invalid]
    rw [if_pos (by decide)]
    have hafter : boundarySource.pointAfter (15 - 1) = Point.ofTimeValue ratEnv 20 5 := by
      simp [boundarySource, TimeSeries.ofPoints, Point.ofTimeValue]
    simp only [hafter]
    exact seekRightLoop_done _ _ _ (by simp [Point.ofTimeValue])
  simp only [FirstDerivative.filterPointsInRange, boundaryDerivative, fetchWindow, hseek]
  simp [boundarySource, TimeSeries.ofPoints, Point.invalid, Point.ofTimeValue, leftDifferences,
    PointCollection.count, ratEnv, metre, metrePerSecond]

/-- C2: when the fetched source window holds n ≥ 2 points in strictly ascending time
and resampling is off, the result carries exactly n-1 points; the point at index i
(for the pair p_i, p_{i+1} of the window) has the time of p_{i+1} and the value
`convertValue((p_{i+1}.value - p_i.value) / double(p_{i+1}.time - p_i.time))` from
source-unit-per-second to the derivative's unit; no output point sits at the time of
the first window point. -/
theorem C2_one_left_difference_per_pair {V U : Type} (E : Env V U)
    (self : FirstDerivative V U) (src : TimeSeries V U) (range range' : Int × Int)
    (fuel : Nat) (sourceData : PointCollection V U)
    (hsrc : self.source = some src)
    (hwin : fetchWindow E src range fuel = some (range', sourceData))
    (hn : 2 ≤ sourceData.points.length)
    (hasc : sourceData.points.Pairwise (fun p q => p.time < q.time))
    (hres : self.willResample = false) :
    ∃ out : PointCollection V U,
      self.filterPointsInRange E range fuel = some out ∧
      out.points.length = sourceData.points.length - 1 ∧
      (∀ (i : Nat) (p q : Point V),
        sourceData.points[i]? = some p → sourceData.points[i + 1]? = some q →
        ∃ o : Point V, out.points[i]? = some o ∧ o.time = q.time ∧
          o.value = E.convertValue (E.div (E.sub q.value p.value) (E.ofTime (q.time - p.time)))
            (E.unitsDiv src.units E.RTX_SECOND) self.units) ∧
      (∀ p0 : Point V, sourceData.points[0]? = some p0 →
        ∀ o ∈ out.points, o.time ≠ p0.time) := by
  obtain ⟨pts, u⟩ := sourceData
  cases pts with
  | nil => simp at hn
  | cons prev rest =>
    simp only at hn hasc
    refine ⟨{ points := leftDifferences E src.units self.units prev rest, units := self.units },
      ?_, ?_, ?_, ?_⟩
    · have hcount : ¬ (PointCollection.count { points := prev :: rest, units := u } < 2) := by
        simp only [PointCollection.count]; omega
      simp only [FirstDerivative.filterPointsInRange, hsrc, hwin, hres, hcount]
      simp
    · simp [leftDifferences_length]
    · intro i p q hp hq
      simp only [List.getElem?_cons_succ] at hq
      refine ⟨_, leftDifferences_getElem? E src.units self.units rest prev i p q hp hq, ?_, ?_⟩
      · rfl
      · rfl
    · intro p0 hp0 o ho
      simp only [List.getElem?_cons_zero, Option.some.injEq] at hp0
      subst hp0
      have hmem : o.time ∈ (leftDifferences E src.units self.units prev rest).map
          (fun p => p.time) := List.mem_map_of_mem _ ho
      rw [leftDifferences_times] at hmem
      obtain ⟨q, hq, hqt⟩ := List.mem_map.mp hmem
      have hlt : prev.time < q.time := (List.pairwise_cons.mp hasc).1 q hq
      omega

/-- C2 (witness): the window [(10,5), (20,5)] of the boundary example. -/
theorem C2_one_left_difference_per_pair_witness :
    ∃ out : PointCollection ℚ DimUnits,
      boundaryDerivative.filterPointsInRange ratEnv (5, 15) 1 = some out ∧
      out.points.length =
        ([Point.ofTimeValue ratEnv 10 5, Point.ofTimeValue ratEnv 20 5] : List (Point ℚ)).length - 1 ∧
      (∀ (i : Nat) (p q : Point ℚ),
        ([Point.ofTimeValue ratEnv 10 5, Point.ofTimeValue ratEnv 20 5] : List (Point ℚ))[i]? = some p →
        ([Point.ofTimeValue ratEnv 10 5, Point.ofTimeValue ratEnv 20 5] : List (Point ℚ))[i + 1]? = some q →
        ∃ o : Point ℚ, out.points[i]? = some o ∧ o.time = q.time ∧
          o.value = ratEnv.convertValue
            (ratEnv.div (ratEnv.sub q.value p.value) (ratEnv.ofTime (q.time - p.time)))
            (ratEnv.unitsDiv boundarySource.units ratEnv.RTX_SECOND) boundaryDerivative.units) ∧
      (∀ p0 : Point ℚ,
        ([Point.ofTimeValue ratEnv 10 5, Point.ofTimeValue ratEnv 20 5] : List (Point ℚ))[0]? = some p0 →
        ∀ o ∈ out.points, o.time ≠ p0.time) :=
  C2_one_left_difference_per_pair ratEnv boundaryDerivative boundarySource (5, 15) (5, 20) 1
    { points := [Point.ofTimeValue ratEnv 10 5, Point.ofTimeValue ratEnv 20 5], units := metre }
    rfl
    (by
      have hseek : seekRightLoop boundarySource 1
          { Point.invalid ratEnv with time := (5, 15).2 - 1 } =
            some (Point.ofTimeValue ratEnv 20 5) := by
        rw [seekRightLoop]
        simp only [Point.invalid]
        rw [if_pos (by decide)]
        have hafter : boundarySource.pointAfter (15 - 1) = Point.ofTimeValue ratEnv 20 5 := by
          simp [boundarySource, TimeSeries.ofPoints, Point.ofTimeValue]
        simp only [hafter]
        exact seekRightLoop_done _ _ _ (by simp [Point.ofTimeValue])
      simp only [fetchWindow, hseek]
      simp [boundarySource, TimeSeries.ofPoints, Point.invalid, Point.ofTimeValue, ratEnv, metre])
    (by simp)
    (by simp [Point.ofTimeValue])
    rfl

/-- C3: if the fetched source window holds fewer than two points, the result is the
empty collection tagged with the derivative's own unit. -/
theorem C3_short_window_yields_empty {V U : Type} (E : Env V U)
    (self : FirstDerivative V U) (src : TimeSeries V U) (range range' : Int × Int)
    (fuel : Nat) (sourceData : PointCollection V U)
    (hsrc : self.source = some src)
    (hwin : fetchWindow E src range fuel = some (range', sourceData))
    (hlt : sourceData.count < 2) :
    self.filterPointsInRange E range fuel = some { points := [], units := self.units } := by
  simp only [FirstDerivative.filterPointsInRange, hsrc, hwin, hlt]
  simp

/-- C3 (witness): a source without samples, range [5,15]. -/
theorem C3_short_window_yields_empty_witness :
    emptyDerivative.filterPointsInRange ratEnv (5, 15) 1 =
      some { points := [], units := emptyDerivative.units } :=
  C3_short_window_yields_empty ratEnv emptyDerivative emptySource (5, 15) (5, 15) 1
    { points := [], units := metre } rfl
    (by
      have hseek : seekRightLoop emptySource 1
          { Point.invalid ratEnv with time := (5, 15).2 - 1 } = some (Point.invalid ratEnv) := by
        rw [seekRightLoop]
        simp only [Point.invalid]
        rw [if_pos (by decide)]
        have hafter : emptySource.pointAfter (15 - 1) = Point.invalid ratEnv := by
          simp [emptySource, TimeSeries.ofPoints]
        simp only [hafter]
        exact seekRightLoop_done _ _ _ (by simp [Point.invalid])
      simp only [fetchWindow, hseek]
      simp [emptySource, TimeSeries.ofPoints, Point.invalid, ratEnv, metre])
    (by simp [PointCollection.count])

/-- C4 (counterexample): a derivative in metres per second with no source bound is
offered a source measured in seconds, whose unit per second does not have the
dimension of the derivative's unit; `canSetSource` answers true. -/
theorem C4_unbound_accepts_incompatible_source :
    unboundDerivative.source = none ∧
    ratEnv.isSameDimensionAs unboundDerivative.units
      (ratEnv.unitsDiv secondsSource.units ratEnv.RTX_SECOND) = false ∧
    unboundDerivative.canSetSource ratEnv secondsSource = true := by
  refine ⟨rfl, ?_, ?_⟩
  · simp [ratEnv, unboundDerivative, secondsSource, TimeSeries.ofPoints, metrePerSecond]
  · simp [FirstDerivative.canSetSource, unboundDerivative]

/-- C4 (amended): `canSetSource` answers false exactly when a source is already bound
and the candidate's unit per second does not have the dimension of the derivative's
unit; in particular a derivative with no source bound accepts every candidate. -/
theorem C4_canSetSource_false_iff {V U : Type} (E : Env V U) (self : FirstDerivative V U)
    (ts : TimeSeries V U) :
    self.canSetSource E ts = false ↔
      (self.source.isSome = true ∧
        E.isSameDimensionAs self.units (E.unitsDiv ts.units E.RTX_SECOND) = false) := by
  cases hs : self.source <;> simp [FirstDerivative.canSetSource, hs]

/-- C5 (counterexample): a derivative holding metres per minute is bound to a source
in metres.  `metre / RTX_SECOND` is not dimensionless and has the dimension of the
unit already held, so `didSetSource` keeps metres per minute: the unit after the bind
is not `ts.units() / second`. -/
theorem C5_compatible_unit_is_kept :
    ratEnv.isDimensionless (ratEnv.unitsDiv boundarySource.units ratEnv.RTX_SECOND) = false ∧
    (perMinuteDerivative.didSetSource ratEnv boundarySource).units = metrePerMinute ∧
    (perMinuteDerivative.didSetSource ratEnv boundarySource).units ≠
      ratEnv.unitsDiv boundarySource.units ratEnv.RTX_SECOND := by
  have h : (perMinuteDerivative.didSetSource ratEnv boundarySource).units = metrePerMinute := by
    simp [FirstDerivative.didSetSource, perMinuteDerivative, boundarySource, TimeSeries.ofPoints,
      ratEnv, metre, metrePerMinute]
  refine ⟨?_, h, ?_⟩
  · simp [ratEnv, boundarySource, TimeSeries.ofPoints, metre]
  · rw [h]
    simp [ratEnv, boundarySource, TimeSeries.ofPoints, metre, metrePerMinute]

/-- C5 (amended): after `didSetSource(ts)`, if the unit held before was dimensionless or
did not have the dimension of `ts.units() / second`, the unit is `ts.units() / second`,
or `RTX_DIMENSIONLESS` when that ratio is dimensionless; otherwise the unit held before
is kept. -/
theorem C5_didSetSource_units {V U : Type} (E : Env V U) (self : FirstDerivative V U)
    (ts : TimeSeries V U) :
    (self.didSetSource E ts).units =
      if E.isDimensionless self.units = true ∨
          E.isSameDimensionAs self.units (E.unitsDiv ts.units E.RTX_SECOND) = false then
        (if E.isDimensionless (E.unitsDiv ts.units E.RTX_SECOND) = true then E.RTX_DIMENSIONLESS
          else E.unitsDiv ts.units E.RTX_SECOND)
      else self.units := by
  unfold FirstDerivative.didSetSource FirstDerivative.setUnits
  cases h1 : E.isDimensionless self.units <;>
    cases h2 : E.isSameDimensionAs self.units (E.unitsDiv ts.units E.RTX_SECOND) <;>
    cases h3 : E.isDimensionless (E.unitsDiv ts.units E.RTX_SECOND) <;> simp [h3]

/-! ## Theorems: strings, maps and the key/value expression -/

theorem strFind_eq_none {c : Char} {s : Str} (h : c ∉ s) : strFind c s = none := by
  induction s with
  | nil => rfl
  | cons x xs ih =>
    have hx : x ≠ c := fun e => h (by simp [e])
    have hxs : c ∉ xs := fun e => h (by simp [e])
    simp [strFind, hx, ih hxs]

theorem strFind_append_cons {c : Char} {s : Str} (t : Str) (h : c ∉ s) :
    strFind c (s ++ c :: t) = some s.length := by
  induction s with
  | nil => simp [strFind]
  | cons x xs ih =>
    have hx : x ≠ c := fun e => h (by simp [e])
    have hxs : c ∉ xs := fun e => h (by simp [e])
    simp [strFind, hx, ih hxs]

theorem span_ne_append_cons {c : Char} {s : Str} (t : Str) (h : c ∉ s) :
    (s ++ c :: t).span (fun x => x ≠ c) = (s, c :: t) := by
  induction s with
  | nil => simp [List.span_eq_take_drop]
  | cons x xs ih =>
    have hx : x ≠ c := fun e => h (by simp [e])
    have hxs : c ∉ xs := fun e => h (by simp [e])
    have := ih hxs
    simp [List.span_eq_take_drop, hx] at this ⊢
    exact this

theorem span_ne_self {c : Char} {s : Str} (h : c ∉ s) :
    s.span (fun x => x ≠ c) = (s, []) := by
  induction s with
  | nil => simp [List.span_eq_take_drop]
  | cons x xs ih =>
    have hx : x ≠ c := fun e => h (by simp [e])
    have hxs : c ∉ xs := fun e => h (by simp [e])
    have := ih hxs
    simp [List.span_eq_take_drop, hx] at this ⊢
    exact this

theorem tagString_cons (kv : Str × Str) (rest : List (Str × Str)) :
    tagString (kv :: rest) = ',' :: kvBody (kv :: rest) := rfl

theorem kvMatchAt_kvBody (kv : Str × Str) (rest : List (Str × Str)) (h : TagReadable kv) :
    kvMatchAt ',' (kvBody (kv :: rest)) = some (kv.1, kv.2, kvBody rest) := by
  obtain ⟨hk, hke, hv, hvc⟩ := h
  unfold kvMatchAt
  simp only [kvBody]
  rw [span_ne_append_cons _ hke]
  simp only [hk, if_false]
  cases rest with
  | nil =>
    simp only [tagString, List.append_nil, kvBody]
    rw [span_ne_self hvc]
    simp [hv]
  | cons kv2 rest2 =>
    rw [tagString_cons, span_ne_append_cons _ hvc]
    simp [hv, kvBody]

theorem kvSearch_of_matchAt {sep : Char} {s : Str} {r : Str × Str × Str}
    (h : kvMatchAt sep s = some r) : kvSearch sep s = some r := by
  cases s with
  | nil => simp [kvMatchAt, List.span_eq_take_drop] at h
  | cons c cs => simp [kvSearch, h]

theorem kvSearch_nil (sep : Char) : kvSearch sep [] = none := rfl

theorem kvIterate_nil (sep : Char) (fuel : Nat) : kvIterate sep fuel [] = [] := by
  cases fuel <;> simp [kvIterate, kvSearch]

theorem kvIterate_kvBody (kvs : List (Str × Str)) :
    ∀ fuel : Nat, kvs.length ≤ fuel → (∀ kv ∈ kvs, TagReadable kv) →
      kvIterate ',' fuel (kvBody kvs) = kvs := by
  induction kvs with
  | nil => intro fuel _ _; simp [kvBody, kvIterate_nil]
  | cons kv rest ih =>
    intro fuel hfuel hgood
    cases fuel with
    | zero => simp at hfuel
    | succ f =>
      have hm := kvSearch_of_matchAt (kvMatchAt_kvBody kv rest (hgood kv (by simp)))
      simp only [kvIterate, hm]
      rw [ih f (by simpa using hfuel) (fun x hx => hgood x (by simp [hx]))]

theorem length_le_kvBody (kvs : List (Str × Str)) (h : ∀ kv ∈ kvs, TagReadable kv) :
    kvs.length ≤ (kvBody kvs).length := by
  have key : ∀ l : List (Str × Str), (∀ kv ∈ l, TagReadable kv) →
      l.length ≤ (tagString l).length := by
    intro l
    induction l with
    | nil => intro _; simp
    | cons kv rest ih =>
      intro hl
      have := ih (fun x hx => hl x (by simp [hx]))
      simp only [tagString, List.length_cons, List.length_append]
      omega
  cases kvs with
  | nil => simp
  | cons kv rest =>
    have h1 := key rest (fun x hx => h x (by simp [hx]))
    have hk : kv.1 ≠ [] := (h kv (by simp)).1
    have : 0 < kv.1.length := List.length_pos.mpr hk
    simp only [kvBody, List.length_cons, List.length_append]
    omega

theorem kvMatches_kvBody (kvs : List (Str × Str)) (h : ∀ kv ∈ kvs, TagReadable kv) :
    kvMatches ',' (kvBody kvs) = kvs :=
  kvIterate_kvBody kvs _ (length_le_kvBody kvs h) h

theorem nameFromMetricInfo_eq (info : MetricInfo) :
    nameFromMetricInfo info = info.measurement ++ tagString info.tags := by
  obtain ⟨meas, tags⟩ := info
  simp only [nameFromMetricInfo]
  induction tags generalizing meas with
  | nil => simp [tagString]
  | cons kv rest ih =>
    simp only [List.foldl_cons]
    rw [ih]
    simp [tagString]

/-- Parsing `measurement ++ ",k=v"...`: the measurement is read back and the tags are
inserted pair by pair. -/
theorem metricInfoFromName_tagString (meas : Str) (kvs : List (Str × Str))
    (hm : ',' ∉ meas) (h : ∀ kv ∈ kvs, TagReadable kv) :
    metricInfoFromName (meas ++ tagString kvs) =
      { measurement := meas
        tags := kvs.foldl (fun tags kv => smInsert kv.1 kv.2 tags) [] } := by
  cases kvs with
  | nil =>
    simp [metricInfoFromName, tagString, strFind_eq_none hm, substr]
  | cons kv rest =>
    rw [tagString_cons]
    simp only [metricInfoFromName, strFind_append_cons _ hm, substr]
    simp [kvMatches_kvBody _ h]

/-! ## Theorems: the map operations -/

theorem smInsert_keys_mem {κ β : Type} [LinearOrder κ] (k : κ) (v : β) (m : SMap κ β)
    (x : κ × β) (hx : x ∈ smInsert k v m) : x = (k, v) ∨ x ∈ m := by
  induction m with
  | nil => simp [smInsert] at hx; exact Or.inl hx
  | cons a rest ih =>
    obtain ⟨k', v'⟩ := a
    simp only [smInsert] at hx
    split_ifs at hx with h1 h2
    · simp only [List.mem_cons] at hx ⊢
      tauto
    · simp only [List.mem_cons] at hx ⊢
      rcases hx with hx | hx
      · tauto
      · rcases ih hx with h | h <;> tauto
    · simp only [List.mem_cons] at hx ⊢
      tauto

theorem smInsert_wf {κ β : Type} [LinearOrder κ] (k : κ) (v : β) (m : SMap κ β)
    (hm : SMap.WF m) : SMap.WF (smInsert k v m) := by
  induction m with
  | nil => simp [smInsert, SMap.WF]
  | cons a rest ih =>
    obtain ⟨k', v'⟩ := a
    unfold SMap.WF at hm ih ⊢
    have hhead := (List.pairwise_cons.mp hm).1
    have htail := (List.pairwise_cons.mp hm).2
    simp only [smInsert]
    split_ifs with h1 h2
    · refine List.pairwise_cons.mpr ⟨?_, hm⟩
      intro b hb
      rcases List.mem_cons.mp hb with hb | hb
      · subst hb; exact h1
      · exact lt_trans h1 (hhead b hb)
    · refine List.pairwise_cons.mpr ⟨?_, ih htail⟩
      intro b hb
      rcases smInsert_keys_mem k v rest b hb with hb | hb
      · subst hb; exact h2
      · exact hhead b hb
    · have hkk : k = k' := le_antisymm (not_lt.mp h2) (not_lt.mp h1)
      subst hkk
      exact List.pairwise_cons.mpr ⟨hhead, htail⟩

/-- Inserting a key that lies above every key of a well-formed map appends it. -/
theorem smInsert_append_of_gt {κ β : Type} [LinearOrder κ] (k : κ) (v : β) (m : SMap κ β)
    (h : ∀ a ∈ m, a.1 < k) : smInsert k v m = m ++ [(k, v)] := by
  induction m with
  | nil => rfl
  | cons a rest ih =>
    obtain ⟨k', v'⟩ := a
    have h1 : k' < k := h (k', v') (by simp)
    simp only [smInsert, not_lt_of_gt h1, if_false, h1, if_true, List.cons_append]
    rw [ih (fun a ha => h a (by simp [ha]))]

/-- Inserting the pairs of a strictly ascending list one by one rebuilds the list. -/
theorem foldl_smInsert_sorted {κ β : Type} [LinearOrder κ] (l : SMap κ β) :
    ∀ acc : SMap κ β, SMap.WF (acc ++ l) →
      l.foldl (fun tags kv => smInsert kv.1 kv.2 tags) acc = acc ++ l := by
  induction l with
  | nil => intro acc _; simp
  | cons a rest ih =>
    intro acc hwf
    simp only [List.foldl_cons]
    have hgt : ∀ x ∈ acc, x.1 < a.1 := by
      intro x hx
      unfold SMap.WF at hwf
      exact (List.pairwise_append.mp hwf).2.2 x hx a (by simp)
    rw [smInsert_append_of_gt a.1 a.2 acc hgt]
    have e : acc ++ [(a.1, a.2)] ++ rest = acc ++ a :: rest := by simp
    rw [ih (acc ++ [(a.1, a.2)]) (by rw [e]; exact hwf), e]

theorem smInsert_perm {κ β : Type} [LinearOrder κ] (k : κ) (v : β) (m : SMap κ β)
    (h : ∀ a ∈ m, a.1 ≠ k) : (smInsert k v m).Perm ((k, v) :: m) := by
  induction m with
  | nil => simp [smInsert]
  | cons a rest ih =>
    obtain ⟨k', v'⟩ := a
    have hne : k' ≠ k := h (k', v') (by simp)
    simp only [smInsert]
    split_ifs with h1 h2
    · exact List.Perm.refl _
    · exact ((ih (fun a ha => h a (by simp [ha]))).cons (k', v')).trans (List.Perm.swap _ _ _)
    · exact absurd (le_antisymm (not_lt.mp h1) (not_lt.mp h2)) hne

/-- Inserting pairs with pairwise distinct keys (none of them in the map yet) adds
exactly those pairs. -/
theorem foldl_smInsert_perm {κ β : Type} [LinearOrder κ] (l : List (κ × β)) :
    ∀ acc : SMap κ β, ((acc ++ l).map Prod.fst).Nodup →
      (l.foldl (fun tags kv => smInsert kv.1 kv.2 tags) acc).Perm (acc ++ l) := by
  induction l with
  | nil => intro acc _; simp
  | cons a rest ih =>
    intro acc hnd
    simp only [List.foldl_cons]
    have hnd' : ((a :: (acc ++ rest)).map Prod.fst).Nodup := by
      have hp : (acc ++ a :: rest).Perm (a :: (acc ++ rest)) := List.perm_middle
      exact (hp.map Prod.fst).nodup_iff.mp hnd
    have hne : ∀ x ∈ acc, x.1 ≠ a.1 := by
      intro x hx e
      have := (List.nodup_cons.mp hnd').1
      exact this (by rw [← e]; exact List.mem_map_of_mem _ (by simp [hx]))
    have hins := smInsert_perm a.1 a.2 acc hne
    have hnd2 : ((smInsert a.1 a.2 acc ++ rest).map Prod.fst).Nodup := by
      have hp : (smInsert a.1 a.2 acc ++ rest).Perm (a :: (acc ++ rest)) := by
        have : (smInsert a.1 a.2 acc ++ rest).Perm (((a.1, a.2) :: acc) ++ rest) :=
          hins.append_right rest
        simpa using this
      exact (hp.map Prod.fst).nodup_iff.mpr hnd'
    refine (ih _ hnd2).trans ?_
    have h1 : (smInsert a.1 a.2 acc ++ rest).Perm (((a.1, a.2) :: acc) ++ rest) :=
      hins.append_right rest
    refine h1.trans ?_
    have hmid : (acc ++ a :: rest).Perm (a :: (acc ++ rest)) := List.perm_middle
    simpa using hmid.symm

theorem foldl_smInsert_wf {κ β : Type} [LinearOrder κ] (l : List (κ × β)) :
    ∀ acc : SMap κ β, SMap.WF acc →
      SMap.WF (l.foldl (fun tags kv => smInsert kv.1 kv.2 tags) acc) := by
  induction l with
  | nil => intro acc h; exact h
  | cons a rest ih =>
    intro acc h
    exact ih _ (smInsert_wf a.1 a.2 acc h)

/-- Two strictly ascending association lists with the same entries are equal. -/
theorem SMap.eq_of_perm {κ β : Type} [LinearOrder κ] {m₁ m₂ : SMap κ β}
    (hp : m₁.Perm m₂) (h₁ : SMap.WF m₁) (h₂ : SMap.WF m₂) : m₁ = m₂ := by
  haveI : IsAntisymm (κ × β) (fun a b => a.1 < b.1) :=
    ⟨fun a b hab hba => absurd hba (not_lt_of_gt hab)⟩
  exact List.eq_of_perm_of_sorted hp h₁ h₂

/-! ## Theorems: the identifier codec -/

theorem TagWellFormed.readable {kv : Str × Str} (h : TagWellFormed kv) : TagReadable kv :=
  ⟨h.1, h.2.2.1, h.2.2.2.1, h.2.2.2.2.1⟩

/-- Serialising and parsing again gives the `MetricInfo` back as soon as the
measurement has no comma and every tag is readable. -/
theorem metricInfoFromName_nameFromMetricInfo (m : MetricInfo) (hwf : SMap.WF m.tags)
    (hm : ',' ∉ m.measurement) (htags : ∀ kv ∈ m.tags, TagReadable kv) :
    metricInfoFromName (nameFromMetricInfo m) = m := by
  rw [nameFromMetricInfo_eq, metricInfoFromName_tagString _ _ hm htags]
  have h := foldl_smInsert_sorted m.tags [] (by simpa using hwf)
  rw [h]
  simp

/-- C6: for a `MetricInfo` (its tags a `std::map`, keys strictly ascending) whose
measurement has no comma and whose tag keys and values are non-empty and contain
neither `,` nor `=`, parsing the serialised name gives the same measurement and the
same tag mapping. -/
theorem C6_parse_inverts_serialize (m : MetricInfo) (hwf : SMap.WF m.tags)
    (hm : ',' ∉ m.measurement) (htags : ∀ kv ∈ m.tags, TagWellFormed kv) :
    metricInfoFromName (nameFromMetricInfo m) = m :=
  metricInfoFromName_nameFromMetricInfo m hwf hm (fun kv hkv => (htags kv hkv).readable)

/-- C6 (witness): measurement `flow` with tags `asset_id=33410`, `dma=brecon`. -/
theorem C6_parse_inverts_serialize_witness :
    metricInfoFromName (nameFromMetricInfo
        { measurement := "flow".toList
          tags := [("asset_id".toList, "33410".toList), ("dma".toList, "brecon".toList)] }) =
      { measurement := "flow".toList
        tags := [("asset_id".toList, "33410".toList), ("dma".toList, "brecon".toList)] } :=
  C6_parse_inverts_serialize
    { measurement := "flow".toList
      tags := [("asset_id".toList, "33410".toList), ("dma".toList, "brecon".toList)] }
    (by unfold SMap.WF; decide)
    (by decide)
    (by
      intro kv hkv
      simp only [List.mem_cons, List.mem_singleton, List.not_mem_nil, or_false] at hkv
      rcases hkv with h | h <;> subst h <;> unfold TagWellFormed <;> decide)

theorem properId_tagString (meas : Str) (kvs : List (Str × Str))
    (hm : ',' ∉ meas) (h : ∀ kv ∈ kvs, TagReadable kv) :
    properId (meas ++ tagString kvs) =
      meas ++ tagString (kvs.foldl (fun tags kv => smInsert kv.1 kv.2 tags) []) := by
  rw [properId, metricInfoFromName_tagString meas kvs hm h, nameFromMetricInfo_eq]

/-- C7: two well-formed identifiers `measurement[,k=v]*` with the same measurement and
the same distinct-key tag pairs, written in any order, have the same `properId`, and
that string lists the tags in strictly ascending order of key. -/
theorem C7_properId_ignores_tag_order (meas : Str) (kvs₁ kvs₂ : List (Str × Str))
    (hm : ',' ∉ meas) (hwf : ∀ kv ∈ kvs₁, TagWellFormed kv)
    (hnd : (kvs₁.map Prod.fst).Nodup) (hp : kvs₁.Perm kvs₂) :
    properId (meas ++ tagString kvs₁) = properId (meas ++ tagString kvs₂) ∧
    ∃ sorted : List (Str × Str),
      sorted.Perm kvs₁ ∧ sorted.Pairwise (fun a b => a.1 < b.1) ∧
      properId (meas ++ tagString kvs₁) = meas ++ tagString sorted := by
  have hr₁ : ∀ kv ∈ kvs₁, TagReadable kv := fun kv hkv => (hwf kv hkv).readable
  have hr₂ : ∀ kv ∈ kvs₂, TagReadable kv := fun kv hkv => hr₁ kv (hp.mem_iff.mpr hkv)
  have hnd₂ : (kvs₂.map Prod.fst).Nodup := (hp.map Prod.fst).nodup_iff.mp hnd
  have p₁ := foldl_smInsert_perm kvs₁ [] (by simpa using hnd)
  have p₂ := foldl_smInsert_perm kvs₂ [] (by simpa using hnd₂)
  have w₁ := foldl_smInsert_wf kvs₁ ([] : SMap Str Str) (by simp [SMap.WF])
  have w₂ := foldl_smInsert_wf kvs₂ ([] : SMap Str Str) (by simp [SMap.WF])
  simp only [List.nil_append] at p₁ p₂
  have heq := SMap.eq_of_perm (p₁.trans (hp.trans p₂.symm)) w₁ w₂
  refine ⟨?_, _, p₁, w₁, properId_tagString meas kvs₁ hm hr₁⟩
  rw [properId_tagString meas kvs₁ hm hr₁, properId_tagString meas kvs₂ hm hr₂, heq]

/-- C7 (witness): `flow,dma=brecon,asset_id=33410` and `flow,asset_id=33410,dma=brecon`. -/
theorem C7_properId_ignores_tag_order_witness :
    properId ("flow".toList ++
        tagString [("dma".toList, "brecon".toList), ("asset_id".toList, "33410".toList)]) =
      properId ("flow".toList ++
        tagString [("asset_id".toList, "33410".toList), ("dma".toList, "brecon".toList)]) ∧
    ∃ sorted : List (Str × Str),
      sorted.Perm [("dma".toList, "brecon".toList), ("asset_id".toList, "33410".toList)] ∧
      sorted.Pairwise (fun a b => a.1 < b.1) ∧
      properId ("flow".toList ++
        tagString [("dma".toList, "brecon".toList), ("asset_id".toList, "33410".toList)]) =
        "flow".toList ++ tagString sorted :=
  C7_properId_ignores_tag_order "flow".toList
    [("dma".toList, "brecon".toList), ("asset_id".toList, "33410".toList)]
    [("asset_id".toList, "33410".toList), ("dma".toList, "brecon".toList)]
    (by decide)
    (by
      intro kv hkv
      simp only [List.mem_cons, List.mem_singleton, List.not_mem_nil, or_false] at hkv
      rcases hkv with h | h <;> subst h <;> unfold TagWellFormed <;> decide)
    (by decide)
    (List.Perm.swap _ _ _)

/-! ## Theorems: the write path -/

theorem replaceAllAux_space (s : Str) : ∀ fuel : Nat, s.length ≤ fuel →
    replaceAllAux [' '] ['\\', ' '] fuel s = escapeSpaces s := by
  induction s with
  | nil => intro fuel _; cases fuel <;> rfl
  | cons c cs ih =>
    intro fuel hfuel
    cases fuel with
    | zero => simp at hfuel
    | succ f =>
      have hf : cs.length ≤ f := by simpa using hfuel
      by_cases hc : c = ' '
      · subst hc
        simp [replaceAllAux, escapeSpaces, List.isPrefixOf, ih f hf]
      · have hc' : (' ' == c) = false := by simpa using fun e => hc e.symm
        simp [replaceAllAux, escapeSpaces, List.isPrefixOf, ih f hf, hc, hc']

theorem replace_all_space (s : Str) :
    replace_all s " ".toList "\\ ".toList = escapeSpaces s :=
  replaceAllAux_space s s.length (le_refl _)

/-- The text the loop appends for the points after the first: a newline before each
record. -/
theorem joinLines_cons (l : Str) (rest : List Str) :
    joinLines (l :: rest) = l ++ (rest.map (fun r => '\n' :: r)).flatten := by
  induction rest generalizing l with
  | nil => simp [joinLines]
  | cons l' rest ih => simp [joinLines, ih l']

theorem insertionLine_loop {V U : Type} (F : InfluxEnv V U) (esc : Str)
    (points : List (Point V)) : ∀ (ss : Str) (i : Nat),
    (points.foldl
      (fun (st : Str × Nat) p =>
        let ss := if st.2 > 0 then st.1 ++ ['\n'] else st.1
        let valueStr := F.to_string p.value
        let ss := ss ++ esc ++ " value=".toList ++ valueStr ++ ",".toList
          ++ "quality=".toList ++ streamInt p.quality ++ "i,".toList ++ "confidence=".toList
          ++ F.streamDouble p.confidence ++ " ".toList ++ streamInt p.time
        (ss, st.2 + 1))
      (ss, i)).1 =
      ss ++ (if i > 0 then (points.map (fun p => '\n' :: lineRecord F esc p)).flatten
        else joinLines (points.map (lineRecord F esc))) := by
  induction points with
  | nil => intro ss i; simp [joinLines]
  | cons p rest ih =>
    intro ss i
    simp only [List.foldl_cons]
    rw [ih]
    by_cases hi : i > 0
    · simp [hi, lineRecord]
    · simp [hi, joinLines_cons, lineRecord, Function.comp_def]

/-- C10: `insertionLineFromPoints` returns one record per point (n records for n
points), in input order, joined by single newlines (none leading, none trailing); each
record is the name with every space replaced by backslash-space, a space,
`value=<v>,quality=<q>i,confidence=<c>`, a space, and the point's time in epoch
seconds.  It holds for every list of points, in particular for every non-empty one. -/
theorem C10_insertion_line_layout {V U : Type} (F : InfluxEnv V U) (tsName : Str)
    (points : List (Point V)) :
    (points.map (lineRecord F (escapeSpaces tsName))).length = points.length ∧
    insertionLineFromPoints F tsName points =
      joinLines (points.map (lineRecord F (escapeSpaces tsName))) := by
  refine ⟨by simp, ?_⟩
  unfold insertionLineFromPoints
  simp only [replace_all_space]
  rw [insertionLine_loop]
  simp

/-! ## Theorems: what parsing always yields -/

theorem strFind_none_not_mem {c : Char} {s : Str} (h : strFind c s = none) : c ∉ s := by
  induction s with
  | nil => simp
  | cons x xs ih =>
    simp only [strFind] at h
    split_ifs at h with hx
    simp only [Option.map_eq_none'] at h
    simp only [List.mem_cons, not_or]
    exact ⟨fun e => hx e.symm, ih h⟩

theorem strFind_some_take {c : Char} {s : Str} : ∀ {n : Nat}, strFind c s = some n →
    c ∉ s.take n ∧ ∃ t, s = s.take n ++ c :: t := by
  induction s with
  | nil => intro n h; simp [strFind] at h
  | cons x xs ih =>
    intro n h
    simp only [strFind] at h
    split_ifs at h with hx
    · simp only [Option.some.injEq] at h
      subst h; subst hx
      exact ⟨by simp, xs, by simp⟩
    · simp only [Option.map_eq_some'] at h
      obtain ⟨m, hm, rfl⟩ := h
      obtain ⟨h1, t, h2⟩ := ih hm
      refine ⟨?_, t, ?_⟩
      · simp only [List.take_succ_cons, List.mem_cons, not_or]
        exact ⟨fun e => hx e.symm, h1⟩
      · simp only [List.take_succ_cons, List.cons_append, List.cons.injEq, true_and]
        exact h2

theorem measurement_no_comma (name : Str) : ',' ∉ (metricInfoFromName name).measurement := by
  unfold metricInfoFromName
  cases h : strFind ',' name with
  | none => simpa [substr] using strFind_none_not_mem h
  | some n => simpa [substr] using (strFind_some_take h).1

theorem kvMatchAt_some {sep : Char} {s k v rest : Str}
    (h : kvMatchAt sep s = some (k, v, rest)) :
    k ≠ [] ∧ '=' ∉ k ∧ v ≠ [] ∧ sep ∉ v := by
  unfold kvMatchAt at h
  simp only [List.span_eq_take_drop] at h
  split_ifs at h with h1
  split at h
  · exact absurd h (by simp)
  · rename_i afterEq heq
    split_ifs at h with h2
    have hk : '=' ∉ s.takeWhile (fun c => decide (c ≠ '=')) := by
      intro hmem
      have := List.mem_takeWhile_imp hmem
      simp at this
    have hv : sep ∉ afterEq.takeWhile (fun c => decide (c ≠ sep)) := by
      intro hmem
      have := List.mem_takeWhile_imp hmem
      simp at this
    split at h <;>
    · simp only [Option.some.injEq, Prod.mk.injEq] at h
      obtain ⟨rfl, rfl, -⟩ := h
      exact ⟨h1, hk, h2, hv⟩

theorem kvSearch_some {sep : Char} : ∀ {s k v rest : Str},
    kvSearch sep s = some (k, v, rest) → k ≠ [] ∧ '=' ∉ k ∧ v ≠ [] ∧ sep ∉ v := by
  intro s
  induction s with
  | nil => intro k v rest h; simp [kvSearch] at h
  | cons c cs ih =>
    intro k v rest h
    simp only [kvSearch] at h
    cases hm : kvMatchAt sep (c :: cs) with
    | none => rw [hm] at h; exact ih h
    | some r =>
      rw [hm] at h
      simp only [Option.some.injEq] at h
      subst h
      exact kvMatchAt_some hm

theorem kvIterate_readable (fuel : Nat) : ∀ (s : Str),
    ∀ kv ∈ kvIterate ',' fuel s, TagReadable kv := by
  induction fuel with
  | zero => intro s kv h; simp [kvIterate] at h
  | succ f ih =>
    intro s kv h
    simp only [kvIterate] at h
    cases hs : kvSearch ',' s with
    | none => rw [hs] at h; simp at h
    | some r =>
      obtain ⟨k, v, rest⟩ := r
      rw [hs] at h
      simp only [List.mem_cons] at h
      rcases h with h | h
      · subst h; exact kvSearch_some hs
      · exact ih rest kv h

theorem foldl_smInsert_mem {κ β : Type} [LinearOrder κ] (l : List (κ × β)) :
    ∀ (acc : SMap κ β) (x : κ × β),
      x ∈ l.foldl (fun tags kv => smInsert kv.1 kv.2 tags) acc → x ∈ acc ∨ x ∈ l := by
  induction l with
  | nil => intro acc x h; exact Or.inl h
  | cons a rest ih =>
    intro acc x h
    simp only [List.foldl_cons] at h
    rcases ih _ x h with h | h
    · rcases smInsert_keys_mem a.1 a.2 acc x h with h | h
      · exact Or.inr (by simp [h])
      · exact Or.inl h
    · exact Or.inr (by simp [h])

theorem metricInfoFromName_tags_wf (name : Str) : SMap.WF (metricInfoFromName name).tags := by
  unfold metricInfoFromName
  cases strFind ',' name with
  | none => simp [SMap.WF]
  | some n => exact foldl_smInsert_wf _ _ (by simp [SMap.WF])

theorem metricInfoFromName_tags_readable (name : Str) :
    ∀ kv ∈ (metricInfoFromName name).tags, TagReadable kv := by
  unfold metricInfoFromName
  cases strFind ',' name with
  | none => simp
  | some n =>
    intro kv h
    rcases foldl_smInsert_mem _ _ kv h with h | h
    · simp at h
    · exact kvIterate_readable _ _ kv h

/-! ## Theorems: lookups and erasure in maps -/

theorem smFind_smInsert_self {κ β : Type} [LinearOrder κ] (k : κ) (v : β) (m : SMap κ β) :
    smFind k (smInsert k v m) = some v := by
  induction m with
  | nil => simp [smInsert, smFind]
  | cons a rest ih =>
    obtain ⟨k', v'⟩ := a
    simp only [smInsert]
    split_ifs with h1 h2
    · simp [smFind]
    · simp [smFind, h1, h2, ih]
    · simp [smFind]

theorem smFind_smInsert_of_ne {κ β : Type} [LinearOrder κ] (k k₀ : κ) (v : β) (m : SMap κ β)
    (hne : k ≠ k₀) : smFind k (smInsert k₀ v m) = smFind k m := by
  induction m with
  | nil =>
    simp only [smInsert, smFind]
    rcases lt_trichotomy k k₀ with h | h | h
    · simp [h]
    · exact absurd h hne
    · simp [h, not_lt_of_gt h]
  | cons a rest ih =>
    obtain ⟨k', v'⟩ := a
    simp only [smInsert]
    split_ifs with h1 h2
    · -- k₀ < k'
      simp only [smFind]
      rcases lt_trichotomy k k₀ with h | h | h
      · simp [h, lt_trans h h1]
      · exact absurd h hne
      · simp [h, not_lt_of_gt h]
    · -- k' < k₀
      simp only [smFind, ih]
    · -- k₀ = k'
      have hkk : k₀ = k' := le_antisymm (not_lt.mp h2) (not_lt.mp h1)
      subst hkk
      simp only [smFind]
      rcases lt_trichotomy k k₀ with h | h | h
      · simp [h]
      · exact absurd h hne
      · simp [h, not_lt_of_gt h]

theorem smFind_none_of_not_mem_keys {κ β : Type} [LinearOrder κ] (k : κ) (m : SMap κ β)
    (h : ∀ a ∈ m, a.1 ≠ k) : smFind k m = none := by
  induction m with
  | nil => rfl
  | cons a rest ih =>
    obtain ⟨k', v'⟩ := a
    have hne : k' ≠ k := h (k', v') (by simp)
    simp only [smFind]
    split_ifs with h1 h2
    · rfl
    · exact ih (fun a ha => h a (by simp [ha]))
    · exact absurd (le_antisymm (not_lt.mp h1) (not_lt.mp h2)) hne

theorem smErase_subset {κ β : Type} [LinearOrder κ] (k : κ) (m : SMap κ β) :
    ∀ x ∈ smErase k m, x ∈ m := by
  induction m with
  | nil => intro x h; simp [smErase] at h
  | cons a rest ih =>
    obtain ⟨k', v'⟩ := a
    intro x h
    simp only [smErase] at h
    split_ifs at h with h1 h2
    · exact h
    · rcases List.mem_cons.mp h with h | h
      · simp [h]
      · exact List.mem_cons_of_mem _ (ih x h)
    · exact List.mem_cons_of_mem _ h

theorem smErase_wf {κ β : Type} [LinearOrder κ] (k : κ) (m : SMap κ β) (hm : SMap.WF m) :
    SMap.WF (smErase k m) := by
  induction m with
  | nil => simp [smErase, SMap.WF]
  | cons a rest ih =>
    obtain ⟨k', v'⟩ := a
    unfold SMap.WF at hm ih ⊢
    have hhead := (List.pairwise_cons.mp hm).1
    have htail := (List.pairwise_cons.mp hm).2
    simp only [smErase]
    split_ifs with h1 h2
    · exact hm
    · exact List.pairwise_cons.mpr ⟨fun b hb => hhead b (smErase_subset k rest b hb), ih htail⟩
    · exact htail

theorem smErase_key_absent {κ β : Type} [LinearOrder κ] (k : κ) (m : SMap κ β)
    (hm : SMap.WF m) : ∀ a ∈ smErase k m, a.1 ≠ k := by
  induction m with
  | nil => intro a h; simp [smErase] at h
  | cons b rest ih =>
    obtain ⟨k', v'⟩ := b
    unfold SMap.WF at hm ih
    have hhead := (List.pairwise_cons.mp hm).1
    have htail := (List.pairwise_cons.mp hm).2
    intro a h
    simp only [smErase] at h
    split_ifs at h with h1 h2
    · rcases List.mem_cons.mp h with h | h
      · subst h; exact ne_of_gt h1
      · exact ne_of_gt (lt_trans h1 (hhead a h))
    · rcases List.mem_cons.mp h with h | h
      · subst h; exact ne_of_lt h2
      · exact ih htail a h
    · have hkk : k = k' := le_antisymm (not_lt.mp h2) (not_lt.mp h1)
      subst hkk
      exact ne_of_gt (hhead a h)

theorem smErase_of_find_none {κ β : Type} [LinearOrder κ] (k : κ) (m : SMap κ β)
    (h : smFind k m = none) : smErase k m = m := by
  induction m with
  | nil => rfl
  | cons a rest ih =>
    obtain ⟨k', v'⟩ := a
    simp only [smFind] at h
    simp only [smErase]
    split_ifs at h ⊢ with h1 h2
    · rfl
    · rw [ih h]

theorem smErase_smInsert {κ β : Type} [LinearOrder κ] (k : κ) (v : β) (m : SMap κ β)
    (h : ∀ a ∈ m, a.1 ≠ k) : smErase k (smInsert k v m) = m := by
  induction m with
  | nil => simp [smInsert, smErase]
  | cons a rest ih =>
    obtain ⟨k', v'⟩ := a
    have hne : k' ≠ k := h (k', v') (by simp)
    simp only [smInsert]
    split_ifs with h1 h2
    · simp [smErase]
    · simp [smErase, h1, h2, ih (fun a ha => h a (by simp [ha]))]
    · exact absurd (le_antisymm (not_lt.mp h1) (not_lt.mp h2)) hne

/-! ## Theorems: storage identifiers -/

theorem influxId_of_registered {V U : Type} (F : InfluxEnv V U) (self : InfluxDbPointRecord U)
    (id : Str) (u : U) (hreg : smFind (tsIdOf id) self._identifiersAndUnitsCache = some u) :
    self._influxIdForTsId F id =
      nameFromMetricInfo
        { measurement := (metricInfoFromName id).measurement
          tags := smInsert unitsKey (F.unitString u)
            (smErase unitsKey (metricInfoFromName id).tags) } := by
  have herase : (if smCount unitsKey (metricInfoFromName id).tags ≠ 0 then
      { metricInfoFromName id with tags := smErase unitsKey (metricInfoFromName id).tags }
      else metricInfoFromName id) =
      { measurement := (metricInfoFromName id).measurement
        tags := smErase unitsKey (metricInfoFromName id).tags } := by
    by_cases hc : smCount unitsKey (metricInfoFromName id).tags ≠ 0
    · rw [if_pos hc]
    · rw [if_neg hc]
      have hnone : smFind unitsKey (metricInfoFromName id).tags = none := by
        simp only [smCount, ne_eq, ite_eq_right_iff, one_ne_zero, imp_false, not_not,
          Bool.not_eq_true, Option.not_isSome, Option.isNone_iff_eq_none] at hc
        simpa using hc
      rw [smErase_of_find_none _ _ hnone]
  unfold tsIdOf at hreg
  unfold InfluxDbPointRecord._influxIdForTsId
  simp only [herase, hreg]

theorem storageTags_parse {V U : Type} (F : InfluxEnv V U) (id : Str) (u : U)
    (hunit : F.unitString u ≠ [] ∧ ',' ∉ F.unitString u) :
    metricInfoFromName (nameFromMetricInfo
        { measurement := (metricInfoFromName id).measurement
          tags := smInsert unitsKey (F.unitString u)
            (smErase unitsKey (metricInfoFromName id).tags) }) =
      { measurement := (metricInfoFromName id).measurement
        tags := smInsert unitsKey (F.unitString u)
          (smErase unitsKey (metricInfoFromName id).tags) } := by
  apply metricInfoFromName_nameFromMetricInfo
  · exact smInsert_wf _ _ _ (smErase_wf _ _ (metricInfoFromName_tags_wf id))
  · exact measurement_no_comma id
  · intro kv hkv
    rcases smInsert_keys_mem _ _ _ kv hkv with h | h
    · subst h
      have hk1 : unitsKey ≠ [] := by decide
      have hk2 : '=' ∉ unitsKey := by decide
      exact ⟨hk1, hk2, hunit.1, hunit.2⟩
    · exact metricInfoFromName_tags_readable id kv (smErase_subset _ _ kv h)

/-- Translating a storage identifier again gives the same storage identifier. -/
theorem influxId_stable {V U : Type} (F : InfluxEnv V U) (self : InfluxDbPointRecord U)
    (id : Str) (u : U) (hreg : smFind (tsIdOf id) self._identifiersAndUnitsCache = some u)
    (hunit : F.unitString u ≠ [] ∧ ',' ∉ F.unitString u) :
    self._influxIdForTsId F (self._influxIdForTsId F id) = self._influxIdForTsId F id := by
  have h1 := influxId_of_registered F self id u hreg
  have hparse := storageTags_parse F id u hunit
  have habs : ∀ a ∈ smErase unitsKey (metricInfoFromName id).tags, a.1 ≠ unitsKey :=
    smErase_key_absent _ _ (metricInfoFromName_tags_wf id)
  have hts : tsIdOf (self._influxIdForTsId F id) = tsIdOf id := by
    rw [h1]
    unfold tsIdOf
    rw [hparse]
    simp only [smErase_smInsert _ _ _ habs]
  have hreg2 : smFind (tsIdOf (self._influxIdForTsId F id)) self._identifiersAndUnitsCache =
      some u := by rw [hts]; exact hreg
  rw [influxId_of_registered F self _ u hreg2, h1, hparse]
  simp only [smErase_smInsert _ _ _ habs]

theorem sampleRecord_influxId :
    sampleRecord._influxIdForTsId ratFmt "flow,site=a".toList =
      "flow,site=a,units=L1T0".toList := by decide

theorem sampleRecord_influxId_again :
    sampleRecord._influxIdForTsId ratFmt "flow,site=a,units=L1T0".toList =
      "flow,site=a,units=L1T0".toList := by decide

theorem sampleRecord_registered :
    smFind (tsIdOf "flow,site=a".toList) sampleRecord._identifiersAndUnitsCache = some metre := by
  rfl

theorem sampleUnit_readable :
    ratFmt.unitString metre ≠ [] ∧ ',' ∉ ratFmt.unitString metre := by
  decide

/-! ## Theorems: the iterator's fuel is enough -/

theorem kvMatchAt_length {sep : Char} {s k v rest : Str}
    (h : kvMatchAt sep s = some (k, v, rest)) : rest.length < s.length := by
  unfold kvMatchAt at h
  simp only [List.span_eq_take_drop] at h
  split_ifs at h with h1
  split at h
  · exact absurd h (by simp)
  · rename_i afterEq heq
    split_ifs at h with h2
    have hs : s.length = (s.takeWhile (fun c => decide (c ≠ '='))).length +
        (s.dropWhile (fun c => decide (c ≠ '='))).length := by
      rw [← List.length_append, List.takeWhile_append_dropWhile]
    have ha : afterEq.length = (afterEq.takeWhile (fun c => decide (c ≠ sep))).length +
        (afterEq.dropWhile (fun c => decide (c ≠ sep))).length := by
      rw [← List.length_append, List.takeWhile_append_dropWhile]
    rw [heq] at hs
    simp only [List.length_cons] at hs
    split at h
    · rename_i hd
      simp only [Option.some.injEq, Prod.mk.injEq] at h
      obtain ⟨-, -, rfl⟩ := h
      simp only [List.length_nil]
      omega
    · rename_i c afterSep hd
      simp only [Option.some.injEq, Prod.mk.injEq] at h
      obtain ⟨-, -, rfl⟩ := h
      rw [hd] at ha
      simp only [List.length_cons] at ha
      omega

theorem kvSearch_length {sep : Char} : ∀ {s k v rest : Str},
    kvSearch sep s = some (k, v, rest) → rest.length < s.length := by
  intro s
  induction s with
  | nil => intro k v rest h; simp [kvSearch] at h
  | cons c cs ih =>
    intro k v rest h
    simp only [kvSearch] at h
    cases hm : kvMatchAt sep (c :: cs) with
    | none =>
      rw [hm] at h
      have := ih h
      simp only [List.length_cons]
      omega
    | some r =>
      rw [hm] at h
      simp only [Option.some.injEq] at h
      subst h
      exact kvMatchAt_length hm

theorem kvIterate_fuel_succ (sep : Char) (fuel : Nat) : ∀ s : Str, s.length ≤ fuel →
    kvIterate sep (fuel + 1) s = kvIterate sep fuel s := by
  induction fuel with
  | zero =>
    intro s hs
    have : s = [] := List.length_eq_zero.mp (Nat.le_zero.mp hs)
    subst this
    simp [kvIterate, kvSearch]
  | succ f ih =>
    intro s hs
    rw [kvIterate, kvIterate]
    cases hsearch : kvSearch sep s with
    | none => rfl
    | some r =>
      obtain ⟨k, v, rest⟩ := r
      have hlen := kvSearch_length hsearch
      simp only
      rw [ih rest (by omega)]

/-- Any fuel of at least the length of the text gives the same matches: the bound used
by `kvMatches` never cuts the iteration short. -/
theorem kvIterate_eq_kvMatches (sep : Char) (s : Str) (extra : Nat) :
    kvIterate sep (s.length + extra) s = kvMatches sep s := by
  induction extra with
  | zero => rfl
  | succ n ih =>
    rw [← ih, ← Nat.add_assoc]
    exact kvIterate_fuel_succ sep (s.length + n) s (by omega)

/-! ## Theorems: decoding a response -/

theorem hasMember_of_member {V : Type} {name : Str} {j v : Json V}
    (h : j.member name = some v) : j.HasMember name = some true := by
  cases j <;> simp [Json.member] at h
  simp [Json.HasMember, h]

theorem hasMember_of_member_none {V : Type} {name : Str} {j : Json V}
    (hobj : j.IsObject = true) (h : j.member name = none) : j.HasMember name = some false := by
  cases j <;> simp [Json.IsObject] at hobj
  simp only [Json.member] at h
  simp [Json.HasMember, h]

theorem not_nonEmptyArray {V : Type} {j : Json V} (h : ¬ j.IsNonEmptyArray) :
    j.IsArray = false ∨ j.Size = some 0 := by
  cases j with
  | arr items =>
    cases items with
    | nil => right; rfl
    | cons x xs => exact absurd trivial h
  | _ => left; rfl

/-- C12: for a response document that is absent, is not an object, lacks `results`, has
a `results` that is not a non-empty array, has a first result that is not an object or
lacks `series`, or has a `series` that is not a non-empty array, `pointsFromJson`
returns the empty list (and no rapidjson assertion fails). -/
theorem C12_malformed_response_decodes_to_empty {V U : Type} (W : WireEnv V U)
    (doc : Option (Json V)) (h : MalformedResponse doc) :
    pointsFromJson W doc = some [] := by
  cases doc with
  | none => rfl
  | some d =>
    unfold pointsFromJson
    by_cases hobj : d.IsObject = false
    · simp only [hobj, if_true]
    · have hobj' : d.IsObject = true := by simpa using hobj
      simp only
      rw [if_neg hobj]
      rcases h with h | h | ⟨results, hres, h⟩
      · exact absurd h hobj
      · rw [hasMember_of_member_none hobj' h]
      · rw [hasMember_of_member hres, hres]
        simp only
        rcases h with h | ⟨rzero, hz, h⟩
        · rw [if_pos (not_nonEmptyArray h)]
        · by_cases hr : results.IsArray = false ∨ results.Size = some 0
          · rw [if_pos hr]
          · rw [if_neg hr, hz]
            simp only
            by_cases hzo : rzero.IsObject = false
            · rw [if_pos hzo]
            · have hzo' : rzero.IsObject = true := by simpa using hzo
              rw [if_neg hzo]
              rcases h with h | h | ⟨series, hser, h⟩
              · exact absurd h hzo
              · rw [hasMember_of_member_none hzo' h]
              · rw [hasMember_of_member hser, hser]
                simp only
                rw [if_pos (not_nonEmptyArray h)]

theorem pointsFromJson_of_firstSeries {V U : Type} (W : WireEnv V U) (doc tsData : Json V)
    (h : firstSeries doc = some tsData) :
    pointsFromJson W (some doc) = pointsFromSeries W tsData := by
  unfold firstSeries at h
  cases hres : doc.member "results".toList with
  | none => rw [hres] at h; simp at h
  | some results =>
    rw [hres] at h
    cases results with
    | arr items =>
      cases items with
      | nil => simp at h
      | cons rzero rest =>
        simp only at h
        cases hser : rzero.member "series".toList with
        | none => rw [hser] at h; simp at h
        | some series =>
          rw [hser] at h
          cases series with
          | arr sitems =>
            cases sitems with
            | nil => simp at h
            | cons ts srest =>
              simp only [Option.some.injEq] at h
              subst h
              have hd : doc.IsObject = true := by
                cases doc <;> simp [Json.member] at hres
                rfl
              have hz : rzero.IsObject = true := by
                cases rzero <;> simp [Json.member] at hser
                rfl
              unfold pointsFromJson
              simp only
              rw [if_neg (by simp [hd]), hasMember_of_member hres, hres]
              simp only
              rw [if_neg (by simp [Json.IsArray, Json.Size])]
              simp only [Json.index, List.getElem?_cons_zero]
              rw [if_neg (by simp [hz]), hasMember_of_member hser, hser]
              simp only
              rw [if_neg (by simp [Json.IsArray, Json.Size])]
              simp only [Json.index, List.getElem?_cons_zero]
          | _ => simp at h
    | _ => simp at h

theorem columnMapLoop_total {V : Type} (cols : List Str) : ∀ (i : Nat) (m : SMap Str Int),
    ∃ m', columnMapLoop (V := V) (cols.map Json.str) i m = some m' := by
  induction cols with
  | nil => intro i m; exact ⟨m, rfl⟩
  | cons c cs ih =>
    intro i m
    simp only [List.map_cons, columnMapLoop, Json.GetString]
    exact ih _ _

theorem columnMapLoop_find_not_mem {V : Type} (name : Str) (cols : List Str)
    (h : name ∉ cols) : ∀ (i : Nat) (m m' : SMap Str Int),
    columnMapLoop (V := V) (cols.map Json.str) i m = some m' →
      smFind name m' = smFind name m := by
  induction cols with
  | nil =>
    intro i m m' hm
    simp only [List.map_nil, columnMapLoop, Option.some.injEq] at hm
    rw [hm]
  | cons c cs ih =>
    intro i m m' hm
    simp only [List.map_cons, columnMapLoop, Json.GetString] at hm
    have hc : name ≠ c := fun e => h (by simp [e])
    have hcs : name ∉ cs := fun e => h (by simp [e])
    rw [ih hcs _ _ _ hm, smFind_smInsert_of_ne name c _ m hc]

theorem occurrences_pos_of_mem (name : Str) (cols : List Str) (h : name ∈ cols) :
    0 < occurrences name cols := by
  induction cols with
  | nil => simp at h
  | cons c cs ih =>
    simp only [occurrences]
    split_ifs with hc
    · omega
    · rcases List.mem_cons.mp h with h | h
      · exact absurd h.symm hc
      · exact ih h

theorem mem_of_occurrences_pos (name : Str) (cols : List Str)
    (h : 0 < occurrences name cols) : name ∈ cols := by
  induction cols with
  | nil => simp [occurrences] at h
  | cons c cs ih =>
    simp only [occurrences] at h
    split_ifs at h with hc
    · simp [hc]
    · exact List.mem_cons_of_mem _ (ih h)

theorem occurrences_perm (name : Str) (l l' : List Str) (hp : l'.Perm l) :
    occurrences name l' = occurrences name l := by
  induction hp with
  | nil => rfl
  | cons x _ ih => simp only [occurrences, ih]
  | swap x y l => simp only [occurrences]; split_ifs <;> rfl
  | trans _ _ ih1 ih2 => rw [ih1, ih2]

theorem columnMapLoop_find_once {V : Type} (name : Str) (cols : List Str)
    (h : occurrences name cols = 1) : ∀ (i : Nat) (m m' : SMap Str Int),
    columnMapLoop (V := V) (cols.map Json.str) i m = some m' →
      smFind name m' = some ((i + columnPosition name cols : Nat) : Int) := by
  induction cols with
  | nil => simp [occurrences] at h
  | cons c cs ih =>
    intro i m m' hm
    simp only [List.map_cons, columnMapLoop, Json.GetString] at hm
    by_cases hc : c = name
    · subst hc
      have hcs : c ∉ cs := by
        intro hmem
        have := occurrences_pos_of_mem c cs hmem
        simp only [occurrences, if_true] at h
        omega
      rw [columnMapLoop_find_not_mem c cs hcs _ _ _ hm, smFind_smInsert_self]
      simp [columnPosition]
    · have hcount : occurrences name cs = 1 := by
        simp only [occurrences, hc, if_false] at h
        exact h
      rw [ih hcount _ _ _ hm]
      have hidx : columnPosition name (c :: cs) = columnPosition name cs + 1 := by
        simp [columnPosition, hc]
      rw [hidx]
      congr 2
      omega

theorem columnIndex_of_once {V : Type} (name : Str) (cols : List Str)
    (h : occurrences name cols = 1) (m' : SMap Str Int)
    (hm : columnMapLoop (V := V) (cols.map Json.str) 0 [] = some m') :
    columnIndex m' name = columnPosition name cols := by
  unfold columnIndex
  rw [columnMapLoop_find_once name cols h 0 [] m' hm]
  simp

/-- Decoding of a well-shaped series goes row by row with the positions of the four
named columns. -/
theorem pointsFromSeries_of_shape {V U : Type} (W : WireEnv V U) (tsData : Json V)
    (cols : List Str) (rows : List (List (Json V))) (hshape : SeriesShape tsData cols rows) :
    pointsFromSeries W tsData =
      rowsLoop W (columnPosition "time".toList cols) (columnPosition "value".toList cols)
        (columnPosition "quality".toList cols) (columnPosition "confidence".toList cols)
        (rows.map Json.arr) := by
  obtain ⟨nm, hname⟩ := hshape.name
  obtain ⟨m', hm'⟩ := columnMapLoop_total (V := V) cols 0 []
  unfold pointsFromSeries
  rw [hname]
  simp only [Json.GetString]
  rw [hshape.columns]
  simp only [Json.elements]
  rw [hm']
  simp only
  rw [columnIndex_of_once _ cols hshape.time_once m' hm',
    columnIndex_of_once _ cols hshape.value_once m' hm',
    columnIndex_of_once _ cols hshape.quality_once m' hm',
    columnIndex_of_once _ cols hshape.confidence_once m' hm', hshape.values]
  simp only [Json.IsArray, Json.Size, Json.elements]
  cases rows with
  | nil => simp [rowsLoop]
  | cons r rs => simp

theorem getElem?_columnPosition {V : Type} (name : Str) (cols : List Str) :
    ∀ row : List (Json V), row.length = cols.length →
      row[columnPosition name cols]? = findMember name (cols.zip row) := by
  induction cols with
  | nil =>
    intro row hlen
    have : row = [] := List.length_eq_zero.mp hlen
    subst this
    rfl
  | cons c cs ih =>
    intro row hlen
    cases row with
    | nil => simp at hlen
    | cons e es =>
      have hlen' : es.length = cs.length := by simpa using hlen
      rw [List.zip_cons_cons]
      by_cases hc : c = name
      · simp [columnPosition, findMember, hc]
      · simp only [columnPosition, findMember, hc, if_false, List.getElem?_cons_succ]
        exact ih es hlen'

theorem mem_of_findMember {V : Type} (name : Str) (l : List (Str × Json V)) (v : Json V)
    (h : findMember name l = some v) : (name, v) ∈ l := by
  induction l with
  | nil => simp [findMember] at h
  | cons a rest ih =>
    obtain ⟨k, x⟩ := a
    simp only [findMember] at h
    split_ifs at h with hk
    · simp only [Option.some.injEq] at h
      subst h; subst hk
      simp
    · exact List.mem_cons_of_mem _ (ih h)

theorem findMember_of_mem_once {V : Type} (name : Str) (l : List (Str × Json V))
    (v : Json V) (hcount : occurrences name (l.map Prod.fst) = 1) (h : (name, v) ∈ l) :
    findMember name l = some v := by
  induction l with
  | nil => simp at h
  | cons a rest ih =>
    obtain ⟨k, x⟩ := a
    simp only [findMember]
    by_cases hk : k = name
    · subst hk
      rw [if_pos rfl]
      have hnot : k ∉ rest.map Prod.fst := by
        intro hmem
        have := occurrences_pos_of_mem k _ hmem
        simp only [List.map_cons, occurrences, if_true] at hcount
        omega
      rcases List.mem_cons.mp h with h | h
      · simp only [Prod.mk.injEq, true_and] at h
        rw [h]
      · exact absurd (List.mem_map_of_mem Prod.fst h) hnot
    · rw [if_neg hk]
      have hcount' : occurrences name (rest.map Prod.fst) = 1 := by
        simp only [List.map_cons, occurrences, hk, if_false] at hcount
        exact hcount
      rcases List.mem_cons.mp h with h | h
      · simp only [Prod.mk.injEq] at h
        exact absurd h.1.symm hk
      · exact ih hcount' h

theorem findMember_isSome_of_mem {V : Type} (name : Str) (l : List (Str × Json V))
    (h : name ∈ l.map Prod.fst) : ∃ v, findMember name l = some v := by
  induction l with
  | nil => simp at h
  | cons a rest ih =>
    obtain ⟨k, x⟩ := a
    simp only [findMember]
    by_cases hk : k = name
    · exact ⟨x, by rw [if_pos hk]⟩
    · rw [if_neg hk]
      simp only [List.map_cons, List.mem_cons] at h
      rcases h with h | h
      · exact absurd h.symm hk
      · exact ih h

/-- The entry found under a name that occurs once does not depend on the order of the
(column, entry) pairs. -/
theorem findMember_perm {V : Type} (name : Str) (l l' : List (Str × Json V))
    (hp : l'.Perm l) (hcount : occurrences name (l.map Prod.fst) = 1) :
    findMember name l' = findMember name l := by
  have hmem : name ∈ l.map Prod.fst := mem_of_occurrences_pos name _ (by omega)
  obtain ⟨v, hv⟩ := findMember_isSome_of_mem name l hmem
  have hin : (name, v) ∈ l' := hp.mem_iff.mpr (mem_of_findMember name l v hv)
  have hcount' : occurrences name (l'.map Prod.fst) = 1 := by
    rw [occurrences_perm name _ _ (hp.map Prod.fst)]
    exact hcount
  rw [hv, findMember_of_mem_once name l' v hcount' hin]

theorem map_fst_zip_of_length {V : Type} (cols : List Str) :
    ∀ row : List (Json V), row.length = cols.length → (cols.zip row).map Prod.fst = cols := by
  induction cols with
  | nil => intro row _; simp
  | cons c cs ih =>
    intro row hlen
    cases row with
    | nil => simp at hlen
    | cons e es => simp [ih es (by simpa using hlen)]

theorem entryUnder_perm {V : Type} (name : Str) (cols cols' : List Str)
    (row row' : List (Json V)) (hlen : row.length = cols.length)
    (hlen' : row'.length = cols'.length) (hp : (cols'.zip row').Perm (cols.zip row))
    (hcount : occurrences name cols = 1) :
    row'[columnPosition name cols']? = row[columnPosition name cols]? := by
  rw [getElem?_columnPosition name cols' row' hlen', getElem?_columnPosition name cols row hlen]
  apply findMember_perm name _ _ hp
  rw [map_fst_zip_of_length cols row hlen]
  exact hcount

theorem rowPoint_congr {V U : Type} (W : WireEnv V U) (row row' : List (Json V))
    (ti vi qi ci ti' vi' qi' ci' : Nat)
    (ht : row'[ti']? = row[ti]?) (hv : row'[vi']? = row[vi]?)
    (hq : row'[qi']? = row[qi]?) (hc : row'[ci']? = row[ci]?) :
    rowPoint W ti' vi' qi' ci' (.arr row') = rowPoint W ti vi qi ci (.arr row) := by
  simp only [rowPoint, Json.index, ht, hv, hq, hc]

/-- C12 (witness): an error document, which lacks `results`. -/
theorem C12_malformed_response_decodes_to_empty_witness :
    pointsFromJson ratWire (some errorResponse) = some [] :=
  C12_malformed_response_decodes_to_empty ratWire (some errorResponse)
    (Or.inr (Or.inl rfl))

theorem rowsLoop_perm {V U : Type} (W : WireEnv V U) (cols cols' : List Str)
    (rows rows' : List (List (Json V)))
    (htime : occurrences "time".toList cols = 1)
    (hvalue : occurrences "value".toList cols = 1)
    (hquality : occurrences "quality".toList cols = 1)
    (hconfidence : occurrences "confidence".toList cols = 1)
    (hrows : List.Forall₂ (fun row row' => row.length = cols.length ∧
      row'.length = cols'.length ∧ (cols'.zip row').Perm (cols.zip row)) rows rows') :
    rowsLoop W (columnPosition "time".toList cols') (columnPosition "value".toList cols')
        (columnPosition "quality".toList cols') (columnPosition "confidence".toList cols')
        (rows'.map Json.arr) =
      rowsLoop W (columnPosition "time".toList cols) (columnPosition "value".toList cols)
        (columnPosition "quality".toList cols) (columnPosition "confidence".toList cols)
        (rows.map Json.arr) := by
  induction hrows with
  | nil => rfl
  | cons hd _ ih =>
    obtain ⟨hlen, hlen', hp⟩ := hd
    simp only [List.map_cons, rowsLoop, ih]
    rw [rowPoint_congr W _ _ _ _ _ _ _ _ _ _
      (entryUnder_perm _ cols cols' _ _ hlen hlen' hp htime)
      (entryUnder_perm _ cols cols' _ _ hlen hlen' hp hvalue)
      (entryUnder_perm _ cols cols' _ _ hlen hlen' hp hquality)
      (entryUnder_perm _ cols cols' _ _ hlen hlen' hp hconfidence)]

/-- C13: take a response whose `results[0].series[0]` has string columns naming `time`,
`value`, `quality` and `confidence` once each, and rows as long as the column list.
Reordering the column list and the entries of every row in the same way (so that the
(column, entry) pairs of each row are the same up to order) leaves the result of
`pointsFromJson` unchanged. -/
theorem C13_column_order_is_irrelevant {V U : Type} (W : WireEnv V U)
    (doc doc' tsData tsData' : Json V) (cols cols' : List Str)
    (rows rows' : List (List (Json V)))
    (hfirst : firstSeries doc = some tsData) (hfirst' : firstSeries doc' = some tsData')
    (hshape : SeriesShape tsData cols rows)
    (hname' : ∃ nm : Str, tsData'.member "name".toList = some (.str nm))
    (hcols' : tsData'.member "columns".toList = some (.arr (cols'.map Json.str)))
    (hvalues' : tsData'.member "values".toList = some (.arr (rows'.map Json.arr)))
    (hperm : cols'.Perm cols)
    (hrows : List.Forall₂ (fun row row' => row.length = cols.length ∧
      row'.length = cols'.length ∧ (cols'.zip row').Perm (cols.zip row)) rows rows') :
    pointsFromJson W (some doc') = pointsFromJson W (some doc) := by
  have hshape' : SeriesShape tsData' cols' rows' :=
    { name := hname'
      columns := hcols'
      values := hvalues'
      time_once := by rw [occurrences_perm _ _ _ hperm]; exact hshape.time_once
      value_once := by rw [occurrences_perm _ _ _ hperm]; exact hshape.value_once
      quality_once := by rw [occurrences_perm _ _ _ hperm]; exact hshape.quality_once
      confidence_once := by rw [occurrences_perm _ _ _ hperm]; exact hshape.confidence_once }
  rw [pointsFromJson_of_firstSeries W doc tsData hfirst,
    pointsFromJson_of_firstSeries W doc' tsData' hfirst',
    pointsFromSeries_of_shape W tsData cols rows hshape,
    pointsFromSeries_of_shape W tsData' cols' rows' hshape']
  exact rowsLoop_perm W cols cols' rows rows' hshape.time_once hshape.value_once
    hshape.quality_once hshape.confidence_once hrows

theorem sampleSeries_shape : SeriesShape (seriesObject sampleCols sampleRows) sampleCols
    sampleRows :=
  { name := ⟨"flow".toList, rfl⟩
    columns := rfl
    values := rfl
    time_once := by decide
    value_once := by decide
    quality_once := by decide
    confidence_once := by decide }

/-- C13 (witness): columns `time, value, quality, confidence` reordered to
`value, time, confidence, quality`, the two rows reordered alike. -/
theorem C13_column_order_is_irrelevant_witness :
    pointsFromJson ratWire (some (responseWith (seriesObject permutedCols permutedRows))) =
      pointsFromJson ratWire (some (responseWith (seriesObject sampleCols sampleRows))) :=
  C13_column_order_is_irrelevant ratWire
    (responseWith (seriesObject sampleCols sampleRows))
    (responseWith (seriesObject permutedCols permutedRows))
    (seriesObject sampleCols sampleRows) (seriesObject permutedCols permutedRows)
    sampleCols permutedCols sampleRows permutedRows rfl rfl sampleSeries_shape
    ⟨"flow".toList, rfl⟩ rfl rfl
    ((List.Perm.swap _ _ _).trans (List.Perm.cons _ (List.Perm.cons _ (List.Perm.swap _ _ _))))
    (List.Forall₂.cons
      ⟨rfl, rfl,
        (List.Perm.swap _ _ _).trans (List.Perm.cons _ (List.Perm.cons _ (List.Perm.swap _ _ _)))⟩
      (List.Forall₂.cons
        ⟨rfl, rfl,
          (List.Perm.swap _ _ _).trans
            (List.Perm.cons _ (List.Perm.cons _ (List.Perm.swap _ _ _)))⟩
        List.Forall₂.nil))

/-- The mapping returned by `identifiersAndUnits` is the catalog the record holds after
the call. -/
theorem identifiersAndUnits_returns_catalog {V U : Type} (W : WireEnv V U) (now : Int)
    (self r : InfluxDbPointRecord U) (net net' : Transport V) (m : SMap Str U)
    (h : self.identifiersAndUnits W now net = some (m, r, net')) :
    m = r._identifiersAndUnitsCache := by
  unfold InfluxDbPointRecord.identifiersAndUnits at h
  split_ifs at h with hhit
  · simp only [Option.some.injEq, Prod.mk.injEq] at h
    obtain ⟨h1, h2, _⟩ := h
    rw [← h1, ← h2]
  · simp only at h
    split at h
    · exact absurd h (by simp)
    · rename_i r1 net1 _
      split_ifs at h with hconn
      · simp only [Option.some.injEq, Prod.mk.injEq] at h
        obtain ⟨h1, h2, _⟩ := h
        rw [← h1, ← h2]
      · split at h
        · simp only [Option.some.injEq, Prod.mk.injEq] at h
          obtain ⟨h1, h2, _⟩ := h
          rw [← h1, ← h2]
        · split at h
          · exact absurd h (by simp)
          · simp only [Option.some.injEq, Prod.mk.injEq] at h
            obtain ⟨h1, h2, _⟩ := h
            rw [← h1, ← h2]

/-- A call made less than 5 seconds after `_lastIdRequest` on a non-empty catalog is
served from the catalog: nothing is requested and nothing changes. -/
theorem identifiersAndUnits_hit {V U : Type} (W : WireEnv V U) (now : Int)
    (self : InfluxDbPointRecord U) (net : Transport V)
    (hfresh : now - self._lastIdRequest < 5) (hne : self._identifiersAndUnitsCache ≠ []) :
    self.identifiersAndUnits W now net = some (self._identifiersAndUnitsCache, self, net) := by
  unfold InfluxDbPointRecord.identifiersAndUnits
  have hempty : self._identifiersAndUnitsCache.isEmpty = false := by
    cases hc : self._identifiersAndUnitsCache with
    | nil => exact absurd hc hne
    | cons a l => rfl
  rw [if_pos ⟨hfresh, hempty⟩]

/-- C15 (counterexample): (1) a connected record whose catalog, last refreshed at time
0, is not empty is asked at time 4 and again at time 8: the calls are 4 seconds apart,
the first is served from the catalog (no request), the second issues the `show series`
query.  (2) a connected record whose catalog is empty is asked at time 1 and again at
time 2 of a server without series: each of the two calls issues the `show series`
query. -/
theorem C15_second_call_may_query_again :
    (connectedRecord.identifiersAndUnits ratWire 4 catalogNet).map (fun r => r.2.2.requests) =
      some [] ∧
    ((connectedRecord.identifiersAndUnits ratWire 4 catalogNet).bind
        (fun r => r.2.1.identifiersAndUnits ratWire 8 r.2.2)).map (fun r => r.2.2.requests) =
      some [connectedRecord.urlForQuery ratWire "show series".toList false] ∧
    (connectedEmptyRecord.identifiersAndUnits ratWire 1 emptyCatalogNet).map
        (fun r => r.2.2.requests) =
      some [connectedRecord.urlForQuery ratWire "show series".toList false] ∧
    ((connectedEmptyRecord.identifiersAndUnits ratWire 1 emptyCatalogNet).bind
        (fun r => r.2.1.identifiersAndUnits ratWire 2 r.2.2)).map (fun r => r.2.2.requests) =
      some [connectedRecord.urlForQuery ratWire "show series".toList false,
        connectedRecord.urlForQuery ratWire "show series".toList false] := by
  refine ⟨by decide, by decide, by decide, by decide⟩

/-- C15 (amended): when a call to `identifiersAndUnits` has returned a non-empty mapping
and the next call is made less than 5 seconds after the time the first left in
`_lastIdRequest` (the time of the last call that was not served from the catalog), the
second call issues no request at all, returns the same mapping, and leaves the record
unchanged. -/
theorem C15_fresh_nonempty_catalog_is_reused {V U : Type} (W : WireEnv V U)
    (now₁ now₂ : Int) (self r₁ : InfluxDbPointRecord U) (net net₁ : Transport V)
    (m₁ : SMap Str U)
    (hfirst : self.identifiersAndUnits W now₁ net = some (m₁, r₁, net₁))
    (hne : m₁ ≠ [])
    (hfresh : now₂ - r₁._lastIdRequest < 5) :
    r₁.identifiersAndUnits W now₂ net₁ = some (m₁, r₁, net₁) := by
  have hm := identifiersAndUnits_returns_catalog W now₁ self r₁ net net₁ m₁ hfirst
  rw [hm] at hne ⊢
  exact identifiersAndUnits_hit W now₂ r₁ net₁ hfresh hne

/-- C15 (witness): the catalog is rebuilt at time 8 and asked again at time 10. -/
theorem C15_fresh_nonempty_catalog_is_reused_witness :
    ∃ (m₁ : SMap Str DimUnits) (r₁ : InfluxDbPointRecord DimUnits) (net₁ : Transport ℚ),
      connectedRecord.identifiersAndUnits ratWire 8 catalogNet = some (m₁, r₁, net₁) ∧
      m₁.map (fun kv => kv.1) = ["flow,site=a".toList] ∧
      r₁.identifiersAndUnits ratWire 10 net₁ = some (m₁, r₁, net₁) := by
  cases h : connectedRecord.identifiersAndUnits ratWire 8 catalogNet with
  | none =>
    have hd : (connectedRecord.identifiersAndUnits ratWire 8 catalogNet).isSome = true := by
      decide
    rw [h] at hd
    exact absurd hd (by simp)
  | some res =>
    obtain ⟨m₁, r₁, net₁⟩ := res
    have hkeys : (connectedRecord.identifiersAndUnits ratWire 8 catalogNet).map
        (fun r => r.1.map (fun kv => kv.1)) = some ["flow,site=a".toList] := by decide
    have htime : (connectedRecord.identifiersAndUnits ratWire 8 catalogNet).map
        (fun r => r.2.1._lastIdRequest) = some 8 := by decide
    rw [h] at hkeys htime
    simp only [Option.map_some', Option.some.injEq] at hkeys htime
    refine ⟨m₁, r₁, net₁, rfl, hkeys, ?_⟩
    exact C15_fresh_nonempty_catalog_is_reused ratWire 8 10 connectedRecord r₁ catalogNet net₁
      m₁ h (by intro e; rw [e] at hkeys; simp at hkeys) (by rw [htime]; decide)

/-- When the liveness probe gets no answer, or an answer that is not a document,
`dbConnect` returns with the record not connected. -/
theorem dbConnect_unreachable {V U : Type} (W : WireEnv V U) (self : InfluxDbPointRecord U)
    (net : Transport V)
    (hping : ∀ d, net.respond net.requests self.pingPath = some d → d.IsNull = true) :
    self.dbConnect W net =
      some ({ self with _connected := false, errorMessage := "Could Not Connect".toList },
        { net with requests := net.requests ++ [self.pingPath] }) := by
  unfold InfluxDbPointRecord.dbConnect jsonFromPath
  simp only [InfluxDbPointRecord.pingPath] at hping ⊢
  cases hr : net.respond net.requests
      ("/ping?u=".toList ++ self.user ++ "&p=".toList ++ self.pass) with
  | none => rfl
  | some d =>
    have hnull := hping d hr
    simp only [hnull, if_true]

/-- C16 (counterexample): the record holds the series `flow,site=a`, is not connected,
and its catalog was last refreshed at time 0; the server cannot be reached.  Asked at
time 100, `identifiersAndUnits` returns the empty mapping, not the catalog as it
stood. -/
theorem C16_stale_catalog_is_lost :
    sampleRecord._connected = false ∧
    sampleRecord._identifiersAndUnitsCache.map (fun kv => kv.1) = ["flow,site=a".toList] ∧
    (sampleRecord.dbConnect ratWire deadNet).map (fun r => r.1._connected) = some false ∧
    (sampleRecord.identifiersAndUnits ratWire 100 deadNet).map
        (fun r => r.1.map (fun kv => kv.1)) = some [] := by
  refine ⟨rfl, rfl, by decide, by decide⟩

/-- The create-database step does not touch the catalog. -/
theorem createIfMissing_catalog {V U : Type} (W : WireEnv V U)
    (self r' : InfluxDbPointRecord U) (net net' : Transport V) (dbExists : Bool)
    (h : self.createIfMissing W net dbExists = some (r', net')) :
    r'._identifiersAndUnitsCache = self._identifiersAndUnitsCache := by
  unfold InfluxDbPointRecord.createIfMissing at h
  split_ifs at h
  · split at h
    · simp at h
    · split at h
      · simp at h
      · simp only [Option.some.injEq, Prod.mk.injEq] at h
        rw [← h.1]
      · simp only [Option.some.injEq, Prod.mk.injEq] at h
        rw [← h.1]
  · simp only [Option.some.injEq, Prod.mk.injEq] at h
    rw [← h.1]

/-- Connecting does not touch the catalog. -/
theorem dbConnect_catalog {V U : Type} (W : WireEnv V U)
    (self r' : InfluxDbPointRecord U) (net net' : Transport V)
    (h : self.dbConnect W net = some (r', net')) :
    r'._identifiersAndUnitsCache = self._identifiersAndUnitsCache := by
  unfold InfluxDbPointRecord.dbConnect at h
  simp only at h
  split at h
  · simp only [Option.some.injEq, Prod.mk.injEq] at h
    rw [← h.1]
  · split_ifs at h
    · simp only [Option.some.injEq, Prod.mk.injEq] at h
      rw [← h.1]
    · split at h
      · simp at h
      · split at h
        · simp at h
        · split at h
          · simp at h
          · split at h
            · simp at h
            · simp only [Option.some.injEq, Prod.mk.injEq] at h
              rw [← h.1]
          · simp only [Option.some.injEq, Prod.mk.injEq] at h
            rw [← h.1]
        · split at h
          · simp at h
          · split_ifs at h
            · simp only [Option.some.injEq, Prod.mk.injEq] at h
              rw [← h.1]
            · split at h
              · simp at h
              · split at h
                · simp at h
                · split at h
                  · simp at h
                  · rw [createIfMissing_catalog W _ r' _ net' false h]
                · rw [createIfMissing_catalog W _ r' _ net' true h]

/-- C16 (amended): for a record that is not connected and whose attempt to connect
returns with the record still not connected, `identifiersAndUnits` does not fail and
leaves the record not connected; it returns the catalog as it stood before the call
when the call is made less than 5 seconds after `_lastIdRequest` and the catalog is not
empty, and the empty mapping otherwise (the catalog is cleared before the connection is
tried). -/
theorem C16_unreachable_store_catalog {V U : Type} (W : WireEnv V U) (now : Int)
    (self r₁ : InfluxDbPointRecord U) (net net₁ : Transport V)
    (hdis : self._connected = false)
    (hcannot : ({ self with _lastIdRequest := now, _identifiersAndUnitsCache := [] } :
      InfluxDbPointRecord U).dbConnect W net = some (r₁, net₁))
    (hstill : r₁._connected = false) :
    ∃ (r' : InfluxDbPointRecord U) (net' : Transport V),
      self.identifiersAndUnits W now net =
        some ((if now - self._lastIdRequest < 5 ∧ self._identifiersAndUnitsCache.isEmpty = false
          then self._identifiersAndUnitsCache else []), r', net') ∧
      r'._connected = false := by
  unfold InfluxDbPointRecord.identifiersAndUnits
  by_cases hhit : now - self._lastIdRequest < 5 ∧ self._identifiersAndUnitsCache.isEmpty = false
  · rw [if_pos hhit, if_pos hhit]
    exact ⟨self, net, rfl, hdis⟩
  · rw [if_neg hhit, if_neg hhit]
    have hcat := dbConnect_catalog W _ r₁ net net₁ hcannot
    simp only at hcat
    simp only
    rw [if_pos hdis, hcannot]
    simp only
    rw [if_pos hstill, hcat]
    exact ⟨r₁, net₁, rfl, hstill⟩

/-- C16 (witness): the unreachable server, asked at time 100. -/
theorem C16_unreachable_store_catalog_witness :
    ∃ (r' : InfluxDbPointRecord DimUnits) (net' : Transport ℚ),
      sampleRecord.identifiersAndUnits ratWire 100 deadNet =
        some ((if (100 : Int) - sampleRecord._lastIdRequest < 5 ∧
            sampleRecord._identifiersAndUnitsCache.isEmpty = false
          then sampleRecord._identifiersAndUnitsCache else []), r', net') ∧
      r'._connected = false :=
  C16_unreachable_store_catalog ratWire 100 sampleRecord _ deadNet _ rfl
    (dbConnect_unreachable ratWire _ deadNet (by intro d h; simp [deadNet] at h)) rfl

theorem member_none_of_hasMember_false {V : Type} {name : Str} {j : Json V}
    (h : j.HasMember name = some false) : j.member name = none := by
  cases j with
  | obj members =>
    simp only [Json.HasMember, Option.some.injEq] at h
    simp only [Json.member]
    cases hf : findMember name members with
    | none => rfl
    | some v => rw [hf] at h; simp at h
  | _ => simp [Json.HasMember] at h

theorem member_of_nullOrLacksResults_false {V : Type} {doc : Json V}
    (h : nullOrLacksResults doc = some false) :
    ∃ results, doc.member "results".toList = some results := by
  cases doc with
  | obj members =>
    simp only [nullOrLacksResults, Json.IsNull, Json.HasMember] at h
    simp only [Json.member]
    cases hf : findMember "results".toList members with
    | none => rw [hf] at h; simp at h
    | some v => exact ⟨v, rfl⟩
  | _ => simp [nullOrLacksResults, Json.IsNull, Json.HasMember] at h

theorem createIfMissing_connected {V U : Type} (W : WireEnv V U)
    (self r' : InfluxDbPointRecord U) (net net' : Transport V) (dbExists : Bool)
    (hself : self._connected = false)
    (h : self.createIfMissing W net dbExists = some (r', net'))
    (hc : r'._connected = true) :
    dbExists = true ∨
      ∃ createDoc results, net.respond net.requests (self.createPath W) = some createDoc ∧
        createDoc.member "results".toList = some results := by
  cases dbExists with
  | true => exact Or.inl rfl
  | false =>
    right
    unfold InfluxDbPointRecord.createIfMissing jsonFromPath at h
    simp only [if_true] at h
    cases hr : net.respond net.requests (self.createPath W) with
    | none => rw [hr] at h; simp at h
    | some createDoc =>
      rw [hr] at h
      simp only at h
      cases hn : nullOrLacksResults createDoc with
      | none => rw [hn] at h; simp at h
      | some b =>
        rw [hn] at h
        cases b with
        | true =>
          simp only [Option.some.injEq, Prod.mk.injEq] at h
          rw [← h.1] at hc
          simp only [hself] at hc
          exact absurd hc (by simp)
        | false =>
          obtain ⟨results, hres⟩ := member_of_nullOrLacksResults_false hn
          exact ⟨_, results, rfl, hres⟩

/-- What connecting requires: `dbConnect` leaves the record marked connected only if the
liveness probe was answered with a non-null document, the catalog probe was answered with a
document whose `results` member is a non-empty array, and either the first result has
no `error` member or (it has one, so that the create-database statement is issued)
the create-database statement was answered with a document that has a `results`
member; in every other case in which `dbConnect` returns, the record is left not
connected. -/
theorem dbConnect_connected_only_if {V U : Type} (W : WireEnv V U)
    (self r' : InfluxDbPointRecord U) (net net' : Transport V)
    (h : self.dbConnect W net = some (r', net'))
    (hc : r'._connected = true) :
    ∃ (pingDoc probeDoc firstResult : Json V) (rest : List (Json V)),
      net.respond net.requests self.pingPath = some pingDoc ∧
      pingDoc.IsNull = false ∧
      net.respond (net.requests ++ [self.pingPath]) (self.probePath W) = some probeDoc ∧
      probeDoc.member "results".toList = some (.arr (firstResult :: rest)) ∧
      (firstResult.member "error".toList = none ∨
        ∃ createDoc results,
          net.respond (net.requests ++ [self.pingPath, self.probePath W]) (self.createPath W) =
            some createDoc ∧
          createDoc.member "results".toList = some results) := by
  unfold InfluxDbPointRecord.dbConnect jsonFromPath at h
  simp only [InfluxDbPointRecord.pingPath, InfluxDbPointRecord.probePath] at h ⊢
  cases hping : net.respond net.requests
      ("/ping?u=".toList ++ self.user ++ "&p=".toList ++ self.pass) with
  | none =>
    rw [hping] at h
    simp only [Option.some.injEq, Prod.mk.injEq] at h
    rw [← h.1] at hc
    exact absurd hc (by simp)
  | some pingDoc =>
    rw [hping] at h
    simp only at h
    by_cases hnull : pingDoc.IsNull = true
    · rw [if_pos hnull] at h
      simp only [Option.some.injEq, Prod.mk.injEq] at h
      rw [← h.1] at hc
      exact absurd hc (by simp)
    · rw [if_neg hnull] at h
      cases hprobe : net.respond
          (net.requests ++ ["/ping?u=".toList ++ self.user ++ "&p=".toList ++ self.pass])
          ("/query?db=".toList ++ self.db ++ "&u=".toList ++ self.user ++ "&p=".toList
            ++ self.pass ++ "&q=".toList ++ W.urlEncode "SHOW MEASUREMENTS LIMIT 1".toList) with
      | none => rw [hprobe] at h; simp at h
      | some probeDoc =>
        rw [hprobe] at h
        simp only at h
        cases hn : nullOrLacksResults probeDoc with
        | none => rw [hn] at h; simp at h
        | some b =>
          rw [hn] at h
          cases b with
          | true =>
            simp only at h
            split at h
            · simp at h
            · split at h
              · simp at h
              · simp only [Option.some.injEq, Prod.mk.injEq] at h
                rw [← h.1] at hc
                exact absurd hc (by simp)
            · simp only [Option.some.injEq, Prod.mk.injEq] at h
              rw [← h.1] at hc
              exact absurd hc (by simp)
          | false =>
            simp only at h
            cases hres : probeDoc.member "results".toList with
            | none => rw [hres] at h; simp at h
            | some results =>
              rw [hres] at h
              simp only at h
              by_cases hempty : results.IsArray = false ∨ results.Size = some 0
              · rw [if_pos hempty] at h
                simp only [Option.some.injEq, Prod.mk.injEq] at h
                rw [← h.1] at hc
                exact absurd hc (by simp)
              · rw [if_neg hempty] at h
                cases results with
                | arr items =>
                  cases items with
                  | nil => exact absurd (Or.inr rfl) hempty
                  | cons firstResult rest =>
                    simp only [Json.index, List.getElem?_cons_zero] at h
                    refine ⟨pingDoc, probeDoc, firstResult, rest, rfl, by simpa using hnull,
                      rfl, hres, ?_⟩
                    cases hhas : firstResult.HasMember "error".toList with
                    | none => rw [hhas] at h; simp at h
                    | some b =>
                      rw [hhas] at h
                      cases b with
                      | false =>
                        left
                        exact member_none_of_hasMember_false hhas
                      | true =>
                        right
                        simp only at h
                        split at h
                        · simp at h
                        · rename_i msg _
                          rcases createIfMissing_connected W _ r' _ net' false rfl h hc with
                            hx | hx
                          · exact absurd hx (by simp)
                          · simpa [InfluxDbPointRecord.createPath] using hx
                | _ => exact absurd (Or.inl rfl) hempty

/-- An example where the database does not exist yet.  The catalog probe is
answered with a document whose first result carries an `error` member; `dbConnect`
issues the create-database statement and leaves the record marked connected. -/
theorem dbConnect_creates_after_probe_error :
    freshServerNet.respond [sampleRecord.pingPath] (sampleRecord.probePath ratWire) =
      some noDatabaseResponse ∧
    (((noDatabaseResponse.member "results".toList).bind (Json.index 0)).bind
        (Json.member "error".toList)).bind Json.GetString = some "database not found".toList ∧
    (sampleRecord.dbConnect ratWire freshServerNet).map
        (fun r => (r.1._connected, r.2.requests)) =
      some (true, [sampleRecord.pingPath, sampleRecord.probePath ratWire,
        sampleRecord.createPath ratWire]) := by
  refine ⟨rfl, rfl, by decide⟩

/-- An example: the server on which the database does not exist yet. -/
theorem dbConnect_connected_only_if_example :
    ∃ (r' : InfluxDbPointRecord DimUnits) (net' : Transport ℚ),
      sampleRecord.dbConnect ratWire freshServerNet = some (r', net') ∧
      r'._connected = true ∧
      ∃ (pingDoc probeDoc firstResult : Json ℚ) (rest : List (Json ℚ)),
        freshServerNet.respond freshServerNet.requests sampleRecord.pingPath = some pingDoc ∧
        pingDoc.IsNull = false ∧
        freshServerNet.respond (freshServerNet.requests ++ [sampleRecord.pingPath])
          (sampleRecord.probePath ratWire) = some probeDoc ∧
        probeDoc.member "results".toList = some (.arr (firstResult :: rest)) ∧
        (firstResult.member "error".toList = none ∨
          ∃ createDoc results,
            freshServerNet.respond
                (freshServerNet.requests ++ [sampleRecord.pingPath, sampleRecord.probePath ratWire])
                (sampleRecord.createPath ratWire) = some createDoc ∧
            createDoc.member "results".toList = some results) := by
  cases h : sampleRecord.dbConnect ratWire freshServerNet with
  | none =>
    have hd : (sampleRecord.dbConnect ratWire freshServerNet).isSome = true := by decide
    rw [h] at hd
    exact absurd hd (by simp)
  | some res =>
    obtain ⟨r', net'⟩ := res
    have hconn : (sampleRecord.dbConnect ratWire freshServerNet).map
        (fun r => r.1._connected) = some true := by decide
    rw [h] at hconn
    simp only [Option.map_some', Option.some.injEq] at hconn
    exact ⟨r', net', rfl, hconn,
      dbConnect_connected_only_if ratWire sampleRecord r' freshServerNet net' h hconn⟩

/-! ## Theorems: resampling grid, deletion, storage identifiers -/

/-- With resampling on and at least two points in the fetched window, the raw
left differences are resampled onto the clock times of the range that `fetchWindow`
returns, which is the range widened to the right. -/
theorem filterPointsInRange_resampled {V U : Type} (E : Env V U)
    (self : FirstDerivative V U) (src : TimeSeries V U) (range range' : Int × Int)
    (fuel : Nat) (prev : Point V) (rest : List (Point V)) (u : U)
    (hsrc : self.source = some src)
    (hwin : fetchWindow E src range fuel = some (range', { points := prev :: rest, units := u }))
    (hn : 1 ≤ rest.length)
    (hres : self.willResample = true) :
    self.filterPointsInRange E range fuel =
      some (E.resample
        { points := leftDifferences E src.units self.units prev rest, units := self.units }
        (self.timeValuesInRange range')) := by
  have hcount : ¬ (PointCollection.count { points := prev :: rest, units := u } < 2) := by
    simp only [PointCollection.count, List.length_cons]; omega
  simp only [FirstDerivative.filterPointsInRange, hsrc, hwin, hres, hcount]
  simp

theorem boundary_window (fuel : Nat) :
    fetchWindow ratEnv boundarySource (5, 15) (fuel + 1) =
      some ((5, 20),
        { points := [Point.ofTimeValue ratEnv 10 5, Point.ofTimeValue ratEnv 20 5],
          units := metre }) := by
  have hseek : seekRightLoop boundarySource (fuel + 1)
      { Point.invalid ratEnv with time := (5, 15).2 - 1 } =
        some (Point.ofTimeValue ratEnv 20 5) := by
    rw [seekRightLoop]
    simp only [Point.invalid]
    rw [if_pos (by decide)]
    have hafter : boundarySource.pointAfter (15 - 1) = Point.ofTimeValue ratEnv 20 5 := by
      simp [boundarySource, TimeSeries.ofPoints, Point.ofTimeValue]
    simp only [hafter]
    exact seekRightLoop_done _ _ _ (by simp [Point.ofTimeValue])
  simp only [fetchWindow, hseek]
  simp [boundarySource, TimeSeries.ofPoints, Point.invalid, Point.ofTimeValue, ratEnv, metre]

/-- C18 (evaluation of the code): the boundary source (0,0), (10,5), (20,5), a clock of
period 5, requested range [5,15].  The clock times inside the requested range are 5, 10
and 15, but the times handed to `resample` are 5, 10, 15 and 20: `range.second` was
overwritten with the time of the point found by the seek to the right (line 45) before
`timeValuesInRange(range)` is called (line 73).  The result has a point at time 20,
after the requested end. -/
theorem C18_grid_reaches_past_requested_end (fuel : Nat) :
    gridDerivative.timeValuesInRange (5, 15) = [5, 10, 15] ∧
    gridDerivative.filterPointsInRange ratEnv (5, 15) (fuel + 1) =
      some (ratEnv.resample
        { points := [Point.ofTimeValue ratEnv 20 0], units := metrePerSecond }
        [5, 10, 15, 20]) ∧
    (gridDerivative.filterPointsInRange ratEnv (5, 15) (fuel + 1)).map
        (fun c => c.points.map (fun p => p.time)) = some [20] := by
  have hgrid : gridDerivative.timeValuesInRange (5, 20) = [5, 10, 15, 20] := by decide
  have hraw : leftDifferences ratEnv boundarySource.units gridDerivative.units
      (Point.ofTimeValue ratEnv 10 5) [Point.ofTimeValue ratEnv 20 5] =
      [Point.ofTimeValue ratEnv 20 0] := by
    simp [leftDifferences, Point.ofTimeValue, ratEnv, boundarySource, TimeSeries.ofPoints,
      gridDerivative, metre, metrePerSecond]
  have h := filterPointsInRange_resampled ratEnv gridDerivative boundarySource (5, 15) (5, 20)
    (fuel + 1) (Point.ofTimeValue ratEnv 10 5) [Point.ofTimeValue ratEnv 20 5] metre rfl
    (boundary_window fuel) (by simp) rfl
  rw [hgrid, hraw] at h
  refine ⟨by decide, h, ?_⟩
  rw [h]
  simp [ratEnv, Point.ofTimeValue]

/-- C19 (evaluation of the code): for the registered series `flow,site=a`, stored in
metres, the statement `removeRecord` sends is filtered by `site='a'` alone; the tag
filter of the stored series, which `selectRange` builds from the storage identifier, is
`site='a'`, `units='L1T0'`.  The storage identifier is computed at line 523 and not
used: line 524 builds the query from `id`. -/
theorem C19_drop_statement_lacks_units_tag :
    sampleRecord._influxIdForTsId ratFmt "flow,site=a".toList =
      "flow,site=a,units=L1T0".toList ∧
    (sampleRecord.removeRecordQuery ratFmt "flow,site=a".toList).«where» =
      ["site='a'".toList] ∧
    (queryPartsFromMetricId
        (sampleRecord._influxIdForTsId ratFmt "flow,site=a".toList)).«where» =
      ["site='a'".toList, "units='L1T0'".toList] ∧
    (sampleRecord.selectRangeQuery ratFmt "flow,site=a".toList 1 2).«where» =
      ["site='a'".toList, "units='L1T0'".toList, "time >= 1s".toList, "time <= 2s".toList] ∧
    (sampleRecord.removeRecord ratFmt ratWire deadNet "flow,site=a".toList).requests =
      ["/query?db=*DB*&u=*USER*&p=*PASS*&q=DROP SERIES FROM \"flow\" WHERE site='a'".toList] := by
  refine ⟨by decide, by decide, by decide, by decide, by decide⟩

/-- Parsing the caller-facing identifier gives the measurement and the tags of `id`
without the `units` tag. -/
theorem metricInfoFromName_tsIdOf (id : Str) :
    metricInfoFromName (tsIdOf id) =
      { measurement := (metricInfoFromName id).measurement
        tags := smErase unitsKey (metricInfoFromName id).tags } := by
  unfold tsIdOf
  apply metricInfoFromName_nameFromMetricInfo
  · exact smErase_wf _ _ (metricInfoFromName_tags_wf id)
  · exact measurement_no_comma id
  · intro kv hkv
    exact metricInfoFromName_tags_readable id kv (smErase_subset _ _ kv hkv)

theorem erased_units_eq (id : Str) :
    (if smCount unitsKey (metricInfoFromName id).tags ≠ 0 then
      { metricInfoFromName id with tags := smErase unitsKey (metricInfoFromName id).tags }
      else metricInfoFromName id) =
      { measurement := (metricInfoFromName id).measurement
        tags := smErase unitsKey (metricInfoFromName id).tags } := by
  by_cases hc : smCount unitsKey (metricInfoFromName id).tags ≠ 0
  · rw [if_pos hc]
  · rw [if_neg hc]
    have hnone : smFind unitsKey (metricInfoFromName id).tags = none := by
      simp only [smCount, ne_eq, ite_eq_right_iff, one_ne_zero, imp_false, not_not,
        Bool.not_eq_true, Option.not_isSome, Option.isNone_iff_eq_none] at hc
      simpa using hc
    rw [smErase_of_find_none _ _ hnone]

/-- C20: let s be the normalised `id` with any `units` tag removed (`tsIdOf id`).  When
the catalog maps s to a unit u, `_influxIdForTsId` returns the serialisation of the
measurement and tags of s with the tag `units=<unitString u>` added (whatever `units`
tag `id` carried); when s is not a key of the catalog it returns the empty string; in
both cases the record, and so the catalog, is unchanged. -/
theorem C20_storage_identifier_from_catalog {V U : Type} (F : InfluxEnv V U)
    (defaultUnits : U) (self : InfluxDbPointRecord U) (id : Str) :
    self._influxIdForTsId_state F defaultUnits id =
      ((match smFind (tsIdOf id) self._identifiersAndUnitsCache with
        | some u =>
          nameFromMetricInfo
            { measurement := (metricInfoFromName (tsIdOf id)).measurement
              tags := smInsert unitsKey (F.unitString u) (metricInfoFromName (tsIdOf id)).tags }
        | none => []), self) ∧
    (self._influxIdForTsId_state F defaultUnits id).1 = self._influxIdForTsId F id := by
  have hstate : self._influxIdForTsId_state F defaultUnits id =
      (self._influxIdForTsId F id, self) := by
    unfold InfluxDbPointRecord._influxIdForTsId_state InfluxDbPointRecord._influxIdForTsId
    simp only [erased_units_eq]
    cases hf : smFind (nameFromMetricInfo
        { measurement := (metricInfoFromName id).measurement
          tags := smErase unitsKey (metricInfoFromName id).tags })
        self._identifiersAndUnitsCache with
    | none => simp [smCount, hf]
    | some u => simp [smCount, smIndex, hf]
  have hpure : self._influxIdForTsId F id =
      (match smFind (tsIdOf id) self._identifiersAndUnitsCache with
        | some u =>
          nameFromMetricInfo
            { measurement := (metricInfoFromName (tsIdOf id)).measurement
              tags := smInsert unitsKey (F.unitString u) (metricInfoFromName (tsIdOf id)).tags }
        | none => []) := by
    cases hf : smFind (tsIdOf id) self._identifiersAndUnitsCache with
    | some u =>
      rw [influxId_of_registered F self id u hf, metricInfoFromName_tsIdOf]
    | none =>
      unfold InfluxDbPointRecord._influxIdForTsId
      simp only [erased_units_eq]
      unfold tsIdOf at hf
      rw [hf]
  rw [hstate]
  exact ⟨by rw [hpure], rfl⟩

/-! ## Theorems: query parts, idempotence, the seek to the right, divisors -/

theorem queryParts_foldl (tags : List (Str × Str)) : ∀ q : Query,
    tags.foldl
      (fun (q : Query) p =>
        { q with «where» := q.«where» ++ [p.1 ++ "='".toList ++ p.2 ++ "'".toList] }) q =
      { q with «where» := q.«where» ++
          tags.map (fun p => p.1 ++ "='".toList ++ p.2 ++ "'".toList) } := by
  induction tags with
  | nil => intro q; simp
  | cons t ts ih =>
    intro q
    rw [List.foldl_cons, ih]
    simp

/-- C22: for every identifier `name`, the query built by `queryPartsFromMetricId` has
as source the parsed measurement between double quotes, as predicate list exactly the
clauses `key='value'` of the parsed tags, in the order of the tag map (strictly
ascending keys), and an empty order/limit clause. -/
theorem C22_query_parts_of_identifier (name : Str) :
    (queryPartsFromMetricId name).«from» =
        "\"".toList ++ (metricInfoFromName name).measurement ++ "\"".toList ∧
      (queryPartsFromMetricId name).«where» =
        (metricInfoFromName name).tags.map
          (fun p => p.1 ++ "='".toList ++ p.2 ++ "'".toList) ∧
      (metricInfoFromName name).tags.Pairwise (fun a b => a.1 < b.1) ∧
      (queryPartsFromMetricId name).order = [] := by
  have hwf : SMap.WF (metricInfoFromName name).tags := metricInfoFromName_tags_wf name
  unfold queryPartsFromMetricId
  simp only [queryParts_foldl, Query.empty]
  by_cases h : (metricInfoFromName name).tags.length > 0
  · rw [if_pos h]
    exact ⟨rfl, by simp, hwf, rfl⟩
  · rw [if_neg h]
    have hnil : (metricInfoFromName name).tags = [] := by
      cases hl : (metricInfoFromName name).tags with
      | nil => rfl
      | cons a l => rw [hl] at h; simp at h
    refine ⟨rfl, ?_, hwf, rfl⟩
    rw [hnil]
    rfl

/-- C25: for every string `s`, well-formed or not, `properId (properId s) = properId s`. -/
theorem C25_properId_idempotent (s : Str) : properId (properId s) = properId s := by
  unfold properId
  rw [metricInfoFromName_nameFromMetricInfo _ (metricInfoFromName_tags_wf s)
    (measurement_no_comma s) (metricInfoFromName_tags_readable s)]

/-- C27: when the times of the fetched window `prev :: rest` are strictly ascending,
every output point of the left-difference loop was computed by dividing by
`dt = q.time - p.time` for two neighbouring window points `p`, `q`, and that `dt` is
strictly positive: no division is by zero. -/
theorem C27_time_differences_positive {V U : Type} (E : Env V U) (fromUnits toUnits : U)
    (prev : Point V) (rest : List (Point V))
    (hasc : (prev :: rest).Pairwise (fun a b => a.time < b.time)) :
    ∀ i, i < rest.length →
      ∃ p q, (prev :: rest)[i]? = some p ∧ rest[i]? = some q ∧ 0 < q.time - p.time ∧
        (leftDifferences E fromUnits toUnits prev rest)[i]? =
          some (Point.ofTimeValue E q.time
            (E.convertValue (E.div (E.sub q.value p.value) (E.ofTime (q.time - p.time)))
              (E.unitsDiv fromUnits E.RTX_SECOND) toUnits)) := by
  intro i h
  have hi : i < (prev :: rest).length := by simp; omega
  have hp : (prev :: rest)[i]? = some ((prev :: rest)[i]) := List.getElem?_eq_getElem hi
  have hq : rest[i]? = some (rest[i]) := List.getElem?_eq_getElem h
  refine ⟨(prev :: rest)[i], rest[i], hp, hq, ?_,
    leftDifferences_getElem? E fromUnits toUnits rest prev i _ _ hp hq⟩
  have hlt := List.pairwise_iff_getElem.mp hasc i (i + 1) hi (by simp; omega) (by omega)
  simp only [List.getElem_cons_succ] at hlt
  omega

theorem C27_time_differences_positive_witness :
    ∃ p q, (Point.ofTimeValue ratEnv 0 0 ::
        [Point.ofTimeValue ratEnv 10 5, Point.ofTimeValue ratEnv 20 5])[1]? = some p ∧
      [Point.ofTimeValue ratEnv 10 5, Point.ofTimeValue ratEnv 20 5][1]? = some q ∧
      0 < q.time - p.time ∧
      (leftDifferences ratEnv metre metrePerSecond (Point.ofTimeValue ratEnv 0 0)
        [Point.ofTimeValue ratEnv 10 5, Point.ofTimeValue ratEnv 20 5])[1]? =
        some (Point.ofTimeValue ratEnv q.time
          (ratEnv.convertValue (ratEnv.div (ratEnv.sub q.value p.value)
            (ratEnv.ofTime (q.time - p.time)))
            (ratEnv.unitsDiv metre ratEnv.RTX_SECOND) metrePerSecond)) :=
  C27_time_differences_positive ratEnv metre metrePerSecond (Point.ofTimeValue ratEnv 0 0)
    [Point.ofTimeValue ratEnv 10 5, Point.ofTimeValue ratEnv 20 5]
    (by simp [Point.ofTimeValue]) 1 (by decide)

/-! ## Theorems: the connection string -/

theorem kvMatchAt_pair_end (sep : Char) {k v : Str} (hk : k ≠ []) (hke : '=' ∉ k)
    (hv : v ≠ []) (hvs : sep ∉ v) : kvMatchAt sep (k ++ '=' :: v) = some (k, v, []) := by
  unfold kvMatchAt
  simp only
  rw [span_ne_append_cons _ hke]
  simp only [hk, if_false]
  rw [span_ne_self hvs]
  simp [hv]

theorem kvMatchAt_pair_sep (sep : Char) {k v : Str} (rest : Str) (hk : k ≠ [])
    (hke : '=' ∉ k) (hv : v ≠ []) (hvs : sep ∉ v) :
    kvMatchAt sep (k ++ '=' :: (v ++ sep :: rest)) = some (k, v, rest) := by
  unfold kvMatchAt
  simp only
  rw [span_ne_append_cons _ hke]
  simp only [hk, if_false]
  rw [span_ne_append_cons _ hvs]
  simp [hv]

theorem kvMatchAt_empty_value (sep : Char) (k rest : Str) (hke : '=' ∉ k)
    (hrest : rest = [] ∨ ∃ t, rest = sep :: t) : kvMatchAt sep (k ++ '=' :: rest) = none := by
  unfold kvMatchAt
  simp only
  rw [span_ne_append_cons _ hke]
  by_cases hk : k = []
  · simp [hk]
  · simp only [hk, if_false]
    rcases hrest with rfl | ⟨t, rfl⟩
    · simp [List.span_eq_take_drop]
    · simp [List.span_eq_take_drop]

theorem kvSearch_skip (sep : Char) (k rest : Str) (hke : '=' ∉ k)
    (hrest : rest = [] ∨ ∃ t, rest = sep :: t) :
    kvSearch sep (k ++ '=' :: rest) = kvSearch sep rest := by
  induction k with
  | nil =>
    have h := kvMatchAt_empty_value sep [] rest (by simp) hrest
    simp only [List.nil_append] at h ⊢
    simp only [kvSearch, h]
  | cons c cs ih =>
    have h := kvMatchAt_empty_value sep (c :: cs) rest hke hrest
    have hcs : '=' ∉ cs := fun e => hke (by simp [e])
    simp only [List.cons_append] at h ⊢
    simp only [kvSearch, h]
    exact ih hcs

theorem kvIterate_congr_search {sep : Char} {s t : Str} (h : kvSearch sep s = kvSearch sep t)
    (fuel : Nat) : kvIterate sep fuel s = kvIterate sep fuel t := by
  cases fuel with
  | zero => rfl
  | succ f => simp only [kvIterate, h]

theorem kvIterate_single_sep (sep : Char) (hsep : sep ≠ '=') (fuel : Nat) :
    kvIterate sep fuel [sep] = [] := by
  cases fuel with
  | zero => rfl
  | succ f =>
    have h : kvMatchAt sep [sep] = none := by
      simp [kvMatchAt, List.span_eq_take_drop, hsep]
    simp [kvIterate, kvSearch, h]

theorem joinPairs_cons (sep : Char) (kv : Str × Str) (rest : List (Str × Str)) :
    joinPairs sep (kv :: rest) =
      kv.1 ++ '=' :: (kv.2 ++ (if rest = [] then [] else sep :: joinPairs sep rest)) := by
  cases rest with
  | nil => simp [joinPairs]
  | cons a l => simp [joinPairs]

/-- The matches over `joinPairs sep pairs`, possibly after a leading separator left
over from an unmatched pair, are the pairs that `readBack` lists. -/
theorem kvIterate_joinPairs (sep : Char) (hsep : sep ≠ '=') (pairs : List (Str × Str)) :
    ∀ (carry : Bool) (fuel : Nat), pairs.length ≤ fuel →
      (∀ kv ∈ pairs, kv.1 ≠ [] ∧ '=' ∉ kv.1 ∧ sep ∉ kv.2) →
      kvIterate sep fuel ((if carry then [sep] else []) ++ joinPairs sep pairs) =
        readBack sep carry pairs := by
  induction pairs with
  | nil =>
    intro carry fuel _ _
    cases carry
    · simp [joinPairs, readBack, kvIterate_nil]
    · simp [joinPairs, readBack, kvIterate_single_sep sep hsep]
  | cons kv rest ih =>
    intro carry fuel hfuel hgood
    obtain ⟨hk, hke, hvs⟩ := hgood kv (by simp)
    have hrestgood : ∀ x ∈ rest, x.1 ≠ [] ∧ '=' ∉ x.1 ∧ sep ∉ x.2 :=
      fun x hx => hgood x (by simp [hx])
    obtain ⟨f, rfl⟩ : ∃ f, fuel = f + 1 := ⟨fuel - 1, by simp at hfuel; omega⟩
    have hf : rest.length ≤ f := by simpa using hfuel
    -- the key as the iterator sees it
    have hkey : ∀ t : Str, (if carry then [sep] else []) ++ (kv.1 ++ t) =
        (if carry then sep :: kv.1 else kv.1) ++ t := by
      intro t; cases carry <;> simp
    have hk2 : (if carry then sep :: kv.1 else kv.1) ≠ [] := by
      cases carry <;> simp [hk]
    have hke2 : '=' ∉ (if carry then sep :: kv.1 else kv.1) := by
      cases carry
      · simpa using hke
      · simp only [if_true, List.mem_cons, not_or]
        exact ⟨fun e => hsep e.symm, hke⟩
    rw [joinPairs_cons, hkey]
    by_cases hv : kv.2 = []
    · rw [readBack, if_pos hv, hv, List.nil_append]
      by_cases hr : rest = []
      · subst hr
        rw [if_pos rfl]
        have hs := kvSearch_skip sep _ [] hke2 (Or.inl rfl)
        rw [kvIterate_congr_search hs, kvIterate_nil]
        rfl
      · rw [if_neg hr]
        have hs := kvSearch_skip sep (if carry then sep :: kv.1 else kv.1)
          (sep :: joinPairs sep rest) hke2 (Or.inr ⟨_, rfl⟩)
        rw [kvIterate_congr_search hs]
        have := ih true (f + 1) (by omega) hrestgood
        simpa using this
    · rw [readBack, if_neg hv]
      by_cases hr : rest = []
      · subst hr
        rw [if_pos rfl, List.append_nil]
        have hm := kvSearch_of_matchAt (kvMatchAt_pair_end sep hk2 hke2 hv hvs)
        simp only [kvIterate, hm, kvIterate_nil, readBack]
      · rw [if_neg hr]
        have hm := kvSearch_of_matchAt
          (kvMatchAt_pair_sep sep (joinPairs sep rest) hk2 hke2 hv hvs)
        simp only [kvIterate, hm]
        have := ih false f hf hrestgood
        simp only [Bool.false_eq_true, if_false, List.nil_append] at this
        rw [this]

theorem kvMatches_joinPairs (sep : Char) (hsep : sep ≠ '=') (pairs : List (Str × Str))
    (hgood : ∀ kv ∈ pairs, kv.1 ≠ [] ∧ '=' ∉ kv.1 ∧ sep ∉ kv.2) :
    kvMatches sep (joinPairs sep pairs) = readBack sep false pairs := by
  rw [← kvIterate_eq_kvMatches sep (joinPairs sep pairs) pairs.length]
  have := kvIterate_joinPairs sep hsep pairs false
    ((joinPairs sep pairs).length + pairs.length) (Nat.le_add_left _ _) hgood
  simpa using this

theorem readBack_of_values (sep : Char) (pairs : List (Str × Str))
    (h : ∀ kv ∈ pairs, kv.2 ≠ []) : readBack sep false pairs = pairs := by
  induction pairs with
  | nil => rfl
  | cons kv rest ih =>
    rw [readBack, if_neg (h kv (by simp)), ih (fun x hx => h x (by simp [hx]))]
    simp

theorem mem_readBack (sep : Char) (pairs : List (Str × Str)) : ∀ (carry : Bool) (p : Str × Str),
    p ∈ readBack sep carry pairs → p ∈ pairs ∨ ∃ q ∈ pairs, p = (sep :: q.1, q.2) := by
  induction pairs with
  | nil => intro carry p h; simp [readBack] at h
  | cons kv rest ih =>
    intro carry p h
    rw [readBack] at h
    by_cases hv : kv.2 = []
    · rw [if_pos hv] at h
      rcases ih true p h with h | ⟨q, hq, e⟩
      · exact Or.inl (by simp [h])
      · exact Or.inr ⟨q, by simp [hq], e⟩
    · rw [if_neg hv] at h
      rcases List.mem_cons.mp h with h | h
      · cases carry
        · exact Or.inl (by simp at h; simp [h])
        · exact Or.inr ⟨kv, by simp, by simpa using h⟩
      · rcases ih false p h with h | ⟨q, hq, e⟩
        · exact Or.inl (by simp [h])
        · exact Or.inr ⟨q, by simp [hq], e⟩

theorem lastValue_mem {β : Type} (key : Str) (pairs : List (Str × β)) :
    ∀ v, lastValue key pairs = some v → (key, v) ∈ pairs := by
  induction pairs with
  | nil => intro v h; simp [lastValue] at h
  | cons kv rest ih =>
    intro v h
    rw [lastValue] at h
    cases hl : lastValue key rest with
    | some w =>
      rw [hl] at h
      simp only [Option.some.injEq] at h
      subst h
      exact List.mem_cons_of_mem _ (ih _ hl)
    | none =>
      rw [hl] at h
      simp only at h
      split_ifs at h with hk
      simp only [Option.some.injEq] at h
      subst h
      subst hk
      simp

/-- A lookup in the map filled by `kvPairs[k] = v` over a list of pairs finds the value
of the last pair with that key, or what the map held before. -/
theorem smFind_foldl_smInsert {β : Type} (key : Str) (pairs : List (Str × β)) :
    ∀ acc : SMap Str β,
      smFind key (pairs.foldl (fun m kv => smInsert kv.1 kv.2 m) acc) =
        (match lastValue key pairs with
         | some v => some v
         | none => smFind key acc) := by
  induction pairs with
  | nil => intro acc; rfl
  | cons kv rest ih =>
    intro acc
    rw [List.foldl_cons, ih, lastValue]
    cases hl : lastValue key rest with
    | some w => rfl
    | none =>
      simp only
      by_cases hk : kv.1 = key
      · rw [if_pos hk, ← hk, smFind_smInsert_self]
      · rw [if_neg hk, smFind_smInsert_of_ne _ _ _ _ (fun e => hk e.symm)]

theorem smFind_kvPairs {β : Type} (key : Str) (pairs : List (Str × β)) :
    smFind key (pairs.foldl (fun m kv => smInsert kv.1 kv.2 m) []) = lastValue key pairs := by
  rw [smFind_foldl_smInsert]
  cases lastValue key pairs <;> rfl

/-! ## Theorems: decimal text of an `int` -/

theorem digitValue_digitChar (k : Nat) (hk : k < 10) : digitValue (Nat.digitChar k) = some k := by
  interval_cases k <;> rfl

theorem readDigits_toDigitsCore (fuel : Nat) : ∀ (n : Nat) (ds : Str), n < fuel →
    readDigits 0 (Nat.toDigitsCore 10 fuel n ds) = readDigits n ds := by
  induction fuel with
  | zero => intro n ds h; omega
  | succ f ih =>
    intro n ds h
    have hd := digitValue_digitChar (n % 10) (Nat.mod_lt _ (by decide))
    rw [Nat.toDigitsCore]
    by_cases h0 : n / 10 = 0
    · simp only [h0, if_true, readDigits, hd]
      have : n % 10 = n := Nat.mod_eq_of_lt (by omega)
      rw [this]
      simp
    · simp only [h0, if_false]
      rw [ih (n / 10) _ (by omega)]
      simp only [readDigits, hd]
      have : n / 10 * 10 + n % 10 = n := by omega
      rw [this]

theorem toDigitsCore_chars (fuel : Nat) : ∀ (n : Nat) (ds : Str) (c : Char),
    c ∈ Nat.toDigitsCore 10 fuel n ds → (digitValue c).isSome = true ∨ c ∈ ds := by
  induction fuel with
  | zero => intro n ds c h; exact Or.inr (by simpa [Nat.toDigitsCore] using h)
  | succ f ih =>
    intro n ds c h
    have hd := digitValue_digitChar (n % 10) (Nat.mod_lt _ (by decide))
    rw [Nat.toDigitsCore] at h
    by_cases h0 : n / 10 = 0
    · simp only [h0, if_true, List.mem_cons] at h
      rcases h with h | h
      · exact Or.inl (by rw [h, hd]; rfl)
      · exact Or.inr h
    · simp only [h0, if_false] at h
      rcases ih _ _ c h with h | h
      · exact Or.inl h
      · rcases List.mem_cons.mp h with h | h
        · exact Or.inl (by rw [h, hd]; rfl)
        · exact Or.inr h

theorem toDigits_ne_nil (n : Nat) : Nat.toDigits 10 n ≠ [] := by
  have key : ∀ (fuel n : Nat) (ds : Str), Nat.toDigitsCore 10 (fuel + 1) n ds ≠ [] := by
    intro fuel
    induction fuel with
    | zero =>
      intro n ds
      rw [Nat.toDigitsCore]
      by_cases h0 : n / 10 = 0
      · simp [h0]
      · simp [h0, Nat.toDigitsCore]
    | succ f ih =>
      intro n ds
      rw [Nat.toDigitsCore]
      by_cases h0 : n / 10 = 0
      · simp [h0]
      · simp only [h0, if_false]
        exact ih _ _
  exact key n n []

theorem toDigits_chars (n : Nat) (c : Char) (h : c ∈ Nat.toDigits 10 n) :
    (digitValue c).isSome = true := by
  rcases toDigitsCore_chars _ _ _ c h with h | h
  · exact h
  · simp at h

theorem readDigits_toDigits (n : Nat) : readDigits 0 (Nat.toDigits 10 n) = some n := by
  unfold Nat.toDigits
  rw [readDigits_toDigitsCore _ _ _ (Nat.lt_succ_self n)]
  rfl

theorem streamInt_ofNat (n : Nat) : streamInt (n : Int) = Nat.toDigits 10 n := rfl

theorem streamInt_negSucc (n : Nat) :
    streamInt (Int.negSucc n) = '-' :: Nat.toDigits 10 (n + 1) := rfl

theorem lexical_cast_int_digits (ds : Str) (hne : ds ≠ [])
    (hds : ∀ c ∈ ds, (digitValue c).isSome = true) :
    lexical_cast_int ds = readSigned false ds := by
  cases ds with
  | nil => exact absurd rfl hne
  | cons c cs =>
    have hc := hds c (by simp)
    unfold lexical_cast_int
    split
    · rename_i heq
      simp only [List.cons.injEq] at heq
      rw [heq.1] at hc
      exact absurd hc (by decide)
    · rename_i heq
      simp only [List.cons.injEq] at heq
      rw [heq.1] at hc
      exact absurd hc (by decide)
    · rfl

/-- Reading back the decimal text of an `int` gives that `int`. -/
theorem lexical_cast_int_streamInt (n : Int) (h : IsInt32 n) :
    lexical_cast_int (streamInt n) = some n := by
  obtain ⟨hlo, hhi⟩ := h
  cases n with
  | ofNat m =>
    have e : streamInt (Int.ofNat m) = Nat.toDigits 10 m := rfl
    rw [e, lexical_cast_int_digits _ (toDigits_ne_nil m) (toDigits_chars m)]
    simp only [readSigned, toDigits_ne_nil m, if_false, readDigits_toDigits]
    simp only [Int.ofNat_eq_coe] at hlo hhi ⊢
    simp [hlo, hhi]
  | negSucc m =>
    rw [streamInt_negSucc]
    simp only [lexical_cast_int, readSigned, toDigits_ne_nil (m + 1), if_false,
      readDigits_toDigits]
    have e : -((m + 1 : Nat) : Int) = Int.negSucc m := by
      simp [Int.negSucc_eq]
    simp only [if_true, e]
    simp [hlo, hhi]

theorem streamInt_no_amp (n : Int) : '&' ∉ streamInt n := by
  intro h
  cases n with
  | ofNat m =>
    have e : streamInt (Int.ofNat m) = Nat.toDigits 10 m := rfl
    rw [e] at h
    exact absurd (toDigits_chars m _ h) (by decide)
  | negSucc m =>
    rw [streamInt_negSucc] at h
    rcases List.mem_cons.mp h with h | h
    · exact absurd h (by decide)
    · exact absurd (toDigits_chars _ _ h) (by decide)

theorem lastValue_eq_none_iff {β : Type} (key : Str) (pairs : List (Str × β)) :
    lastValue key pairs = none ↔ ∀ kv ∈ pairs, kv.1 ≠ key := by
  induction pairs with
  | nil => simp [lastValue]
  | cons kv rest ih =>
    rw [lastValue]
    cases hl : lastValue key rest with
    | some w =>
      have hmem := lastValue_mem key rest w hl
      simp only [false_iff, reduceCtorEq]
      intro hall
      exact hall (key, w) (by simp [hmem]) rfl
    | none =>
      have hrest := ih.mp hl
      simp only
      by_cases hk : kv.1 = key
      · rw [if_pos hk]
        constructor
        · intro h
          exact absurd h (by simp)
        · intro hall
          exact absurd hk (hall kv (by simp))
      · simp only [if_neg hk, true_iff]
        intro x hx
        rcases List.mem_cons.mp hx with hx | hx
        · rw [hx]; exact hk
        · exact hrest x hx

/-- C21: for every list of pairs whose keys are non-empty and free of `=` and whose
values are non-empty and free of `&`, every value under key `port` being a decimal
integer that `lexical_cast<int>` reads, `setConnectionString` applied to the pairs
written `key=value` and joined by `&` returns, and the record it leaves is the old one
with host, db, user and password replaced by the values under `host`, `db`, `u` and `p`
and the port by the integer read from the value under `port`, each only when a pair
with that key is present (for a repeated key the last pair counts); a field whose key
is absent keeps its value, and so does every other field of the record, whatever other
keys the pairs carry. -/
theorem C21_setConnectionString_assigns_fields {U : Type} (self : InfluxDbPointRecord U)
    (pairs : List (Str × Str))
    (hpairs : ∀ kv ∈ pairs, kv.1 ≠ [] ∧ '=' ∉ kv.1 ∧ kv.2 ≠ [] ∧ '&' ∉ kv.2)
    (hport : ∀ kv ∈ pairs, kv.1 = "port".toList → (lexical_cast_int kv.2).isSome = true) :
    self.setConnectionString (joinPairs '&' pairs) =
      some { self with
        host := (lastValue "host".toList pairs).getD self.host
        port := ((lastValue "port".toList pairs).bind lexical_cast_int).getD self.port
        db := (lastValue "db".toList pairs).getD self.db
        user := (lastValue "u".toList pairs).getD self.user
        pass := (lastValue "p".toList pairs).getD self.pass } := by
  have hread : kvMatches '&' (joinPairs '&' pairs) = pairs := by
    rw [kvMatches_joinPairs '&' (by decide) pairs
      (fun kv h => ⟨(hpairs kv h).1, (hpairs kv h).2.1, (hpairs kv h).2.2.2⟩)]
    exact readBack_of_values '&' pairs (fun kv h => (hpairs kv h).2.2.1)
  unfold InfluxDbPointRecord.setConnectionString
  simp only [hread, smFind_kvPairs]
  cases hp : lastValue "port".toList pairs with
  | none =>
    cases lastValue "host".toList pairs <;> cases lastValue "db".toList pairs <;>
      cases lastValue "u".toList pairs <;> cases lastValue "p".toList pairs <;> rfl
  | some v =>
    have hsome := hport _ (lastValue_mem _ _ _ hp) rfl
    obtain ⟨n, hn⟩ := Option.isSome_iff_exists.mp hsome
    simp only [hn, Option.map_some', Option.bind_some, Option.getD_some]
    cases lastValue "host".toList pairs <;> cases lastValue "db".toList pairs <;>
      cases lastValue "u".toList pairs <;> cases lastValue "p".toList pairs <;>
      simp [hn]

theorem C21_setConnectionString_assigns_fields_witness :
    sampleRecord.setConnectionString
        (joinPairs '&' [("host".toList, "127.0.0.1".toList), ("port".toList, "4242".toList),
          ("retention".toList, "week".toList)]) =
      some { sampleRecord with
        host := (lastValue "host".toList [("host".toList, "127.0.0.1".toList),
          ("port".toList, "4242".toList), ("retention".toList, "week".toList)]).getD
            sampleRecord.host
        port := ((lastValue "port".toList [("host".toList, "127.0.0.1".toList),
          ("port".toList, "4242".toList), ("retention".toList, "week".toList)]).bind
            lexical_cast_int).getD sampleRecord.port
        db := (lastValue "db".toList [("host".toList, "127.0.0.1".toList),
          ("port".toList, "4242".toList), ("retention".toList, "week".toList)]).getD
            sampleRecord.db
        user := (lastValue "u".toList [("host".toList, "127.0.0.1".toList),
          ("port".toList, "4242".toList), ("retention".toList, "week".toList)]).getD
            sampleRecord.user
        pass := (lastValue "p".toList [("host".toList, "127.0.0.1".toList),
          ("port".toList, "4242".toList), ("retention".toList, "week".toList)]).getD
            sampleRecord.pass } :=
  C21_setConnectionString_assigns_fields sampleRecord
    [("host".toList, "127.0.0.1".toList), ("port".toList, "4242".toList),
      ("retention".toList, "week".toList)]
    (by decide) (by decide)

theorem connectionString_eq_joinPairs {U : Type} (self : InfluxDbPointRecord U) :
    self.connectionString =
      joinPairs '&' [("host".toList, self.host), ("port".toList, streamInt self.port),
        ("db".toList, self.db), ("u".toList, self.user), ("p".toList, self.pass)] := by
  simp [InfluxDbPointRecord.connectionString, joinPairs]

/-- Looking a recognised key up in what the iterator reads from the record's own
connection string finds nothing or the record's own value. -/
theorem ownValue_of_lastValue {sep : Char} {key v : Str} {pairs : List (Str × Str)}
    {carry : Bool} (hkey : ∀ t, key ≠ sep :: t)
    (h : lastValue key (readBack sep carry pairs) = some v) : (key, v) ∈ pairs := by
  rcases mem_readBack sep pairs carry _ (lastValue_mem _ _ _ h) with h | ⟨q, _, e⟩
  · exact h
  · exact absurd (congrArg Prod.fst e) (hkey _)

/-- C28: for every record whose host, db, user and password contain no `&` (and whose
port is an `int`), `setConnectionString` applied to the record's own
`connectionString()` returns and leaves the record as it was: host, port, db, user and
password are unchanged, and so is every other field. -/
theorem C28_own_connection_string_changes_nothing {U : Type} (self : InfluxDbPointRecord U)
    (hhost : '&' ∉ self.host) (hdb : '&' ∉ self.db) (huser : '&' ∉ self.user)
    (hpass : '&' ∉ self.pass) (hport : IsInt32 self.port) :
    self.setConnectionString self.connectionString = some self := by
  have hread := kvMatches_joinPairs '&' (by decide)
    [("host".toList, self.host), ("port".toList, streamInt self.port),
      ("db".toList, self.db), ("u".toList, self.user), ("p".toList, self.pass)]
    (by
      intro kv hkv
      simp only [List.mem_cons, List.mem_singleton, List.not_mem_nil, or_false] at hkv
      rcases hkv with rfl | rfl | rfl | rfl | rfl
      · exact ⟨by simp, by simp, hhost⟩
      · exact ⟨by simp, by simp, streamInt_no_amp _⟩
      · exact ⟨by simp, by simp, hdb⟩
      · exact ⟨by simp, by simp, huser⟩
      · exact ⟨by simp, by simp, hpass⟩)
  have hown : ∀ key v, (∀ t, key ≠ '&' :: t) →
      lastValue key (readBack '&' false
        [("host".toList, self.host), ("port".toList, streamInt self.port),
          ("db".toList, self.db), ("u".toList, self.user), ("p".toList, self.pass)]) = some v →
      (key, v) ∈ [("host".toList, self.host), ("port".toList, streamInt self.port),
          ("db".toList, self.db), ("u".toList, self.user), ("p".toList, self.pass)] :=
    fun key v hkey h => ownValue_of_lastValue hkey h
  unfold InfluxDbPointRecord.setConnectionString
  rw [connectionString_eq_joinPairs]
  simp only [hread, smFind_kvPairs]
  have h1 : ∀ v, lastValue "host".toList (readBack '&' false
        [("host".toList, self.host), ("port".toList, streamInt self.port),
          ("db".toList, self.db), ("u".toList, self.user), ("p".toList, self.pass)]) = some v →
      v = self.host := by
    intro v h
    have := hown _ v (by intro t; simp) h
    simpa using this
  have h2 : ∀ v, lastValue "port".toList (readBack '&' false
        [("host".toList, self.host), ("port".toList, streamInt self.port),
          ("db".toList, self.db), ("u".toList, self.user), ("p".toList, self.pass)]) = some v →
      v = streamInt self.port := by
    intro v h
    have := hown _ v (by intro t; simp) h
    simpa using this
  have h3 : ∀ v, lastValue "db".toList (readBack '&' false
        [("host".toList, self.host), ("port".toList, streamInt self.port),
          ("db".toList, self.db), ("u".toList, self.user), ("p".toList, self.pass)]) = some v →
      v = self.db := by
    intro v h
    have := hown _ v (by intro t; simp) h
    simpa using this
  have h4 : ∀ v, lastValue "u".toList (readBack '&' false
        [("host".toList, self.host), ("port".toList, streamInt self.port),
          ("db".toList, self.db), ("u".toList, self.user), ("p".toList, self.pass)]) = some v →
      v = self.user := by
    intro v h
    have := hown _ v (by intro t; simp) h
    simpa using this
  have h5 : ∀ v, lastValue "p".toList (readBack '&' false
        [("host".toList, self.host), ("port".toList, streamInt self.port),
          ("db".toList, self.db), ("u".toList, self.user), ("p".toList, self.pass)]) = some v →
      v = self.pass := by
    intro v h
    have := hown _ v (by intro t; simp) h
    simpa using this
  have hcast := lexical_cast_int_streamInt self.port hport
  generalize lastValue "host".toList (readBack '&' false
        [("host".toList, self.host), ("port".toList, streamInt self.port),
          ("db".toList, self.db), ("u".toList, self.user), ("p".toList, self.pass)]) = o1 at h1 ⊢
  generalize lastValue "port".toList (readBack '&' false
        [("host".toList, self.host), ("port".toList, streamInt self.port),
          ("db".toList, self.db), ("u".toList, self.user), ("p".toList, self.pass)]) = o2 at h2 ⊢
  generalize lastValue "db".toList (readBack '&' false
        [("host".toList, self.host), ("port".toList, streamInt self.port),
          ("db".toList, self.db), ("u".toList, self.user), ("p".toList, self.pass)]) = o3 at h3 ⊢
  generalize lastValue "u".toList (readBack '&' false
        [("host".toList, self.host), ("port".toList, streamInt self.port),
          ("db".toList, self.db), ("u".toList, self.user), ("p".toList, self.pass)]) = o4 at h4 ⊢
  generalize lastValue "p".toList (readBack '&' false
        [("host".toList, self.host), ("port".toList, streamInt self.port),
          ("db".toList, self.db), ("u".toList, self.user), ("p".toList, self.pass)]) = o5 at h5 ⊢
  clear hread hown
  have e1 : o1 = none ∨ o1 = some self.host := by
    cases o1 with
    | none => exact Or.inl rfl
    | some v => exact Or.inr (by rw [h1 v rfl])
  have e2 : o2 = none ∨ o2 = some (streamInt self.port) := by
    cases o2 with
    | none => exact Or.inl rfl
    | some v => exact Or.inr (by rw [h2 v rfl])
  have e3 : o3 = none ∨ o3 = some self.db := by
    cases o3 with
    | none => exact Or.inl rfl
    | some v => exact Or.inr (by rw [h3 v rfl])
  have e4 : o4 = none ∨ o4 = some self.user := by
    cases o4 with
    | none => exact Or.inl rfl
    | some v => exact Or.inr (by rw [h4 v rfl])
  have e5 : o5 = none ∨ o5 = some self.pass := by
    cases o5 with
    | none => exact Or.inl rfl
    | some v => exact Or.inr (by rw [h5 v rfl])
  clear h1 h2 h3 h4 h5
  rcases e1 with rfl | rfl <;> rcases e2 with rfl | rfl <;> rcases e3 with rfl | rfl <;>
    rcases e4 with rfl | rfl <;> rcases e5 with rfl | rfl <;>
    simp only [hcast, Option.map_some']

theorem C28_own_connection_string_changes_nothing_witness :
    sampleRecord.setConnectionString sampleRecord.connectionString = some sampleRecord :=
  C28_own_connection_string_changes_nothing sampleRecord (by decide) (by decide) (by decide)
    (by decide) (by simp [IsInt32, sampleRecord])

/-! ## Theorems: the catalog built from a series listing -/

theorem smErase_smInsert_self {κ β : Type} [LinearOrder κ] (k : κ) (v : β) (m : SMap κ β)
    (hm : SMap.WF m) : smErase k (smInsert k v m) = smErase k m := by
  induction m with
  | nil => simp [smInsert, smErase]
  | cons a rest ih =>
    obtain ⟨k', v'⟩ := a
    have hrest : SMap.WF rest := (List.pairwise_cons.mp hm).2
    have hlt : ∀ x ∈ rest, k' < x.1 := (List.pairwise_cons.mp hm).1
    simp only [smInsert]
    split_ifs with h1 h2
    · simp [smErase, h1]
    · simp [smErase, h2, not_lt_of_gt h2, ih hrest]
    · have hkk : k = k' := le_antisymm (not_lt.mp h2) (not_lt.mp h1)
      subst hkk
      simp [smErase]

theorem smErase_smInsert_of_ne {κ β : Type} [LinearOrder κ] (k k₀ : κ) (v : β)
    (m : SMap κ β) (hm : SMap.WF m) (hne : k ≠ k₀) :
    smErase k (smInsert k₀ v m) = smInsert k₀ v (smErase k m) := by
  induction m with
  | nil =>
    simp only [smInsert, smErase]
    rcases lt_trichotomy k k₀ with h | h | h
    · simp [h]
    · exact absurd h hne
    · simp [h, not_lt_of_gt h, smErase, smInsert]
  | cons a rest ih =>
    obtain ⟨k', v'⟩ := a
    have hrest : SMap.WF rest := (List.pairwise_cons.mp hm).2
    have hlt : ∀ x ∈ rest, k' < x.1 := (List.pairwise_cons.mp hm).1
    simp only [smInsert]
    split_ifs with h1 h2
    · -- k₀ < k'
      simp only [smErase]
      rcases lt_trichotomy k k₀ with h | h | h
      · simp [h, lt_trans h h1, smInsert, h1]
      · exact absurd h hne
      · simp only [not_lt_of_gt h, h, if_false, if_true]
        rcases lt_trichotomy k k' with g | g | g
        · simp [g, smInsert, h1]
        · subst g
          simp only [lt_irrefl, if_false]
          cases rest with
          | nil => simp [smInsert]
          | cons b rest' =>
            obtain ⟨kb, vb⟩ := b
            have : k < kb := hlt (kb, vb) (by simp)
            simp [smInsert, lt_trans h1 this]
        · simp [g, not_lt_of_gt g, smInsert, h1]
    · -- k' < k₀
      simp only [smErase]
      rcases lt_trichotomy k k' with g | g | g
      · simp [g, smInsert, h2, not_lt_of_gt h2]
      · subst g
        simp [lt_irrefl]
      · simp [g, not_lt_of_gt g, smInsert, h2, not_lt_of_gt h2, ih hrest]
    · -- k₀ = k'
      have hkk : k₀ = k' := le_antisymm (not_lt.mp h2) (not_lt.mp h1)
      subst hkk
      simp only [smErase]
      rcases lt_trichotomy k k₀ with g | g | g
      · simp [g, smInsert]
      · exact absurd g hne
      · simp [g, not_lt_of_gt g, smInsert]

theorem smErase_foldl_smInsert {κ β : Type} [LinearOrder κ] (k : κ) (l : List (κ × β))
    (p : κ × β → Bool) (hp : ∀ kv, p kv = true ↔ kv.1 ≠ k) :
    ∀ acc : SMap κ β, SMap.WF acc →
      smErase k (l.foldl (fun tags kv => smInsert kv.1 kv.2 tags) acc) =
        (l.filter p).foldl (fun tags kv => smInsert kv.1 kv.2 tags) (smErase k acc) := by
  induction l with
  | nil => intro acc _; rfl
  | cons a rest ih =>
    intro acc hacc
    rw [List.foldl_cons, ih _ (smInsert_wf a.1 a.2 acc hacc)]
    by_cases hk : a.1 = k
    · have hpa : p a = false := by
        cases hpv : p a with
        | false => rfl
        | true => exact absurd hk ((hp a).mp hpv)
      rw [List.filter_cons, hpa, hk, smErase_smInsert_self k a.2 acc hacc]
      rfl
    · have hpa : p a = true := (hp a).mpr hk
      rw [List.filter_cons, hpa, if_pos rfl, List.foldl_cons,
        smErase_smInsert_of_ne k a.1 a.2 acc hacc (fun e => hk e.symm)]

/-- The tag loop over a row of strings, from column `j` on. -/
theorem tagsLoop_strings {V : Type} (cols : List Str) (row : List Str) :
    ∀ (j : Nat) (tags : SMap Str Str), row.length + j ≤ cols.length →
      tagsLoop (V := V) (.arr (cols.map Json.str)) (row.map Json.str) j tags =
        some ((((cols.drop j).zip row).filter
          (fun kv => decide (kv.1 ≠ "_key".toList) && decide (kv.2 ≠ []))).foldl
            (fun tags kv => smInsert kv.1 kv.2 tags) tags) := by
  induction row with
  | nil => intro j tags _; simp [tagsLoop]
  | cons e rest ih =>
    intro j tags hlen
    simp only [List.length_cons] at hlen
    have hj : j < cols.length := by omega
    have hdrop : cols.drop j = cols[j] :: cols.drop (j + 1) := List.drop_eq_getElem_cons hj
    have hcol : ((Json.arr (cols.map Json.str) : Json V).index j).bind Json.GetString =
        some cols[j] := by
      simp [Json.index, List.getElem?_eq_getElem hj, Json.GetString]
    have ih1 := fun t => ih (j + 1) t (by omega)
    rw [List.map_cons, tagsLoop, hcol]
    simp only [Json.GetString, ih1]
    rw [hdrop]
    simp only [List.zip_cons_cons, List.filter_cons]
    by_cases hkey : cols[j] = "_key".toList
    · rw [if_pos hkey]
      have hkey2 : cols[j] = ['_', 'k', 'e', 'y'] := hkey
      simp [hkey2]
    · rw [if_neg hkey]
      by_cases hval : e = []
      · rw [if_pos hval]
        simp [hval]
      · rw [if_neg hval]
        have hkey2 : ¬ cols[j] = ['_', 'k', 'e', 'y'] := hkey
        simp [hkey2, hval]

theorem registerSeries_shown {V U : Type} (W : WireEnv V U) (name : Str)
    (cols row : List Str) (cache : SMap Str U) :
    registerSeries W
        { measurement := name
          tags := (shownTags cols row).foldl (fun tags kv => smInsert kv.1 kv.2 tags) [] }
        cache =
      smInsert (catalogKey name cols row) (catalogUnit W cols row) cache := by
  have hfind := smFind_kvPairs unitsKey (shownTags cols row)
  have herase := smErase_foldl_smInsert unitsKey (shownTags cols row)
    (fun kv => decide (kv.1 ≠ unitsKey)) (by intro kv; simp) [] (by simp [SMap.WF])
  simp only [smErase] at herase
  unfold registerSeries catalogKey catalogUnit
  simp only [hfind]
  cases hl : lastValue unitsKey (shownTags cols row) with
  | none =>
    have hnone : smFind unitsKey
        ((shownTags cols row).foldl (fun tags kv => smInsert kv.1 kv.2 tags) []) = none := by
      rw [hfind, hl]
    simp only
    rw [← herase, smErase_of_find_none _ _ hnone]
  | some u =>
    simp only
    rw [← herase]

theorem valuesLoop_listed {V U : Type} (W : WireEnv V U) (name : Str) (cols : List Str)
    (rows : List (List Str)) (hwidth : ∀ row ∈ rows, row.length ≤ cols.length) :
    ∀ cache : SMap Str U,
      valuesLoop (V := V) W name (.arr (cols.map Json.str))
          (rows.map (fun row => Json.arr (row.map Json.str))) cache =
        some ((rows.map (fun row => (catalogKey name cols row, catalogUnit W cols row))).foldl
          (fun cache kv => smInsert kv.1 kv.2 cache) cache) := by
  induction rows with
  | nil => intro cache; rfl
  | cons row rest ih =>
    intro cache
    have h := tagsLoop_strings (V := V) cols row 0 [] (by simpa using hwidth row (by simp))
    simp only [List.drop_zero] at h
    simp only [List.map_cons, valuesLoop, Json.elements, h, List.foldl_cons]
    rw [ih (fun r hr => hwidth r (by simp [hr]))]
    have hreg := registerSeries_shown W name cols row cache
    unfold shownTags at hreg
    rw [hreg]

theorem seriesLoop_listed {V U : Type} (W : WireEnv V U) (seriesArr : List (Json V))
    (listed : List ListedSeries) (h : List.Forall₂ ShowsSeries seriesArr listed) :
    ∀ cache : SMap Str U,
      seriesLoop W seriesArr cache =
        some ((catalogEntries W listed).foldl (fun cache kv => smInsert kv.1 kv.2 cache)
          cache) := by
  induction h with
  | nil => intro cache; rfl
  | cons hs _ ih =>
    intro cache
    obtain ⟨hname, hcols, hvals, hwidth⟩ := hs
    rw [seriesLoop, hname, hcols, hvals]
    simp only [Option.some_bind, Json.GetString, Json.elements,
      valuesLoop_listed W _ _ _ hwidth, catalogEntries, seriesEntries, List.foldl_append]
    exact ih _

theorem catalogFromJson_listed {V U : Type} (W : WireEnv V U) (doc : Json V)
    (listed : List ListedSeries) (h : WellShapedListing doc listed) (cache : SMap Str U) :
    catalogFromJson W doc cache =
      some ((catalogEntries W listed).foldl (fun cache kv => smInsert kv.1 kv.2 cache)
        cache) := by
  obtain ⟨rzero, more, seriesArr, hres, hser, hall⟩ := h
  have hnull : nullOrLacksResults doc = some false := by
    cases doc <;> simp [Json.member] at hres
    simp [nullOrLacksResults, Json.IsNull, Json.HasMember, hres]
  have hobj : rzero.IsObject = true := by
    cases rzero <;> simp [Json.member] at hser
    rfl
  have hhas : rzero.HasMember "series".toList = some true := hasMember_of_member hser
  unfold catalogFromJson
  rw [hnull]
  simp only
  rw [hres]
  simp only
  have h1 : ¬ ((Json.arr (rzero :: more) : Json V).IsArray = false ∨
      (Json.arr (rzero :: more) : Json V).Size = some 0) := by
    simp [Json.IsArray, Json.Size]
  have h2 : (Json.arr (rzero :: more) : Json V).index 0 = some rzero := by
    simp [Json.index]
  rw [if_neg h1, h2]
  simp only
  rw [if_neg (by simp [hobj]), hhas]
  simp only
  rw [hser]
  simp only
  cases seriesArr with
  | nil =>
    cases hall
    simp [Json.IsArray, Json.Size, catalogEntries]
  | cons a l =>
    have h3 : ¬ ((Json.arr (a :: l) : Json V).IsArray = false ∨
        (Json.arr (a :: l) : Json V).Size = some 0) := by
      simp [Json.IsArray, Json.Size]
    rw [if_neg h3]
    simp only [Json.elements]
    exact seriesLoop_listed W _ _ hall cache

theorem mem_iff_smFind {κ β : Type} [LinearOrder κ] (m : SMap κ β) (hm : SMap.WF m)
    (k : κ) (v : β) : (k, v) ∈ m ↔ smFind k m = some v := by
  induction m with
  | nil => simp [smFind]
  | cons a rest ih =>
    obtain ⟨k', v'⟩ := a
    have hrest : SMap.WF rest := (List.pairwise_cons.mp hm).2
    have hlt : ∀ x ∈ rest, k' < x.1 := (List.pairwise_cons.mp hm).1
    simp only [smFind, List.mem_cons, Prod.mk.injEq]
    rcases lt_trichotomy k k' with h | h | h
    · simp only [h, if_true, reduceCtorEq, iff_false, not_or]
      refine ⟨fun e => absurd e.1 (ne_of_lt h), fun hmem => ?_⟩
      exact absurd (lt_trans h (hlt _ hmem)) (lt_irrefl k)
    · subst h
      simp only [lt_irrefl, if_false, true_and, Option.some.injEq]
      constructor
      · rintro (e | hmem)
        · exact e.symm
        · exact absurd (hlt _ hmem) (lt_irrefl k)
      · intro e
        exact Or.inl e.symm
    · simp only [not_lt_of_gt h, h, if_false, if_true, ← ih hrest]
      constructor
      · rintro (e | hmem)
        · exact absurd e.1 (ne_of_gt h)
        · exact hmem
      · intro hmem
        exact Or.inr hmem

/-- The call of `identifiersAndUnits` on a connected record whose catalog is not
served from memory, against a server that answers `show series` with a well-shaped
listing: the catalog is rebuilt from the rows of the listing alone. -/
theorem identifiersAndUnits_listed {V U : Type} (W : WireEnv V U) (now : Int)
    (self : InfluxDbPointRecord U) (net : Transport V) (doc : Json V)
    (listed : List ListedSeries) (hconn : self._connected = true)
    (hmiss : ¬ (now - self._lastIdRequest < 5 ∧
      self._identifiersAndUnitsCache.isEmpty = false))
    (hanswer : net.respond net.requests (self.urlForQuery W "show series".toList false) =
      some doc)
    (hshape : WellShapedListing doc listed) :
    self.identifiersAndUnits W now net =
      some ((catalogEntries W listed).foldl (fun cache kv => smInsert kv.1 kv.2 cache) [],
        { self with
          _lastIdRequest := now
          _identifiersAndUnitsCache :=
            (catalogEntries W listed).foldl (fun cache kv => smInsert kv.1 kv.2 cache) [] },
        { net with requests :=
            net.requests ++ [self.urlForQuery W "show series".toList false] }) := by
  unfold InfluxDbPointRecord.identifiersAndUnits
  rw [if_neg hmiss]
  simp only
  have hc : ¬ (self._connected = false) := by simp [hconn]
  rw [if_neg hc]
  simp only
  rw [if_neg hc]
  have hurl : InfluxDbPointRecord.urlForQuery W
      { self with _lastIdRequest := now, _identifiersAndUnitsCache := [] }
      "show series".toList false = self.urlForQuery W "show series".toList false := rfl
  rw [hurl]
  simp only [jsonFromPath, hanswer]
  rw [catalogFromJson_listed W doc listed hshape]

/-- C23 (counterexample): a connected record with an empty catalog asks a server whose
well-shaped answer to `show series` has two rows of the measurement `flow`, both with
`site=a`, one with `units=L1T0` and one with `units=L1T-1`.  After the refresh the
catalog holds one entry for the two rows, `flow,site=a`, and its unit is the one named
by the second row; the unit named by the first row is nowhere in the catalog. -/
theorem C23_rows_with_equal_keys_share_one_entry :
    WellShapedListing twoUnitsResponse
        [{ name := "flow".toList
           columns := ["_key".toList, "site".toList, "units".toList]
           rows := [["flow,site=a,units=L1T0".toList, "a".toList, "L1T0".toList],
             ["flow,site=a,units=L1T-1".toList, "a".toList, "L1T-1".toList]] }] ∧
      (connectedEmptyRecord.identifiersAndUnits ratWire 100 twoUnitsNet).map
          (fun r => r.2.1._identifiersAndUnitsCache.map
            (fun kv => (kv.1, decide (kv.2 = ratWire.unitOfType "L1T-1".toList),
              decide (kv.2 = ratWire.unitOfType "L1T0".toList)))) =
        some [("flow,site=a".toList, true, false)] := by
  refine ⟨⟨_, _, _, rfl, rfl, List.Forall₂.cons ⟨rfl, rfl, rfl, ?_⟩ List.Forall₂.nil⟩, ?_⟩
  · intro row hrow
    simp only [List.mem_cons, List.mem_singleton, List.not_mem_nil, or_false] at hrow
    rcases hrow with rfl | rfl <;> simp
  · have hshape : WellShapedListing twoUnitsResponse
        [{ name := "flow".toList
           columns := ["_key".toList, "site".toList, "units".toList]
           rows := [["flow,site=a,units=L1T0".toList, "a".toList, "L1T0".toList],
             ["flow,site=a,units=L1T-1".toList, "a".toList, "L1T-1".toList]] }] := by
      refine ⟨_, _, _, rfl, rfl, List.Forall₂.cons ⟨rfl, rfl, rfl, ?_⟩ List.Forall₂.nil⟩
      intro row hrow
      simp only [List.mem_cons, List.mem_singleton, List.not_mem_nil, or_false] at hrow
      rcases hrow with rfl | rfl <;> simp
    rw [identifiersAndUnits_listed ratWire 100 connectedEmptyRecord twoUnitsNet
      twoUnitsResponse _ rfl (by decide) rfl hshape]
    simp [catalogEntries, seriesEntries, catalogKey, catalogUnit, shownTags, lastValue,
      unitsKey, smInsert, nameFromMetricInfo, ratWire, metre, metrePerSecond]

/-- C23 (amended): for a connected record whose catalog is not served from memory and
a server that answers `show series` with a well-shaped listing, `identifiersAndUnits`
returns, the catalog it returns is the one the record holds afterwards, its keys are
strictly ascending (one entry per key), and `(key, unit)` is an entry exactly when
`unit` is the unit of the last listed row whose key is `key`, the key of a row being
the serialization of the measurement with the row's tag columns other than `_key`,
empty-valued columns and `units`, and its unit the one named by its non-empty `units`
entry or the no-units value.  When the keys of the rows are pairwise different, the
catalog holds exactly one entry per row. -/
theorem C23_catalog_after_refresh {V U : Type} (W : WireEnv V U) (now : Int)
    (self : InfluxDbPointRecord U) (net : Transport V) (doc : Json V)
    (listed : List ListedSeries) (hconn : self._connected = true)
    (hmiss : ¬ (now - self._lastIdRequest < 5 ∧
      self._identifiersAndUnitsCache.isEmpty = false))
    (hanswer : net.respond net.requests (self.urlForQuery W "show series".toList false) =
      some doc)
    (hshape : WellShapedListing doc listed) :
    ∃ catalog r net', self.identifiersAndUnits W now net = some (catalog, r, net') ∧
      r._identifiersAndUnitsCache = catalog ∧
      catalog.Pairwise (fun a b => a.1 < b.1) ∧
      (∀ key unit, (key, unit) ∈ catalog ↔
        lastValue key (catalogEntries W listed) = some unit) ∧
      (((catalogEntries W listed).map Prod.fst).Nodup →
        catalog.Perm (catalogEntries W listed)) := by
  have hwf : SMap.WF ((catalogEntries W listed).foldl
      (fun cache kv => smInsert kv.1 kv.2 cache) ([] : SMap Str U)) :=
    foldl_smInsert_wf _ _ (by simp [SMap.WF])
  refine ⟨_, _, _, identifiersAndUnits_listed W now self net doc listed hconn hmiss hanswer
    hshape, rfl, hwf, ?_, ?_⟩
  · intro key unit
    rw [mem_iff_smFind _ hwf, smFind_kvPairs]
  · intro hnodup
    have := foldl_smInsert_perm (catalogEntries W listed) ([] : SMap Str U)
      (by simpa using hnodup)
    simpa using this

theorem C23_catalog_after_refresh_witness :
    ∃ catalog r net',
      connectedEmptyRecord.identifiersAndUnits ratWire 100 catalogNet =
        some (catalog, r, net') ∧
      r._identifiersAndUnitsCache = catalog ∧
      catalog.Pairwise (fun a b => a.1 < b.1) ∧
      (∀ key unit, (key, unit) ∈ catalog ↔
        lastValue key (catalogEntries ratWire
          [{ name := "flow".toList
             columns := ["_key".toList, "site".toList, "units".toList]
             rows := [["flow,site=a,units=L1T0".toList, "a".toList, "L1T0".toList]] }]) =
          some unit) ∧
      (((catalogEntries ratWire
          [{ name := "flow".toList
             columns := ["_key".toList, "site".toList, "units".toList]
             rows := [["flow,site=a,units=L1T0".toList, "a".toList, "L1T0".toList]] }]).map
          Prod.fst).Nodup →
        catalog.Perm (catalogEntries ratWire
          [{ name := "flow".toList
             columns := ["_key".toList, "site".toList, "units".toList]
             rows := [["flow,site=a,units=L1T0".toList, "a".toList, "L1T0".toList]] }])) :=
  C23_catalog_after_refresh ratWire 100 connectedEmptyRecord catalogNet showSeriesResponse
    [{ name := "flow".toList
       columns := ["_key".toList, "site".toList, "units".toList]
       rows := [["flow,site=a,units=L1T0".toList, "a".toList, "L1T0".toList]] }]
    rfl (by decide) rfl
    ⟨_, _, _, rfl, rfl, List.Forall₂.cons ⟨rfl, rfl, rfl, by simp⟩ List.Forall₂.nil⟩

theorem createIfMissing_respond {V U : Type} (W : WireEnv V U)
    (self r' : InfluxDbPointRecord U) (net net' : Transport V) (dbExists : Bool)
    (h : self.createIfMissing W net dbExists = some (r', net')) :
    net'.respond = net.respond := by
  unfold InfluxDbPointRecord.createIfMissing at h
  simp only [jsonFromPath] at h
  split_ifs at h
  · generalize net.respond net.requests _ = answer at h
    cases answer with
    | none => simp at h
    | some doc =>
      simp only at h
      split at h
      · simp at h
      · simp only [Option.some.injEq, Prod.mk.injEq] at h
        rw [← h.2]
      · simp only [Option.some.injEq, Prod.mk.injEq] at h
        rw [← h.2]
  · simp only [Option.some.injEq, Prod.mk.injEq] at h
    rw [← h.2]

theorem dbConnect_respond {V U : Type} (W : WireEnv V U)
    (self r' : InfluxDbPointRecord U) (net net' : Transport V)
    (h : self.dbConnect W net = some (r', net')) :
    net'.respond = net.respond := by
  unfold InfluxDbPointRecord.dbConnect at h
  simp only [jsonFromPath] at h
  generalize net.respond net.requests _ = ping at h
  cases ping with
  | none =>
    simp only [Option.some.injEq, Prod.mk.injEq] at h
    rw [← h.2]
  | some pingDoc =>
    simp only at h
    split_ifs at h
    · simp only [Option.some.injEq, Prod.mk.injEq] at h
      rw [← h.2]
    · generalize Transport.respond _ _ _ = probe at h
      cases probe with
      | none => simp at h
      | some doc =>
        simp only at h
        split at h
        · simp at h
        · split at h
          · simp at h
          · split at h
            · simp at h
            · simp only [Option.some.injEq, Prod.mk.injEq] at h
              rw [← h.2]
          · simp only [Option.some.injEq, Prod.mk.injEq] at h
            rw [← h.2]
        · split at h
          · simp at h
          · split_ifs at h
            · simp only [Option.some.injEq, Prod.mk.injEq] at h
              rw [← h.2]
            · split at h
              · simp at h
              · split at h
                · simp at h
                · split at h
                  · simp at h
                  · rw [createIfMissing_respond W _ r' _ net' false h]
                · rw [createIfMissing_respond W _ r' _ net' true h]

/-! ## Theorems: catalog keys hide the `units` tag -/

theorem hidesUnits_smInsert {U : Type} (k : Str) (u : U) (cache : SMap Str U)
    (hk : smFind unitsKey (metricInfoFromName k).tags = none) (h : HidesUnits cache) :
    HidesUnits (smInsert k u cache) := by
  intro kv hkv
  rcases smInsert_keys_mem k u cache kv hkv with rfl | hmem
  · exact hk
  · exact h kv hmem

/-- The name serialised from a readable `MetricInfo` whose `units` tag has been erased
parses without a `units` tag. -/
theorem parse_without_units (m : MetricInfo) (hwf : SMap.WF m.tags)
    (hm : ',' ∉ m.measurement) (htags : ∀ kv ∈ m.tags, TagReadable kv) :
    smFind unitsKey (metricInfoFromName (nameFromMetricInfo
      { measurement := m.measurement, tags := smErase unitsKey m.tags })).tags = none := by
  rw [metricInfoFromName_nameFromMetricInfo
    { measurement := m.measurement, tags := smErase unitsKey m.tags }
    (smErase_wf _ _ hwf) hm (fun kv h => htags kv (smErase_subset _ _ kv h))]
  exact smFind_none_of_not_mem_keys _ _ (smErase_key_absent _ _ hwf)

theorem insertIdentifierAndUnits_hides {V U : Type} (E : Env V U) (readonly : Bool)
    (unitsEq : U → U → Bool)
    (addPoint : InfluxDbPointRecord U → Str → Point V → InfluxDbPointRecord U)
    (hadd : ∀ r id p,
      (addPoint r id p)._identifiersAndUnitsCache = r._identifiersAndUnitsCache)
    (self : InfluxDbPointRecord U) (id : Str) (units : U)
    (h : HidesUnits self._identifiersAndUnitsCache) :
    HidesUnits (self.insertIdentifierAndUnits E readonly unitsEq addPoint id
      units).2._identifiersAndUnitsCache := by
  unfold InfluxDbPointRecord.insertIdentifierAndUnits
  cases readonly with
  | true =>
    simp only [if_true]
    split <;> exact h
  | false =>
    simp only [Bool.false_eq_true, if_false]
    rw [hadd]
    exact hidesUnits_smInsert _ _ _
      (parse_without_units (metricInfoFromName id) (metricInfoFromName_tags_wf id)
        (measurement_no_comma id) (metricInfoFromName_tags_readable id)) h

theorem registerSeries_hides {V U : Type} (W : WireEnv V U) (m : MetricInfo)
    (cache : SMap Str U) (hwf : SMap.WF m.tags) (hm : ',' ∉ m.measurement)
    (htags : ∀ kv ∈ m.tags, TagReadable kv) (h : HidesUnits cache) :
    HidesUnits (registerSeries W m cache) := by
  have hkey := parse_without_units m hwf hm htags
  unfold registerSeries
  cases hfind : smFind unitsKey m.tags with
  | none =>
    rw [smErase_of_find_none _ _ hfind] at hkey
    exact hidesUnits_smInsert _ _ _ hkey h
  | some u => exact hidesUnits_smInsert _ _ _ hkey h

theorem tagsLoop_readable {V : Type} (columns : Json V)
    (hcols : ∀ j c, (columns.index j).bind Json.GetString = some c → c ≠ [] ∧ '=' ∉ c)
    (entries : List (Json V)) :
    ∀ (j : Nat) (tags tags' : SMap Str Str),
      (∀ i c v, entries[i]? = some (Json.str v) →
        (columns.index (j + i)).bind Json.GetString = some c → c ≠ "_key".toList →
        ',' ∉ v) →
      SMap.WF tags → (∀ kv ∈ tags, TagReadable kv) →
      tagsLoop columns entries j tags = some tags' →
      SMap.WF tags' ∧ ∀ kv ∈ tags', TagReadable kv := by
  induction entries with
  | nil =>
    intro j tags tags' _ hwf hread h
    simp only [tagsLoop, Option.some.injEq] at h
    subst h
    exact ⟨hwf, hread⟩
  | cons entry rest ih =>
    intro j tags tags' hvals hwf hread h
    have hrestvals : ∀ i c v, rest[i]? = some (Json.str v) →
        (columns.index (j + 1 + i)).bind Json.GetString = some c → c ≠ "_key".toList →
        ',' ∉ v := by
      intro i c v hi hc hne
      have e : j + 1 + i = j + (i + 1) := by omega
      rw [e] at hc
      exact hvals (i + 1) c v (by simpa using hi) hc hne
    rw [tagsLoop] at h
    cases hc : (columns.index j).bind Json.GetString with
    | none => rw [hc] at h; simp at h
    | some c =>
      rw [hc] at h
      simp only at h
      cases he : entry.GetString with
      | none => rw [he] at h; simp at h
      | some v =>
        rw [he] at h
        simp only at h
        have hentry : entry = Json.str v := by
          cases entry <;> simp [Json.GetString] at he
          rw [he]
        split_ifs at h with h1 h2
        · exact ih _ _ _ hrestvals hwf hread h
        · exact ih _ _ _ hrestvals hwf hread h
        · refine ih _ _ _ hrestvals (smInsert_wf _ _ _ hwf) ?_ h
          intro kv hkv
          rcases smInsert_keys_mem _ _ _ kv hkv with rfl | hmem
          · exact ⟨(hcols j c hc).1, (hcols j c hc).2, h2,
              hvals 0 c v (by rw [hentry]; simp) (by simpa using hc) h1⟩
          · exact hread kv hmem

theorem valuesLoop_hides {V U : Type} (W : WireEnv V U) (name : Str) (hname : ',' ∉ name)
    (columns : Json V)
    (hcols : ∀ j c, (columns.index j).bind Json.GetString = some c → c ≠ [] ∧ '=' ∉ c)
    (rows : List (Json V)) :
    ∀ cache cache' : SMap Str U,
      (∀ row ∈ rows, ∀ entries j c v, row.elements = some entries →
        entries[j]? = some (Json.str v) →
        (columns.index j).bind Json.GetString = some c → c ≠ "_key".toList → ',' ∉ v) →
      HidesUnits cache → valuesLoop W name columns rows cache = some cache' →
      HidesUnits cache' := by
  induction rows with
  | nil =>
    intro cache cache' _ hc h
    simp only [valuesLoop, Option.some.injEq] at h
    subst h
    exact hc
  | cons row rest ih =>
    intro cache cache' hvals hc h
    rw [valuesLoop] at h
    cases he : row.elements with
    | none => rw [he] at h; simp at h
    | some entries =>
      rw [he] at h
      simp only at h
      cases ht : tagsLoop columns entries 0 [] with
      | none => rw [ht] at h; simp at h
      | some tags =>
        rw [ht] at h
        simp only at h
        obtain ⟨hwf, hread⟩ := tagsLoop_readable columns hcols entries 0 [] tags
          (fun i c v hi hc hne =>
            hvals row (by simp) entries i c v he hi (by simpa using hc) hne)
          (by simp [SMap.WF]) (by simp) ht
        exact ih _ _ (fun r hr => hvals r (List.mem_cons_of_mem _ hr))
          (registerSeries_hides W { measurement := name, tags := tags } cache hwf hname
            hread hc) h

theorem seriesLoop_hides {V U : Type} (W : WireEnv V U) (seriesList : List (Json V)) :
    ∀ cache cache' : SMap Str U, (∀ s ∈ seriesList, CleanSeries s) → HidesUnits cache →
      seriesLoop W seriesList cache = some cache' → HidesUnits cache' := by
  induction seriesList with
  | nil =>
    intro cache cache' _ hc h
    simp only [seriesLoop, Option.some.injEq] at h
    subst h
    exact hc
  | cons s rest ih =>
    intro cache cache' hclean hc h
    obtain ⟨hcn, hcc, hcv⟩ := hclean s (by simp)
    rw [seriesLoop] at h
    cases hn : (s.member "name".toList).bind Json.GetString with
    | none => rw [hn] at h; simp at h
    | some name =>
      rw [hn] at h
      simp only at h
      cases hcol : s.member "columns".toList with
      | none => rw [hcol] at h; simp at h
      | some columns =>
        rw [hcol] at h
        simp only at h
        cases hv : (s.member "values".toList).bind Json.elements with
        | none => rw [hv] at h; simp at h
        | some valuesArr =>
          rw [hv] at h
          simp only at h
          cases hl : valuesLoop W name columns valuesArr cache with
          | none => rw [hl] at h; simp at h
          | some cache₁ =>
            rw [hl] at h
            simp only at h
            have h1 := valuesLoop_hides W name (hcn name hn) columns
              (fun j c hjc => hcc columns j c hcol hjc) valuesArr cache cache₁
              (fun row hrow entries j c v hent hj hjc hne =>
                hcv columns valuesArr row entries j c v hcol hv hrow hent hj hjc hne)
              hc hl
            exact ih _ _ (fun t ht => hclean t (List.mem_cons_of_mem _ ht)) h1 h

theorem catalogFromJson_hides {V U : Type} (W : WireEnv V U) (js : Json V)
    (cache cache' : SMap Str U) (hclean : CleanListing js) (hc : HidesUnits cache)
    (h : catalogFromJson W js cache = some cache') : HidesUnits cache' := by
  unfold catalogFromJson at h
  split at h
  · simp at h
  · simp only [Option.some.injEq] at h; subst h; exact hc
  · split at h
    · simp at h
    · rename_i results hres
      split_ifs at h
      · simp only [Option.some.injEq] at h; subst h; exact hc
      · split at h
        · simp at h
        · rename_i rzero hrz
          split_ifs at h
          · simp only [Option.some.injEq] at h; subst h; exact hc
          · split at h
            · simp at h
            · simp only [Option.some.injEq] at h; subst h; exact hc
            · split at h
              · simp at h
              · rename_i series hser
                split_ifs at h
                · simp only [Option.some.injEq] at h; subst h; exact hc
                · split at h
                  · simp at h
                  · rename_i seriesList hlist
                    exact seriesLoop_hides W seriesList cache cache'
                      (fun s hs => hclean results rzero series seriesList s hres hrz hser
                        hlist hs) hc h

theorem identifiersAndUnits_hides {V U : Type} (W : WireEnv V U) (now : Int)
    (self r' : InfluxDbPointRecord U) (net net' : Transport V) (catalog : SMap Str U)
    (hclean : ∀ earlier path doc, net.respond earlier path = some doc → CleanListing doc)
    (hc : HidesUnits self._identifiersAndUnitsCache)
    (h : self.identifiersAndUnits W now net = some (catalog, r', net')) :
    HidesUnits r'._identifiersAndUnitsCache := by
  have hnil : HidesUnits ([] : SMap Str U) := by intro kv hkv; simp at hkv
  unfold InfluxDbPointRecord.identifiersAndUnits at h
  split_ifs at h with hhit
  · simp only [Option.some.injEq, Prod.mk.injEq] at h
    rw [← h.2.1]
    exact hc
  · simp only at h
    split at h
    · simp at h
    · rename_i r₁ net₁ hconn
      have hcat : r₁._identifiersAndUnitsCache = [] ∧ net₁.respond = net.respond := by
        split_ifs at hconn
        · exact ⟨dbConnect_catalog W _ r₁ net net₁ hconn,
            dbConnect_respond W _ r₁ net net₁ hconn⟩
        · simp only [Option.some.injEq, Prod.mk.injEq] at hconn
          rw [← hconn.1, ← hconn.2]
          exact ⟨rfl, rfl⟩
      split_ifs at h
      · simp only [Option.some.injEq, Prod.mk.injEq] at h
        rw [← h.2.1, hcat.1]
        exact hnil
      · simp only [jsonFromPath] at h
        cases hans : net₁.respond net₁.requests
            (r₁.urlForQuery W "show series".toList false) with
        | none =>
          rw [hans] at h
          simp only [Option.some.injEq, Prod.mk.injEq] at h
          rw [← h.2.1, hcat.1]
          exact hnil
        | some js =>
          rw [hans] at h
          simp only at h
          split at h
          · simp at h
          · rename_i cache hcache
            simp only [Option.some.injEq, Prod.mk.injEq] at h
            rw [← h.2.1]
            rw [hcat.2] at hans
            rw [hcat.1] at hcache
            exact catalogFromJson_hides W js [] cache (hclean _ _ _ hans) hnil hcache

theorem showSeriesResponse_clean : CleanListing showSeriesResponse := by
  intro results rzero series seriesList thisSeries hres hrz hser hlist hmem
  simp only [showSeriesResponse, responseWith, Json.member, findMember, if_true,
    Option.some.injEq] at hres
  subst hres
  simp only [Json.index, List.getElem?_cons_zero, Option.some.injEq] at hrz
  subst hrz
  simp only [Json.member, findMember, if_true, Option.some.injEq] at hser
  subst hser
  simp only [Json.elements, Option.some.injEq] at hlist
  subst hlist
  simp only [List.mem_singleton] at hmem
  subst hmem
  refine ⟨?_, ?_, ?_⟩
  · intro name hname
    simp [Json.member, findMember, Json.GetString] at hname
    subst hname
    decide
  · intro columns j c hcol hjc
    simp [Json.member, findMember] at hcol
    subst hcol
    match j with
    | 0 => simp [Json.index, Json.GetString] at hjc; subst hjc; decide
    | 1 => simp [Json.index, Json.GetString] at hjc; subst hjc; decide
    | 2 => simp [Json.index, Json.GetString] at hjc; subst hjc; decide
    | n + 3 => simp [Json.index] at hjc
  · intro columns valuesArr row entries j c v hcol hvals hrow hent hj hjc hne
    simp [Json.member, findMember] at hcol
    subst hcol
    simp [Json.member, findMember, Json.elements] at hvals
    subst hvals
    simp only [List.mem_singleton] at hrow
    subst hrow
    simp only [Json.elements, Option.some.injEq] at hent
    subst hent
    match j with
    | 0 =>
      simp [Json.index, Json.GetString] at hjc
      exact absurd hjc.symm hne
    | 1 => simp at hj; subst hj; decide
    | 2 => simp at hj; subst hj; decide
    | n + 3 => simp at hj

/-- A call of `insertRange` that returns leaves the catalog, the connection fields and
the bulk flag of the record as they were. -/
theorem insertRange_frame {V U : Type} (F : InfluxEnv V U) (W : WireEnv V U)
    (self r : InfluxDbPointRecord U) (net net' : Transport V) (id : Str)
    (points : List (Point V)) (h : self.insertRange F W net id points = some (r, net')) :
    r._identifiersAndUnitsCache = self._identifiersAndUnitsCache ∧
      r._inBulkOperation = self._inBulkOperation ∧ r.db = self.db ∧ r.user = self.user ∧
      r.pass = self.pass := by
  unfold InfluxDbPointRecord.insertRange at h
  cases points with
  | nil =>
    simp only [Option.some.injEq, Prod.mk.injEq] at h
    rw [← h.1]
    exact ⟨rfl, rfl, rfl, rfl, rfl⟩
  | cons front rest =>
    simp only at h
    split at h
    · simp at h
    · split_ifs at h
      · simp only [Option.some.injEq, Prod.mk.injEq] at h
        rw [← h.1]
        exact ⟨rfl, rfl, rfl, rfl, rfl⟩
      · simp only [Option.some.injEq, Prod.mk.injEq] at h
        rw [← h.1]
        exact ⟨rfl, rfl, rfl, rfl, rfl⟩
      · simp only [Option.some.injEq, Prod.mk.injEq] at h
        rw [← h.1]
        exact ⟨rfl, rfl, rfl, rfl, rfl⟩

theorem sampleAddPoint_catalog (r : InfluxDbPointRecord DimUnits) (id : Str) (p : Point ℚ) :
    (sampleAddPoint r id p)._identifiersAndUnitsCache = r._identifiersAndUnitsCache := by
  unfold sampleAddPoint
  split
  · rename_i r₁ net₁ h
    exact (insertRange_frame ratFmt ratWire r r₁ deadNet net₁ id [p] h).1
  · rfl

/-- C24 (counterexample): a connected record with an empty catalog asks a server whose
answer to `show series` lists the measurement `flow` with one row, its `site` entry
being the text `a,units=x`.  After the refresh the catalog holds the key
`flow,site=a,units=x`, and parsing that key with `metricInfoFromName` yields a tag
mapping that has the `units` key (with value `x`). -/
theorem C24_listed_value_with_comma_shows_units :
    (connectedEmptyRecord.identifiersAndUnits ratWire 100 commaValueNet).map
        (fun r => r.2.1._identifiersAndUnitsCache.map
          (fun kv => (kv.1, smFind unitsKey (metricInfoFromName kv.1).tags))) =
      some [("flow,site=a,units=x".toList, some "x".toList)] := by
  decide

/-- C24 (amended): in every state reached from a record with an empty catalog by calls
of `insertIdentifierAndUnits` and of `identifiersAndUnits`, the latter against servers
whose series listings are clean (measurement names without `,`, column names non-empty
and without `=`, row entries outside the `_key` column without `,`), no key of the
catalog shows a `units` tag:
parsing any catalog key with `metricInfoFromName` yields a tag mapping without the key
`units`.  `PointRecord::addPoint`, which is not part of `src/`, is taken not to touch
the catalog. -/
theorem C24_reachable_catalog_hides_units {V U : Type} (E : Env V U) (W : WireEnv V U)
    (unitsEq : U → U → Bool)
    (addPoint : InfluxDbPointRecord U → Str → Point V → InfluxDbPointRecord U)
    (hadd : ∀ r id p,
      (addPoint r id p)._identifiersAndUnitsCache = r._identifiersAndUnitsCache)
    (r : InfluxDbPointRecord U) (h : CleanlyReachable E W unitsEq addPoint r) :
    ∀ kv ∈ r._identifiersAndUnitsCache,
      smFind unitsKey (metricInfoFromName kv.1).tags = none := by
  induction h with
  | start r hempty =>
    intro kv hkv
    rw [hempty] at hkv
    simp at hkv
  | insert r readonly id units _ ih =>
    exact insertIdentifierAndUnits_hides E readonly unitsEq addPoint hadd r id units ih
  | refresh r r' now net net' catalog _ hclean hcall ih =>
    exact identifiersAndUnits_hides W now r r' net net' catalog hclean ih hcall

theorem C24_reachable_catalog_hides_units_witness :
    (refreshedRecord.insertIdentifierAndUnits ratEnv false (fun a b => decide (a = b))
        sampleAddPoint "pressure,units=L1T0,site=b".toList
        metre).2._identifiersAndUnitsCache =
      [("flow,site=a".toList, metre), ("pressure,site=b".toList, metre)] ∧
    smFind unitsKey
      (metricInfoFromName (("pressure,site=b".toList, metre) : Str × DimUnits).1).tags =
        none :=
  ⟨rfl, C24_reachable_catalog_hides_units ratEnv ratWire (fun a b => decide (a = b))
    sampleAddPoint sampleAddPoint_catalog
    (refreshedRecord.insertIdentifierAndUnits ratEnv false (fun a b => decide (a = b))
      sampleAddPoint "pressure,units=L1T0,site=b".toList metre).2
    (CleanlyReachable.insert refreshedRecord false "pressure,units=L1T0,site=b".toList metre
      (CleanlyReachable.refresh connectedEmptyRecord refreshedRecord 100 catalogNet
        { catalogNet with requests :=
            [connectedEmptyRecord.urlForQuery ratWire "show series".toList false] }
        [("flow,site=a".toList, metre)]
        (CleanlyReachable.start connectedEmptyRecord rfl)
        (by
          intro earlier path doc hdoc
          simp only [catalogNet] at hdoc
          split_ifs at hdoc
          simp only [Option.some.injEq] at hdoc
          rw [← hdoc]
          exact showSeriesResponse_clean)
        rfl))
    ("pressure,site=b".toList, metre)
    (List.mem_cons_of_mem _ (List.mem_cons_self _ _))⟩

/-! ## Theorems: the fetched window, undecodable rows, a failed create -/

/-- C26: for a requested range whose end exceeds 1, when `pointAfter (end - 1)` answers
either a valid point later than `end - 1` or the invalid sentinel with time 0, the
seek-right loop ends after one call of `pointAfter` (one unit of fuel is enough), and
the source window is fetched (line 48) from the time of `prior` up to an upper bound
that is the time of that point when it is valid and the requested end otherwise; in
both cases the upper bound is not smaller than the requested end. -/
theorem C26_seek_right_one_call {V U : Type} (E : Env V U) (src : TimeSeries V U)
    (range : Int × Int) (hend : 1 < range.2)
    (hafter : ((src.pointAfter (range.2 - 1)).isValid = true ∧
        range.2 - 1 < (src.pointAfter (range.2 - 1)).time) ∨
      ((src.pointAfter (range.2 - 1)).isValid = false ∧
        (src.pointAfter (range.2 - 1)).time = 0)) :
    seekRightLoop src 1 { Point.invalid E with time := range.2 - 1 } =
        some (src.pointAfter (range.2 - 1)) ∧
      ∀ fuel, 1 ≤ fuel →
        ∃ upper,
          fetchWindow E src range fuel =
            some ((range.1, upper),
              src.points
                ((if (src.pointBefore (src.pointAtOrBefore range.1).time).time = 0
                    then src.pointAfter (range.1 - 1)
                    else src.pointBefore (src.pointAtOrBefore range.1).time).time,
                  upper)) ∧
          upper = (if (src.pointAfter (range.2 - 1)).isValid = true
            then (src.pointAfter (range.2 - 1)).time else range.2) ∧
          range.2 ≤ upper := by
  have hdone : ¬ (0 < (src.pointAfter (range.2 - 1)).time ∧
      (src.pointAfter (range.2 - 1)).isValid = false) := by
    rcases hafter with ⟨hv, _⟩ | ⟨_, ht⟩
    · simp [hv]
    · simp [ht]
  have hloop : ∀ f, seekRightLoop src (f + 1) { Point.invalid E with time := range.2 - 1 } =
      some (src.pointAfter (range.2 - 1)) := by
    intro f
    have hc : 0 < ({ Point.invalid E with time := range.2 - 1 } : Point V).time ∧
        ({ Point.invalid E with time := range.2 - 1 } : Point V).isValid = false :=
      ⟨by show 0 < range.2 - 1; omega, rfl⟩
    rw [seekRightLoop, if_pos hc]
    exact seekRightLoop_done _ _ _ hdone
  refine ⟨hloop 0, ?_⟩
  intro fuel hfuel
  obtain ⟨f, rfl⟩ : ∃ f, fuel = f + 1 := ⟨fuel - 1, by omega⟩
  simp only [fetchWindow, hloop f]
  rcases hafter with ⟨hv, ht⟩ | ⟨hv, ht⟩
  · have hpos : 0 < (src.pointAfter (range.2 - 1)).time := by omega
    rw [if_pos hpos, if_pos hv]
    exact ⟨_, rfl, rfl, by omega⟩
  · have hpos : ¬ 0 < (src.pointAfter (range.2 - 1)).time := by omega
    have hnv : ¬ (src.pointAfter (range.2 - 1)).isValid = true := by rw [hv]; decide
    rw [if_neg hpos, if_neg hnv]
    exact ⟨_, rfl, rfl, le_refl _⟩

theorem C26_seek_right_one_call_witness :
    seekRightLoop boundarySource 1 { Point.invalid ratEnv with time := (5, 15).2 - 1 } =
        some (boundarySource.pointAfter ((5, 15).2 - 1)) ∧
      ∀ fuel, 1 ≤ fuel →
        ∃ upper,
          fetchWindow ratEnv boundarySource (5, 15) fuel =
            some (((5, 15).1, upper),
              boundarySource.points
                ((if (boundarySource.pointBefore
                      (boundarySource.pointAtOrBefore (5, 15).1).time).time = 0
                    then boundarySource.pointAfter ((5, 15).1 - 1)
                    else boundarySource.pointBefore
                      (boundarySource.pointAtOrBefore (5, 15).1).time).time,
                  upper)) ∧
          upper = (if (boundarySource.pointAfter ((5, 15).2 - 1)).isValid = true
            then (boundarySource.pointAfter ((5, 15).2 - 1)).time else (5, 15).2) ∧
          (5, 15).2 ≤ upper :=
  C26_seek_right_one_call ratEnv boundarySource (5, 15) (by decide)
    (Or.inl (by simp [boundarySource, TimeSeries.ofPoints, Point.ofTimeValue]))

/-- C17 (evaluation of the code): the database does not exist, so the catalog probe is
answered with an `error` member in its first result and `dbConnect` issues the
create-database statement; the statement fails, its answer carrying an `error` member
in its first result too.  `dbConnect` leaves the record marked connected, with the
message `OK`: lines 116-119 test the answer for `IsNull()` and `HasMember("results")`
only, where lines 103-106 look for `error` in the first result of the probe. -/
theorem C17_connected_after_failed_create :
    failedCreateNet.respond [sampleRecord.pingPath, sampleRecord.probePath ratWire]
        (sampleRecord.createPath ratWire) = some failedCreateResponse ∧
    (((failedCreateResponse.member "results".toList).bind (Json.index 0)).bind
        (Json.member "error".toList)).bind Json.GetString = some "permission denied".toList ∧
    (sampleRecord.dbConnect ratWire failedCreateNet).map
        (fun r => (r.1._connected, r.1.errorMessage, r.2.requests)) =
      some (true, "OK".toList, [sampleRecord.pingPath, sampleRecord.probePath ratWire,
        sampleRecord.createPath ratWire]) := by
  refine ⟨rfl, rfl, by decide⟩

/-! ## Theorems: inserting against the answer of the store -/

end RTX
